import Mathlib

/-!
# ConnectionManager (client/ConnectionManager.cpp)

A shallow embedding of the peer connection manager: the two queues of
`ConnectionQueueItem`s, the list of `UserConnection`s, the per-second tick, the
NMDC and ADC handshake handlers, role dispatch and the failure handler.

Conventions of the embedding

* Heap objects (`ConnectionQueueItem*`, `UserConnection*`) are records that carry
  their address in a field `ptr`; the containers of the manager hold the records.
  `new` takes the next address from the counter `nextPtr`.
* A `UserPtr` is `Option CID`: `none` is the null pointer, and a user object is
  identified by its CID (the client manager keeps one `User` per CID).
* Calls into collaborating subsystems (hub, queue, download and upload managers,
  listeners fired, commands sent on a connection) are returned as a list of
  `Effect`s, in program order. What the collaborators answer is read from `Env`.
* Tick values (`uint64_t` milliseconds of `GET_TICK()`) are natural numbers and
  `errors` (an `int`) is an integer; the narrow counters `attempts` (16 bit),
  `count` (8 bit) and `iConnToMeCount` (16 bit) wrap explicitly.
* The arithmetic of the tick is the machine's: the product
  `60 * 1000 * max(1, errors)` is formed in 32 bit `int` (`wrapInt32`), converted
  to `uint64_t` (`toUInt64`) and added to `lastAttempt` modulo 2^64 (`addUInt64`).
* Events of a connection reach the manager while it listens to the connection,
  which is from `getConnection` to `putConnection`: a handler looks its source up
  in `userConnections` by address and does nothing when it is not there.
* Headers and collaborators that are not part of these sources are either fields
  of `Env` or definitions marked `Modelled from the spec`.
-/

namespace dcpp

/-- Content identifier of a user. -/
abbrev CID := Nat

/-- Shared handle to a user object; `none` is the null pointer. -/
abbrev UserPtr := Option CID

/-- Pair of a user and the hub url it was seen on. -/
structure HintedUser where
  user : UserPtr
  hint : String
deriving DecidableEq, Repr

/-- States of a queue item, `ConnectionQueueItem::State`. -/
inductive ConnectionQueueItem.State where
  | CONNECTING
  | WAITING
  | NO_DOWNLOAD_SLOTS
  | ACTIVE
deriving DecidableEq, Repr

/-- Queue item: the manager's wish to talk to a user in one direction. -/
structure ConnectionQueueItem where
  ptr : Nat
  user : HintedUser
  token : String
  download : Bool
  state : ConnectionQueueItem.State
  lastAttempt : Nat
  errors : Int
deriving DecidableEq, Repr

/-- Handshake states of a connection, `UserConnection::States`. -/
inductive UserConnection.States where
  | STATE_CONNECT
  | STATE_SUPNICK
  | STATE_INF
  | STATE_LOCK
  | STATE_DIRECTION
  | STATE_KEY
  | STATE_RUNNING
deriving DecidableEq, Repr

/-- Flag vocabulary of a connection, `UserConnection::Flags`. -/
inductive Flag where
  | FLAG_NMDC
  | FLAG_OP
  | FLAG_UPLOAD
  | FLAG_DOWNLOAD
  | FLAG_INCOMING
  | FLAG_ASSOCIATED
  | FLAG_STEALTH
  | FLAG_SUPPORTS_MINISLOTS
  | FLAG_SUPPORTS_XML_BZLIST
  | FLAG_SUPPORTS_ADCGET
  | FLAG_SUPPORTS_ZLIB_GET
  | FLAG_SUPPORTS_TTHL
  | FLAG_SUPPORTS_TTHF
deriving DecidableEq, Repr

/-- Flag set of a connection: one bit per flag. -/
structure Flags where
  nmdc : Bool
  op : Bool
  upload : Bool
  download : Bool
  incoming : Bool
  associated : Bool
  stealth : Bool
  minislots : Bool
  xmlBzlist : Bool
  adcget : Bool
  zlibGet : Bool
  tthl : Bool
  tthf : Bool
deriving DecidableEq, Repr

/-- No flag set. -/
def Flags.empty : Flags :=
  ⟨false, false, false, false, false, false, false, false, false, false, false, false, false⟩

/-- Write one bit of the flag set. -/
def Flags.assign (fl : Flags) (f : Flag) (b : Bool) : Flags :=
  match f with
  | .FLAG_NMDC => { fl with nmdc := b }
  | .FLAG_OP => { fl with op := b }
  | .FLAG_UPLOAD => { fl with upload := b }
  | .FLAG_DOWNLOAD => { fl with download := b }
  | .FLAG_INCOMING => { fl with incoming := b }
  | .FLAG_ASSOCIATED => { fl with associated := b }
  | .FLAG_STEALTH => { fl with stealth := b }
  | .FLAG_SUPPORTS_MINISLOTS => { fl with minislots := b }
  | .FLAG_SUPPORTS_XML_BZLIST => { fl with xmlBzlist := b }
  | .FLAG_SUPPORTS_ADCGET => { fl with adcget := b }
  | .FLAG_SUPPORTS_ZLIB_GET => { fl with zlibGet := b }
  | .FLAG_SUPPORTS_TTHL => { fl with tthl := b }
  | .FLAG_SUPPORTS_TTHF => { fl with tthf := b }

/-- Read one bit of the flag set. -/
def Flags.isSet (fl : Flags) (f : Flag) : Bool :=
  match f with
  | .FLAG_NMDC => fl.nmdc
  | .FLAG_OP => fl.op
  | .FLAG_UPLOAD => fl.upload
  | .FLAG_DOWNLOAD => fl.download
  | .FLAG_INCOMING => fl.incoming
  | .FLAG_ASSOCIATED => fl.associated
  | .FLAG_STEALTH => fl.stealth
  | .FLAG_SUPPORTS_MINISLOTS => fl.minislots
  | .FLAG_SUPPORTS_XML_BZLIST => fl.xmlBzlist
  | .FLAG_SUPPORTS_ADCGET => fl.adcget
  | .FLAG_SUPPORTS_ZLIB_GET => fl.zlibGet
  | .FLAG_SUPPORTS_TTHL => fl.tthl
  | .FLAG_SUPPORTS_TTHF => fl.tthf

/-- One peer connection. What belongs to its socket (remote address, keyprint,
TLS verdict) and its tie-break number are read from `Env` by address. -/
structure UserConnection where
  ptr : Nat
  secure : Bool
  user : UserPtr
  token : String
  hubUrl : String
  encoding : String
  flags : Flags
  state : UserConnection.States
  lastActivity : Nat
deriving DecidableEq, Repr

namespace UserConnection

/-- Member `isSet` of the connection. -/
def isSet (uc : UserConnection) (f : Flag) : Bool := uc.flags.isSet f

/-- Member `setFlag` of the connection. -/
def setFlag (uc : UserConnection) (f : Flag) : UserConnection :=
  { uc with flags := uc.flags.assign f true }

/-- Member `unsetFlag` of the connection. -/
def unsetFlag (uc : UserConnection) (f : Flag) : UserConnection :=
  { uc with flags := uc.flags.assign f false }

/-- Member `setState` of the connection. -/
def setState (uc : UserConnection) (s : UserConnection.States) : UserConnection :=
  { uc with state := s }

/-- Member `setUser` of the connection. -/
def setUser (uc : UserConnection) (u : UserPtr) : UserConnection :=
  { uc with user := u }

/-- Member `getHintedUser`: the user together with the hub url of the connection. -/
def getHintedUser (uc : UserConnection) : HintedUser := ⟨uc.user, uc.hubUrl⟩

end UserConnection

/-- Queue priorities, `QueueItem::Priority`; the manager only tests for `PAUSED`. -/
inductive Priority where
  | DEFAULT
  | PAUSED
  | LOWEST
  | LOW
  | NORMAL
  | HIGH
  | HIGHEST
deriving DecidableEq, Repr

/-- Reasons given to `QueueManager::removeSource`. -/
inductive SourceFlag where
  | FLAG_PASSIVE
  | FLAG_UNTRUSTED
deriving DecidableEq, Repr

/-- Error codes of the fatal `STA` commands the manager sends. -/
inductive AdcError where
  | ERROR_PROTOCOL_GENERIC
  | ERROR_INF_MISSING
  | ERROR_GENERIC
deriving DecidableEq, Repr

/-- Calls that leave the manager, in program order. -/
inductive Effect where
  | fireAdded (cqi : ConnectionQueueItem)
  | fireRemoved (cqi : ConnectionQueueItem)
  | fireStatusChanged (cqi : ConnectionQueueItem)
  | fireFailed (cqi : ConnectionQueueItem) (reason : String)
  | checkIdle (user : UserPtr)
  | removeDelayUpload (user : HintedUser)
  | hubConnect (user : HintedUser) (token : String)
  | connectionTimeout (user : HintedUser)
  | removeSource (user : UserPtr) (reason : SourceFlag)
  | ucDisconnect (uc : Nat) (graceless : Bool)
  | ucDelete (uc : Nat)
  | sendFatal (uc : Nat) (code : AdcError) (msg : String) (params : List (String × String))
  | sendSuccess (uc : Nat) (params : List (String × String))
  | sendSup (uc : Nat) (features : List String)
  | sendInf (uc : Nat) (withToken : Bool)
  | sendMyNick (uc : Nat) (nick : String)
  | sendLock (uc : Nat) (lock : String) (pk : String)
  | sendSupports (uc : Nat) (features : List String)
  | sendDirection (uc : Nat) (dir : String) (number : Int)
  | sendKey (uc : Nat) (key : String)
  | downloadAddConnection (uc : Nat)
  | uploadAddConnection (uc : Nat)
  | storeLastIp (hubUrl : String) (user : UserPtr) (ip : String)
  | setIPUser (user : UserPtr) (ip : String)
  | setPkLock (user : UserPtr) (pk : String) (lock : String)
  | setSupports (user : UserPtr) (sup : String)
  | logMessage (msg : String)
  | acceptAndClose
deriving DecidableEq, Repr

/-- Answers of the collaborating subsystems and the configuration, as the manager
reads them during one call. -/
structure Env where
  /-- Method `User::isOnline`. -/
  isOnline : UserPtr → Bool
  /-- Method `QueueManager::hasDownload`. -/
  hasDownload : HintedUser → Priority
  /-- Method `DownloadManager::startDownload`. -/
  startDownload : Priority → Bool
  /-- Setting `DOWNCONN_PER_SEC`. -/
  DOWNCONN_PER_SEC : Int
  /-- Setting `COMPRESS_TRANSFERS`. -/
  COMPRESS_TRANSFERS : Bool
  /-- Setting `ALLOW_UNTRUSTED_CLIENTS`. -/
  ALLOW_UNTRUSTED_CLIENTS : Bool
  /-- Setting `ENABLE_LAST_IP`. -/
  ENABLE_LAST_IP : Bool
  /-- Setting `TCP_PORT`. -/
  TCP_PORT : Nat
  /-- Setting `TLS_PORT`. -/
  TLS_PORT : Nat
  /-- Method `CryptoManager::TLSOk`. -/
  TLSOk : Bool
  /-- Method `ClientManager::findUser`. -/
  findUser : CID → UserPtr
  /-- Method `ClientManager::makeCid` applied to `Text::toUtf8 (nick, encoding)`
  and the hub url. -/
  makeCid : String → String → String → CID
  /-- Constructor `CID (string)` of a base32 text. -/
  cidOfString : String → CID
  /-- Method `ClientManager::findHubEncoding`. -/
  findHubEncoding : String → String
  /-- Method `ClientManager::isStealth`. -/
  isStealth : String → Bool
  /-- Method `ClientManager::isOp`. -/
  isOp : UserPtr → String → Bool
  /-- Method `ClientManager::getField` for the field `KP`. -/
  getFieldKP : UserPtr → String → String
  /-- Method `CryptoManager::isExtended`. -/
  isExtended : String → Bool
  /-- Method `CryptoManager::makeKey`. -/
  makeKey : String → String
  /-- Method `CryptoManager::getLock`. -/
  getLock : String
  /-- Method `CryptoManager::getPk`. -/
  getPk : String
  /-- Function `Encoder::fromBase32`: the bytes it writes for this text into a
  buffer of the given length. -/
  fromBase32 : String → Nat → List Nat
  /-- Token a fresh queue item for this user starts with. -/
  newToken : HintedUser → String
  /-- Member `getNumber` of the connection at this address. It is declared in
  UserConnection.h, which is not part of these sources; the `Direction` handler
  compares it with the parsed `int` as an integer. -/
  number : Nat → Int
  /-- Member `getDirectionString` of a connection with these flags. -/
  directionString : Flags → String
  /-- Whether the connection at this address has a socket that is open. -/
  hasSocket : Nat → Bool
  /-- Member `getRemoteIp` of the connection at this address. -/
  remoteIp : Nat → String
  /-- Member `getPort` of the connection at this address. -/
  port : Nat → Nat
  /-- Member `getKeyprint` of the connection at this address. -/
  keyprint : Nat → List Nat
  /-- Member `isTrusted` of the connection at this address. -/
  isTrusted : Nat → Bool
  /-- Feature names `UserConnection::FEATURE_*`. -/
  FEATURE_MINISLOTS : String
  FEATURE_XML_BZLIST : String
  FEATURE_ADCGET : String
  FEATURE_ZLIB_GET : String
  FEATURE_TTHL : String
  FEATURE_TTHF : String
  FEATURE_ADC_BAS0 : String
  FEATURE_ADC_BASE : String
  FEATURE_ADC_BZIP : String
  FEATURE_ADC_TIGR : String

/-- Listening socket with its accept thread, `ConnectionManager::Server`. -/
structure Server where
  secure : Bool
  port : Nat
deriving DecidableEq, Repr

/-- The connection manager. -/
structure ConnectionManager where
  downloads : List ConnectionQueueItem
  uploads : List ConnectionQueueItem
  userConnections : List UserConnection
  expectedConnections : List (String × String × String)
  floodCounter : Nat
  iConnToMeCount : Nat
  server : Option Server
  secureServer : Option Server
  shuttingDown : Bool
  nextPtr : Nat
deriving DecidableEq, Repr

namespace ConnectionManager

/-- State after the constructor. -/
def init : ConnectionManager :=
  { downloads := [], uploads := [], userConnections := [], expectedConnections := [],
    floodCounter := 0, iConnToMeCount := 0, server := none, secureServer := none,
    shuttingDown := false, nextPtr := 1 }

/-- Search `find (list.begin (), list.end (), aUser)`: the first item of that user. -/
def findCQI (l : List ConnectionQueueItem) (aUser : UserPtr) : Option ConnectionQueueItem :=
  l.find? (fun c => decide (c.user.user = aUser))

/-- Write through the iterator that `find (list.begin (), list.end (), aUser)`
returned: the first item of that user is changed by `f`, nothing else is. -/
def modifyCQI (aUser : UserPtr) (f : ConnectionQueueItem → ConnectionQueueItem) :
    List ConnectionQueueItem → List ConnectionQueueItem
  | [] => []
  | c :: cs => if c.user.user = aUser then f c :: cs else c :: modifyCQI aUser f cs

/-- Modelled from the spec: the constructor of `ConnectionQueueItem` is declared in
ConnectionManager.h, which is not part of these sources. A new item is in state
WAITING with `lastAttempt = 0` and `errors = 0`. -/
def newCQI (env : Env) (ptr : Nat) (aUser : HintedUser) (download : Bool) : ConnectionQueueItem :=
  { ptr := ptr, user := aUser, token := env.newToken aUser, download := download,
    state := .WAITING, lastAttempt := 0, errors := 0 }

/-- Method `getCQI`: allocate an item and append it to the list of its direction. -/
def getCQI (env : Env) (m : ConnectionManager) (aUser : HintedUser) (download : Bool) :
    ConnectionManager × ConnectionQueueItem × List Effect :=
  let cqi := newCQI env m.nextPtr aUser download
  let m1 := { m with nextPtr := m.nextPtr + 1 }
  let m2 := if download then { m1 with downloads := m1.downloads ++ [cqi] }
            else { m1 with uploads := m1.uploads ++ [cqi] }
  (m2, cqi, [Effect.fireAdded cqi])

/-- Method `putCQI`: erase the item (by address) from the list of its direction. -/
def putCQI (m : ConnectionManager) (cqi : ConnectionQueueItem) : ConnectionManager × List Effect :=
  if cqi.download then
    ({ m with downloads := m.downloads.filter (fun x => decide (x.ptr ≠ cqi.ptr)) },
      [Effect.fireRemoved cqi])
  else
    ({ m with uploads := m.uploads.filter (fun x => decide (x.ptr ≠ cqi.ptr)) },
      [Effect.fireRemoved cqi, Effect.removeDelayUpload cqi.user])

/-- Method `getDownloadConnection`. -/
def getDownloadConnection (env : Env) (m : ConnectionManager) (aUser : HintedUser) :
    ConnectionManager × List Effect :=
  match findCQI m.downloads aUser.user with
  | none => let r := getCQI env m aUser true; (r.1, r.2.2)
  | some _ => (m, [Effect.checkIdle aUser.user])

/-- Modelled from the spec: the constructor of `UserConnection` is declared in
UserConnection.h, which is not part of these sources. A new connection has no
user, no flags and empty strings; both callers of `getConnection` set its state. -/
def newUserConnection (ptr : Nat) (secure : Bool) : UserConnection :=
  { ptr := ptr, secure := secure, user := none, token := "", hubUrl := "", encoding := "",
    flags := Flags.empty, state := .STATE_CONNECT, lastActivity := 0 }

/-- Method `getConnection`: allocate a connection, append it to `userConnections`
and set `FLAG_NMDC` on it when asked to. -/
def getConnection (m : ConnectionManager) (aNmdc : Bool) (secure : Bool) :
    ConnectionManager × UserConnection :=
  let uc := newUserConnection m.nextPtr secure
  let uc1 := if aNmdc then uc.setFlag .FLAG_NMDC else uc
  ({ m with nextPtr := m.nextPtr + 1, userConnections := m.userConnections ++ [uc1] }, uc1)

/-- Method `putConnection`: disconnect and erase the connection (by address). -/
def putConnection (m : ConnectionManager) (aConn : Nat) : ConnectionManager × List Effect :=
  ({ m with userConnections := m.userConnections.filter (fun x => decide (x.ptr ≠ aConn)) },
    [Effect.ucDisconnect aConn true])

/-- The connection object an event source points to. Events reach the manager
only from connections it listens to, which are those in `userConnections`. -/
def findUC (m : ConnectionManager) (aSource : Nat) : Option UserConnection :=
  m.userConnections.find? (fun x => decide (x.ptr = aSource))

/-- Write through the pointer of a connection. -/
def storeUC (m : ConnectionManager) (uc : UserConnection) : ConnectionManager :=
  { m with userConnections := m.userConnections.map (fun x => if x.ptr = uc.ptr then uc else x) }

/-- Outcome of the per-second walk for one queue item: the item as the walk
leaves it, whether it was pushed on the `removed` list, the value of `attempts`
after it, and the calls made for it. -/
structure TickStep where
  cqi : ConnectionQueueItem
  removed : Bool
  attempts : Nat
  effects : List Effect
deriving DecidableEq, Repr

/-- Value kept by a 32 bit `int` for a result whose mathematical value is `x`:
the low 32 bits, read as two's complement. The language leaves the result of a
signed overflow open; this is the value the product of the tick takes on the
two's complement machines the client is built for. -/
def wrapInt32 (x : Int) : Int := (x + 2147483648) % 4294967296 - 2147483648

/-- Conversion of an `int` to `uint64_t`: the value modulo 2^64. -/
def toUInt64 (x : Int) : Nat := (x % 18446744073709551616).toNat

/-- Sum of two `uint64_t` values: the sum modulo 2^64. -/
def addUInt64 (a b : Nat) : Nat := (a + b) % 18446744073709551616

/-- Body of the loop in `on (TimerManagerListener::Second)` for one item.
`attempts` is the 16 bit counter of connects issued so far in this tick. The
retry test is `getLastAttempt() + 60 * 1000 * max(1, getErrors()) < aTick`, whose
product is an `int`, and the timeout test `getLastAttempt() + 50 * 1000 < aTick`;
both sums are `uint64_t`. -/
def tickItem (env : Env) (aTick : Nat) (attempts : Nat) (cqi : ConnectionQueueItem) : TickStep :=
  if cqi.state ≠ .ACTIVE then
    if env.isOnline cqi.user.user = false then
      ⟨cqi, true, attempts, []⟩
    else if cqi.errors = -1 ∧ cqi.lastAttempt ≠ 0 then
      ⟨cqi, false, attempts, []⟩
    else if cqi.lastAttempt = 0 ∨
        ((env.DOWNCONN_PER_SEC = 0 ∨ (attempts : Int) < env.DOWNCONN_PER_SEC) ∧
          addUInt64 cqi.lastAttempt (toUInt64 (wrapInt32 (60 * 1000 * max 1 cqi.errors)))
            < aTick) then
      let c1 := { cqi with lastAttempt := aTick }
      let prio := env.hasDownload c1.user
      if prio = .PAUSED then
        ⟨c1, true, attempts, []⟩
      else
        let startDown := env.startDownload prio
        if c1.state = .WAITING then
          if startDown = true then
            let c2 := { c1 with state := .CONNECTING }
            ⟨c2, false, (attempts + 1) % 65536,
              [Effect.hubConnect c2.user c2.token, Effect.fireStatusChanged c2]⟩
          else
            let c2 := { c1 with state := .NO_DOWNLOAD_SLOTS }
            ⟨c2, false, attempts, [Effect.fireFailed c2 "ALL_DOWNLOAD_SLOTS_TAKEN"]⟩
        else if c1.state = .NO_DOWNLOAD_SLOTS ∧ startDown = true then
          ⟨{ c1 with state := .WAITING }, false, attempts, []⟩
        else
          ⟨c1, false, attempts, []⟩
    else if cqi.state = .CONNECTING ∧ addUInt64 cqi.lastAttempt (50 * 1000) < aTick then
      let c1 := { cqi with errors := cqi.errors + 1 }
      ⟨{ c1 with state := .WAITING }, false, attempts,
        [Effect.connectionTimeout cqi.user, Effect.fireFailed c1 "CONNECTION_TIMEOUT"]⟩
    else
      ⟨cqi, false, attempts, []⟩
  else
    ⟨cqi, false, attempts, []⟩

/-- The loop over `downloads` in `on (TimerManagerListener::Second)`: one outcome per
item, in list order, `attempts` threaded through. -/
def tickWalk (env : Env) (aTick : Nat) : Nat → List ConnectionQueueItem → List TickStep
  | _, [] => []
  | attempts, c :: cs =>
    let r := tickItem env aTick attempts c
    r :: tickWalk env aTick r.attempts cs

/-- The second loop of the tick: `putCQI` for every item on the `removed` list. -/
def putAll : ConnectionManager → List ConnectionQueueItem → ConnectionManager × List Effect
  | m, [] => (m, [])
  | m, c :: cs =>
    let r := putCQI m c
    let r2 := putAll r.1 cs
    (r2.1, r.2 ++ r2.2)

/-- Handler `on (TimerManagerListener::Second, aTick)`. The list `passiveUsers`
stays empty (the code that fills it is commented out). -/
def onSecond (env : Env) (m : ConnectionManager) (aTick : Nat) : ConnectionManager × List Effect :=
  let steps := tickWalk env aTick 0 m.downloads
  let walked := { m with downloads := steps.map (fun r => r.cqi) }
  let removed := (steps.filter (fun r => r.removed)).map (fun r => r.cqi)
  let r := putAll walked removed
  (r.1, (steps.map (fun r => r.effects)).flatten ++ r.2)

/-- Handler `on (TimerManagerListener::Minute, aTick)`: disconnect idle connections. -/
def onMinute (m : ConnectionManager) (aTick : Nat) : ConnectionManager × List Effect :=
  (m, (m.userConnections.filter (fun uc => decide (uc.lastActivity + 180 * 1000 < aTick))).map
        (fun uc => Effect.ucDisconnect uc.ptr true))

/-- Constant `FLOOD_TRIGGER`. -/
def FLOOD_TRIGGER : Nat := 20000

/-- Constant `FLOOD_ADD`. -/
def FLOOD_ADD : Nat := 2000

/-- Tail of `accept` once the flood guard has let the socket through: create the
incoming connection; `acceptOk = false` stands for `uc->accept` throwing. -/
def acceptAdmit (m : ConnectionManager) (now2 : Nat) (secure : Bool) (acceptOk : Bool) :
    ConnectionManager × List Effect :=
  let r := getConnection m false secure
  let uc := ((r.2.setFlag .FLAG_INCOMING).setState .STATE_SUPNICK)
  let uc1 := { uc with lastActivity := now2 }
  let m1 := r.1.storeUC uc1
  if acceptOk then (m1, [])
  else
    let r2 := putConnection m1 uc1.ptr
    (r2.1, r2.2 ++ [Effect.ucDelete uc1.ptr])

/-- Method `accept`: `now` and `now2` are the two readings of `GET_TICK ()`. -/
def accept (m : ConnectionManager) (now now2 : Nat) (secure : Bool) (acceptOk : Bool) :
    ConnectionManager × List Effect :=
  let m1 := if m.iConnToMeCount > 0 then { m with iConnToMeCount := m.iConnToMeCount - 1 } else m
  if now > m1.floodCounter then
    acceptAdmit { m1 with floodCounter := now + FLOOD_ADD } now2 secure acceptOk
  else if now + FLOOD_TRIGGER < m1.floodCounter then
    (m1, [Effect.acceptAndClose])
  else if m1.iConnToMeCount ≤ 0 then
    acceptAdmit { m1 with floodCounter := m1.floodCounter + FLOOD_ADD } now2 secure acceptOk
  else
    acceptAdmit m1 now2 secure acceptOk

/-- The loop of `checkIpFlood` over `userConnections`; `count` is the 8 bit counter. -/
def ipFloodLoop (env : Env) (aServer : String) (aPort : Nat) : Nat → List UserConnection → Bool
  | _, [] => false
  | count, uc :: rest =>
    if env.hasSocket uc.ptr = false then ipFloodLoop env aServer aPort count rest
    else if env.remoteIp uc.ptr = aServer ∧ env.port uc.ptr = aPort then
      if (count + 1) % 256 ≥ 5 then true
      else ipFloodLoop env aServer aPort ((count + 1) % 256) rest
    else ipFloodLoop env aServer aPort count rest

/-- Method `checkIpFlood`: `true` refuses the outbound connect. -/
def checkIpFlood (env : Env) (m : ConnectionManager) (aServer : String) (aPort : Nat)
    (userInfo : String) : Bool × List Effect :=
  if aPort = 80 ∨ aPort = 2501 then
    (true, [Effect.logMessage ("Someone (" ++ userInfo ++ ") is trying to use your client to spam "
      ++ aServer ++ ":" ++ toString aPort ++ ", please urge hub owner to fix this")])
  else (ipFloodLoop env aServer aPort 0 m.userConnections, [])

/-- Method `nmdcConnect`; `connectOk = false` stands for `uc->connect` throwing. -/
def nmdcConnect (env : Env) (m : ConnectionManager) (aServer : String) (aPort : Nat)
    (aNick hubUrl encoding : String) (stealth secure : Bool) (connectOk : Bool) :
    ConnectionManager × List Effect :=
  if m.shuttingDown then (m, [])
  else
    let chk := checkIpFlood env m aServer aPort ("NMDC Hub: " ++ hubUrl)
    if chk.1 then (m, chk.2)
    else
      let r := getConnection m true secure
      let uc := { r.2 with token := aNick, hubUrl := hubUrl, encoding := encoding }
      let uc1 := (uc.setState .STATE_CONNECT).setFlag .FLAG_NMDC
      let uc2 := if stealth then uc1.setFlag .FLAG_STEALTH else uc1
      let m1 := r.1.storeUC uc2
      if connectOk then (m1, chk.2)
      else
        let r2 := putConnection m1 uc2.ptr
        (r2.1, chk.2 ++ r2.2 ++ [Effect.ucDelete uc2.ptr])

/-- Method `adcConnect`; the online user is given by its ip, nick, hub name, hub
url (`DHT` when it has no client) and operator status. -/
def adcConnect (env : Env) (m : ConnectionManager) (ip nick hubName hubUrl : String) (isOp : Bool)
    (aPort : Nat) (aToken : String) (secure : Bool) (connectOk : Bool) :
    ConnectionManager × List Effect :=
  if m.shuttingDown then (m, [])
  else
    let chk := checkIpFlood env m ip aPort ("ADC Nick: " ++ nick ++ ", Hub: " ++ hubName)
    if chk.1 then (m, chk.2)
    else
      let r := getConnection m false secure
      let uc := { r.2 with token := aToken, encoding := "utf-8" }
      let uc1 := { uc.setState .STATE_CONNECT with hubUrl := hubUrl }
      let uc2 := if isOp then uc1.setFlag .FLAG_OP else uc1
      let m1 := r.1.storeUC uc2
      if connectOk then (m1, chk.2)
      else
        let r2 := putConnection m1 uc2.ptr
        (r2.1, chk.2 ++ r2.2 ++ [Effect.ucDelete uc2.ptr])

/-- Method `disconnect ()`: delete both listeners. -/
def disconnect (m : ConnectionManager) : ConnectionManager :=
  { m with server := none, secureServer := none }

/-- Method `listen`: restart the plain listener and, with TLS available, the
secure one. -/
def listen (env : Env) (m : ConnectionManager) : ConnectionManager :=
  let m1 := disconnect m
  let m2 := { m1 with server := some ⟨false, env.TCP_PORT % 65536⟩ }
  if env.TLSOk = false then m2
  else { m2 with secureServer := some ⟨true, env.TLS_PORT % 65536⟩ }

/-- Member `adcFeatures` as the constructor fills it. -/
def adcFeatures (env : Env) : List String :=
  ["AD" ++ env.FEATURE_ADC_BAS0, "AD" ++ env.FEATURE_ADC_BASE, "AD" ++ env.FEATURE_ADC_TIGR,
   "AD" ++ env.FEATURE_ADC_BZIP]

/-- Member `features` as the constructor fills it. -/
def features (env : Env) : List String :=
  [env.FEATURE_MINISLOTS, env.FEATURE_XML_BZLIST, env.FEATURE_ADCGET, env.FEATURE_TTHL,
   env.FEATURE_TTHF]

/-- The feature list sent in `SUP`: `adcFeatures`, plus `ZLIB_GET` with compression on. -/
def defAdcFeatures (env : Env) : List String :=
  if env.COMPRESS_TRANSFERS then adcFeatures env ++ ["AD" ++ env.FEATURE_ZLIB_GET]
  else adcFeatures env

/-- Accumulator of the parameter loop of the `SUP` handler. -/
structure SupAcc where
  baseOk : Bool
  tigrOk : Bool
  uc : UserConnection
deriving DecidableEq, Repr

/-- Body of the parameter loop of the `SUP` handler for one parameter. -/
def supParam (env : Env) (acc : SupAcc) (p : String) : SupAcc :=
  if p.take 2 = "AD" then
    let feat := p.drop 2
    if feat = env.FEATURE_ADC_BASE ∨ feat = env.FEATURE_ADC_BAS0 then
      let tigr := if feat = env.FEATURE_ADC_BAS0 then true else acc.tigrOk
      let uc := ((((acc.uc.setFlag .FLAG_SUPPORTS_ADCGET).setFlag .FLAG_SUPPORTS_MINISLOTS).setFlag
        .FLAG_SUPPORTS_TTHF).setFlag .FLAG_SUPPORTS_TTHL).setFlag .FLAG_SUPPORTS_XML_BZLIST
      ⟨true, tigr, uc⟩
    else if feat = env.FEATURE_ZLIB_GET then
      { acc with uc := acc.uc.setFlag .FLAG_SUPPORTS_ZLIB_GET }
    else if feat = env.FEATURE_ADC_BZIP then
      { acc with uc := acc.uc.setFlag .FLAG_SUPPORTS_XML_BZLIST }
    else if feat = env.FEATURE_ADC_TIGR then
      { acc with tigrOk := true }
    else acc
  else acc

/-- Handler `on (AdcCommand::SUP)`. -/
def onSUP (env : Env) (m : ConnectionManager) (aSource : Nat) (params : List String) :
    ConnectionManager × List Effect :=
  match m.findUC aSource with
  | none => (m, [])
  | some src =>
    if src.state ≠ .STATE_SUPNICK then (m, [])
    else
      let acc := params.foldl (supParam env) ⟨false, false, src⟩
      if acc.baseOk = false then
        (m.storeUC acc.uc,
          [Effect.sendFatal aSource .ERROR_PROTOCOL_GENERIC "Invalid SUP" [],
           Effect.ucDisconnect aSource false])
      else if acc.uc.isSet .FLAG_INCOMING then
        (m.storeUC (acc.uc.setState .STATE_INF),
          [Effect.sendSup aSource (defAdcFeatures env), Effect.sendInf aSource false])
      else
        (m.storeUC (acc.uc.setState .STATE_INF), [Effect.sendInf aSource true])

/-- Handler `on (AdcCommand::STA)`: nothing. -/
def onSTA (m : ConnectionManager) (_aSource : Nat) : ConnectionManager × List Effect := (m, [])

/-- Handler `on (UserConnectionListener::Connected)`. -/
def onConnected (env : Env) (m : ConnectionManager) (aSource : Nat) :
    ConnectionManager × List Effect :=
  match m.findUC aSource with
  | none => (m, [])
  | some src =>
    if src.secure = true ∧ env.isTrusted aSource = false ∧ env.ALLOW_UNTRUSTED_CLIENTS = false then
      let r := putConnection m aSource
      (r.1, r.2 ++ [Effect.removeSource src.user .FLAG_UNTRUSTED])
    else if src.isSet .FLAG_NMDC then
      (m.storeUC (src.setState .STATE_SUPNICK),
        [Effect.sendMyNick aSource src.token,
         Effect.sendLock aSource env.getLock (env.getPk ++ "Ref=" ++ src.hubUrl)])
    else
      (m.storeUC (src.setState .STATE_SUPNICK),
        [Effect.sendSup aSource (defAdcFeatures env),
         Effect.sendSuccess aSource [("RF", src.hubUrl)]])

/-- Modelled from the spec: `ExpectedConnections::remove` is declared in
ConnectionManager.h, which is not part of these sources. It returns the pair
(token, hub url) stored for the nick and erases it, or two empty strings. -/
def expectedRemove (l : List (String × String × String)) (aNick : String) :
    (String × String) × List (String × String × String) :=
  match l.find? (fun e => decide (e.1 = aNick)) with
  | some e => (e.2, l.erase e)
  | none => (("", ""), l)

/-- The loop of the `MyNick` handler over `downloads`: every item visited has its
`errors` set to 0; the walk stops at the first item of a user with this CID that
is CONNECTING or WAITING and returns that user. -/
def myNickScan (cid : CID) : List ConnectionQueueItem → List ConnectionQueueItem × Option HintedUser
  | [] => ([], none)
  | c :: cs =>
    let c1 := { c with errors := 0 }
    if (c1.state = .CONNECTING ∨ c1.state = .WAITING) ∧ c1.user.user = some cid then
      (c1 :: cs, some c1.user)
    else
      let r := myNickScan cid cs
      (c1 :: r.1, r.2)

/-- Tail of the `MyNick` handler, from the stealth test on. -/
def myNickFinish (env : Env) (m : ConnectionManager) (uc : UserConnection) :
    ConnectionManager × List Effect :=
  let uc1 := if env.isStealth uc.hubUrl then uc.setFlag .FLAG_STEALTH else uc
  let uc2 := if env.isOp uc1.user uc1.hubUrl then uc1.setFlag .FLAG_OP else uc1
  let fx := if uc2.isSet .FLAG_INCOMING then
      [Effect.sendMyNick uc2.ptr uc2.token, Effect.sendLock uc2.ptr env.getLock env.getPk]
    else []
  (m.storeUC (uc2.setState .STATE_LOCK), Effect.setIPUser uc1.user (env.remoteIp uc.ptr) :: fx)

/-- The `MyNick` handler from the computation of the CID on; `uc` is the source
after the expected-connection lookup. -/
def myNickRole (env : Env) (m : ConnectionManager) (uc : UserConnection) (aNick : String) :
    ConnectionManager × List Effect :=
  let cid := env.makeCid aNick uc.encoding uc.hubUrl
  let scan := myNickScan cid m.downloads
  let m1 := { m with downloads := scan.1 }
  let uc1 := match scan.2 with
    | some u => (uc.setUser u.user).setFlag .FLAG_DOWNLOAD
    | none => uc
  if uc1.user = none then
    let uc2 := uc1.setUser (env.findUser cid)
    if uc2.user = none ∨ env.isOnline uc2.user = false then
      putConnection m1 uc.ptr
    else
      myNickFinish env m1 (uc2.setFlag .FLAG_UPLOAD)
  else
    myNickFinish env m1 uc1

/-- Handler `on (UserConnectionListener::MyNick)`. -/
def onMyNick (env : Env) (m : ConnectionManager) (aSource : Nat) (aNick : String) :
    ConnectionManager × List Effect :=
  match m.findUC aSource with
  | none => (m, [])
  | some src =>
    if src.state ≠ .STATE_SUPNICK then (m, [])
    else if src.isSet .FLAG_INCOMING then
      let i := expectedRemove m.expectedConnections aNick
      let m1 := { m with expectedConnections := i.2 }
      if i.1.2 = "" then putConnection m1 aSource
      else
        myNickRole env m1
          { src with token := i.1.1, hubUrl := i.1.2, encoding := env.findHubEncoding i.1.2 } aNick
    else
      myNickRole env m src aNick

/-- Handler `on (UserConnectionListener::CLock)`. -/
def onCLock (env : Env) (m : ConnectionManager) (aSource : Nat) (aLock aPk : String) :
    ConnectionManager × List Effect :=
  match m.findUC aSource with
  | none => (m, [])
  | some src =>
    if src.state ≠ .STATE_LOCK then (m, [])
    else
      let defFeatures := if env.COMPRESS_TRANSFERS then features env ++ [env.FEATURE_ZLIB_GET]
        else features env
      let fx1 := if env.isExtended aLock then [Effect.sendSupports aSource defFeatures] else []
      let fx2 := [Effect.sendDirection aSource (env.directionString src.flags) (env.number aSource),
        Effect.sendKey aSource (env.makeKey aLock)]
      let fx3 := if src.user ≠ none then [Effect.setPkLock src.user aPk aLock] else []
      (m.storeUC (src.setState .STATE_DIRECTION), fx1 ++ fx2 ++ fx3)

/-- Handler `on (UserConnectionListener::Direction)`; `number` is `Util::toInt (num)`. -/
def onDirection (env : Env) (m : ConnectionManager) (aSource : Nat) (dir : String) (number : Int) :
    ConnectionManager × List Effect :=
  match m.findUC aSource with
  | none => (m, [])
  | some src =>
    if src.state ≠ .STATE_DIRECTION then (m, [])
    else if dir = "Upload" then
      if src.isSet .FLAG_UPLOAD then putConnection m aSource
      else (m.storeUC (src.setState .STATE_KEY), [])
    else if src.isSet .FLAG_DOWNLOAD then
      if env.number aSource < number then
        (m.storeUC (((src.unsetFlag .FLAG_DOWNLOAD).setFlag .FLAG_UPLOAD).setState .STATE_KEY), [])
      else if env.number aSource = number then putConnection m aSource
      else (m.storeUC (src.setState .STATE_KEY), [])
    else (m.storeUC (src.setState .STATE_KEY), [])

/-- Method `store_last_ip`, called with both pointers set. -/
def store_last_ip (env : Env) (p_uc : UserConnection) (p_qi : ConnectionQueueItem) : List Effect :=
  if env.ENABLE_LAST_IP then
    [Effect.storeLastIp p_uc.hubUrl p_qi.user.user (env.remoteIp p_uc.ptr)]
  else []

/-- Modelled from the spec: `DownloadManager::addConnection` and
`UploadManager::addConnection` are not part of these sources. A connection handed
to one of the two subsystems is in STATE_RUNNING from then on. -/
def handOver (uc : UserConnection) : UserConnection := uc.setState .STATE_RUNNING

/-- Method `addDownloadConnection`; `uc` is the connection object as the caller
left it. -/
def addDownloadConnection (env : Env) (m : ConnectionManager) (uc : UserConnection) :
    ConnectionManager × List Effect :=
  match findCQI m.downloads uc.user with
  | some cqi =>
    if cqi.state = .WAITING ∨ cqi.state = .CONNECTING then
      let cqi1 := { cqi with state := .ACTIVE }
      let ds := modifyCQI uc.user (fun c => { c with state := .ACTIVE }) m.downloads
      let m1 := { m with downloads := ds }
      (m1.storeUC (handOver (uc.setFlag .FLAG_ASSOCIATED)),
        Effect.downloadAddConnection uc.ptr :: store_last_ip env uc cqi1)
    else putConnection m uc.ptr
  | none => putConnection m uc.ptr

/-- Method `addUploadConnection`; `uc` is the connection object as the caller
left it. -/
def addUploadConnection (env : Env) (m : ConnectionManager) (uc : UserConnection) :
    ConnectionManager × List Effect :=
  match findCQI m.uploads uc.user with
  | none =>
    let r := getCQI env m uc.getHintedUser false
    let cqi1 := { r.2.1 with state := .ACTIVE }
    let m1 := { r.1 with uploads := m.uploads ++ [cqi1] }
    (m1.storeUC (handOver (uc.setFlag .FLAG_ASSOCIATED)),
      r.2.2 ++ Effect.uploadAddConnection uc.ptr :: store_last_ip env uc cqi1)
  | some _ => putConnection m uc.ptr

/-- Handler `on (UserConnectionListener::Key)`, together with what the download
or upload manager does to the connection it is handed (`handOver`). -/
def onKey (env : Env) (m : ConnectionManager) (aSource : Nat) : ConnectionManager × List Effect :=
  match m.findUC aSource with
  | none => (m, [])
  | some src =>
    if src.state ≠ .STATE_KEY then (m, [])
    else if src.isSet .FLAG_DOWNLOAD then addDownloadConnection env m src
    else addUploadConnection env m src

/-- Method `addDownloadConnection` as the source has it, for what it writes
itself: the call `DownloadManager::getInstance ()->addConnection (uc)` is the
call `downloadAddConnection` and nothing more. -/
def addDownloadConnectionOwn (env : Env) (m : ConnectionManager) (uc : UserConnection) :
    ConnectionManager × List Effect :=
  match findCQI m.downloads uc.user with
  | some cqi =>
    if cqi.state = .WAITING ∨ cqi.state = .CONNECTING then
      let cqi1 := { cqi with state := .ACTIVE }
      let ds := modifyCQI uc.user (fun c => { c with state := .ACTIVE }) m.downloads
      let m1 := { m with downloads := ds }
      (m1.storeUC (uc.setFlag .FLAG_ASSOCIATED),
        Effect.downloadAddConnection uc.ptr :: store_last_ip env uc cqi1)
    else putConnection m uc.ptr
  | none => putConnection m uc.ptr

/-- Method `addUploadConnection` as the source has it, for what it writes itself:
the call `UploadManager::getInstance ()->addConnection (uc)` is the call
`uploadAddConnection` and nothing more. -/
def addUploadConnectionOwn (env : Env) (m : ConnectionManager) (uc : UserConnection) :
    ConnectionManager × List Effect :=
  match findCQI m.uploads uc.user with
  | none =>
    let r := getCQI env m uc.getHintedUser false
    let cqi1 := { r.2.1 with state := .ACTIVE }
    let m1 := { r.1 with uploads := m.uploads ++ [cqi1] }
    (m1.storeUC (uc.setFlag .FLAG_ASSOCIATED),
      r.2.2 ++ Effect.uploadAddConnection uc.ptr :: store_last_ip env uc cqi1)
  | some _ => putConnection m uc.ptr

/-- Handler `on (UserConnectionListener::Key)` as the source has it, for what the
manager writes itself. `onKey` is this handler together with what the download
or upload manager does to the connection it is handed (`handOver`). -/
def onKeyOwn (env : Env) (m : ConnectionManager) (aSource : Nat) :
    ConnectionManager × List Effect :=
  match m.findUC aSource with
  | none => (m, [])
  | some src =>
    if src.state ≠ .STATE_KEY then (m, [])
    else if src.isSet .FLAG_DOWNLOAD then addDownloadConnectionOwn env m src
    else addUploadConnectionOwn env m src

/-- Modelled from the spec: `AdcCommand::getParam` is not part of these sources.
A named parameter is a parameter that starts with the two letters of the name
(`ID<cid>`, `TO<token>`); its value is the rest of the first such parameter. -/
def getParam (params : List String) (name : String) : Option String :=
  (params.find? (fun p => decide (p.take 2 = name))).map (fun p => p.drop 2)

/-- Method `checkKeyprint`: `kp` is the keyprint of the connection (a vector of
bytes), `kp2` the `KP` field the hub holds for the user. The vector `kp2v` has
`kp.size ()` bytes, all zero until `Encoder::fromBase32` writes into it. -/
def checkKeyprint (env : Env) (kp : List Nat) (kp2 : String) : Bool :=
  if kp = [] then true
  else if kp2 = "" then true
  else if kp2.take 7 ≠ "SHA256/" then true
  else
    let decoded := env.fromBase32 (kp2.drop 7) kp.length
    let kp2v := (List.range kp.length).map (fun i => decoded.getD i 0)
    if kp ≠ kp2v then false else true

/-- The `INF` handler from the role decision on; `uc` is the source with its user
set and `token` the token that applies. -/
def infRole (env : Env) (m : ConnectionManager) (uc : UserConnection) (token : String) :
    ConnectionManager × List Effect :=
  match findCQI m.downloads uc.user with
  | some cqi =>
    let m1 := { m with downloads := modifyCQI uc.user (fun c => { c with errors := 0 }) m.downloads }
    if cqi.token = token then addDownloadConnection env m1 (uc.setFlag .FLAG_DOWNLOAD)
    else addUploadConnection env m1 (uc.setFlag .FLAG_UPLOAD)
  | none => addUploadConnection env m (uc.setFlag .FLAG_UPLOAD)

/-- Handler `on (AdcCommand::INF)`. -/
def onINF (env : Env) (m : ConnectionManager) (aSource : Nat) (params : List String) :
    ConnectionManager × List Effect :=
  match m.findUC aSource with
  | none => (m, [])
  | some src =>
    if src.state ≠ .STATE_INF then
      (m, [Effect.sendFatal aSource .ERROR_PROTOCOL_GENERIC "Expecting INF" [],
           Effect.ucDisconnect aSource false])
    else
      match getParam params "ID" with
      | none =>
        (m, [Effect.sendFatal aSource .ERROR_INF_MISSING "ID missing" [("FL", "ID")],
             Effect.ucDisconnect aSource false])
      | some cid =>
        let uc := src.setUser (env.findUser (env.cidOfString cid))
        if uc.user = none then
          let r := putConnection m aSource
          (r.1, Effect.sendFatal aSource .ERROR_GENERIC "User not found" [] :: r.2)
        else if checkKeyprint env (env.keyprint aSource) (env.getFieldKP uc.user uc.hubUrl) = false then
          putConnection m aSource
        else if uc.isSet .FLAG_INCOMING then
          match getParam params "TO" with
          | none =>
            let r := putConnection m aSource
            (r.1, Effect.sendFatal aSource .ERROR_GENERIC "TO missing" [] :: r.2)
          | some token => infRole env m uc token
        else infRole env m uc uc.token

/-- Method `force`. -/
def force (m : ConnectionManager) (aUser : UserPtr) : ConnectionManager :=
  { m with downloads := modifyCQI aUser (fun c => { c with lastAttempt := 0 }) m.downloads }

/-- Method `failed`; `now` is `GET_TICK ()`. With no queue item of the user (where
the source asserts and dereferences `end ()`), the queues are left as they are. -/
def failed (m : ConnectionManager) (aSource : Nat) (aError : String) (protocolError : Bool)
    (now : Nat) : ConnectionManager × List Effect :=
  match m.findUC aSource with
  | none => (m, [])
  | some src =>
    if src.isSet .FLAG_ASSOCIATED then
      if src.isSet .FLAG_DOWNLOAD then
        let upd : ConnectionQueueItem → ConnectionQueueItem := fun c =>
          { c with state := .WAITING, lastAttempt := now,
                   errors := if protocolError then -1 else c.errors + 1 }
        let fx := match findCQI m.downloads src.user with
          | some cqi => [Effect.fireFailed (upd cqi) aError]
          | none => []
        let r := putConnection { m with downloads := modifyCQI src.user upd m.downloads } aSource
        (r.1, fx ++ r.2)
      else if src.isSet .FLAG_UPLOAD then
        match findCQI m.uploads src.user with
        | some cqi =>
          let r1 := putCQI m cqi
          let r := putConnection r1.1 aSource
          (r.1, r1.2 ++ r.2)
        | none => putConnection m aSource
      else putConnection m aSource
    else putConnection m aSource

/-- Handler `on (UserConnectionListener::Failed)`. -/
def onFailed (m : ConnectionManager) (aSource : Nat) (aError : String) (now : Nat) :
    ConnectionManager × List Effect :=
  failed m aSource aError false now

/-- Handler `on (UserConnectionListener::ProtocolError)`. -/
def onProtocolError (m : ConnectionManager) (aSource : Nat) (aError : String) (now : Nat) :
    ConnectionManager × List Effect :=
  failed m aSource aError true now

/-- Method `disconnect (aUser)`: signal every connection of the user. -/
def disconnectUser (m : ConnectionManager) (aUser : UserPtr) : ConnectionManager × List Effect :=
  (m, (m.userConnections.filter (fun uc => decide (uc.user = aUser))).map
        (fun uc => Effect.ucDisconnect uc.ptr true))

/-- Method `disconnect (aUser, isDownload)`: signal the first connection of the
user in that direction. -/
def disconnectUserDir (m : ConnectionManager) (aUser : UserPtr) (isDownload : Bool) :
    ConnectionManager × List Effect :=
  match m.userConnections.find? (fun uc => decide (uc.user = aUser) &&
      uc.isSet (if isDownload then .FLAG_DOWNLOAD else .FLAG_UPLOAD)) with
  | some uc => (m, [Effect.ucDisconnect uc.ptr true])
  | none => (m, [])

/-- Method `shutdown` up to its wait loop: set `shuttingDown`, delete the
listeners, signal every connection. The wait loop that follows changes nothing;
it ends once `userConnections` is empty. -/
def shutdown (m : ConnectionManager) : ConnectionManager × List Effect :=
  ({ disconnect m with shuttingDown := true },
    m.userConnections.map (fun uc => Effect.ucDisconnect uc.ptr true))

/-- Body of the loop of the `Supports` handler for one feature name. -/
def supportsFeat (env : Env) (conn : UserConnection) (f : String) : UserConnection :=
  if f = env.FEATURE_MINISLOTS then conn.setFlag .FLAG_SUPPORTS_MINISLOTS
  else if f = env.FEATURE_XML_BZLIST then conn.setFlag .FLAG_SUPPORTS_XML_BZLIST
  else if f = env.FEATURE_ADCGET then conn.setFlag .FLAG_SUPPORTS_ADCGET
  else if f = env.FEATURE_ZLIB_GET then conn.setFlag .FLAG_SUPPORTS_ZLIB_GET
  else if f = env.FEATURE_TTHL then conn.setFlag .FLAG_SUPPORTS_TTHL
  else if f = env.FEATURE_TTHF then conn.setFlag .FLAG_SUPPORTS_TTHF
  else conn

/-- Handler `on (UserConnectionListener::Supports)`. -/
def onSupports (env : Env) (m : ConnectionManager) (conn : Nat) (feat : List String) :
    ConnectionManager × List Effect :=
  match m.findUC conn with
  | none => (m, [])
  | some src =>
    let uc := feat.foldl (supportsFeat env) src
    let sup := feat.foldl (fun acc f => acc ++ f ++ " ") ""
    (m.storeUC uc, if uc.user ≠ none then [Effect.setSupports uc.user sup] else [])

/-- Number of hub connect requests among the calls. -/
def countConnects (fx : List Effect) : Nat :=
  (fx.filter (fun e => match e with
    | Effect.hubConnect _ _ => true
    | _ => false)).length

/-- Modelled from the spec: `nmdcExpect` is declared in ConnectionManager.h, which
is not part of these sources. It records the pair (token, hub url) under the nick
of the peer an incoming NMDC connection is expected from. -/
def nmdcExpect (m : ConnectionManager) (aNick aMyNick aHubUrl : String) : ConnectionManager :=
  { m with expectedConnections := m.expectedConnections ++ [(aNick, aMyNick, aHubUrl)] }

/-- The hub side announcing a connect-to-me request: the static 16 bit counter
`iConnToMeCount` goes up by one. -/
def connToMe (m : ConnectionManager) : ConnectionManager :=
  { m with iConnToMeCount := (m.iConnToMeCount + 1) % 65536 }

/-- Calls and events the manager receives. -/
inductive Op where
  | listen
  | getDownloadConnection (aUser : HintedUser)
  | second (aTick : Nat)
  | minute (aTick : Nat)
  | accept (now now2 : Nat) (secure acceptOk : Bool)
  | nmdcConnect (aServer : String) (aPort : Nat) (aNick hubUrl encoding : String)
      (stealth secure connectOk : Bool)
  | adcConnect (ip nick hubName hubUrl : String) (isOp : Bool) (aPort : Nat) (aToken : String)
      (secure connectOk : Bool)
  | nmdcExpect (aNick aMyNick aHubUrl : String)
  | connToMe
  | sup (aSource : Nat) (params : List String)
  | sta (aSource : Nat)
  | connected (aSource : Nat)
  | myNick (aSource : Nat) (aNick : String)
  | cLock (aSource : Nat) (aLock aPk : String)
  | direction (aSource : Nat) (dir : String) (number : Int)
  | key (aSource : Nat)
  | inf (aSource : Nat) (params : List String)
  | supports (conn : Nat) (feat : List String)
  | failed (aSource : Nat) (aError : String) (now : Nat)
  | protocolError (aSource : Nat) (aError : String) (now : Nat)
  | force (aUser : UserPtr)
  | disconnectUser (aUser : UserPtr)
  | disconnectUserDir (aUser : UserPtr) (isDownload : Bool)
  | shutdown
deriving DecidableEq, Repr

/-- State and calls after one call or event. -/
def perform (env : Env) (m : ConnectionManager) : Op → ConnectionManager × List Effect
  | .listen => (listen env m, [])
  | .getDownloadConnection aUser => getDownloadConnection env m aUser
  | .second aTick => onSecond env m aTick
  | .minute aTick => onMinute m aTick
  | .accept now now2 secure acceptOk => accept m now now2 secure acceptOk
  | .nmdcConnect aServer aPort aNick hubUrl encoding stealth secure connectOk =>
    nmdcConnect env m aServer aPort aNick hubUrl encoding stealth secure connectOk
  | .adcConnect ip nick hubName hubUrl isOp aPort aToken secure connectOk =>
    adcConnect env m ip nick hubName hubUrl isOp aPort aToken secure connectOk
  | .nmdcExpect aNick aMyNick aHubUrl => (nmdcExpect m aNick aMyNick aHubUrl, [])
  | .connToMe => (connToMe m, [])
  | .sup aSource params => onSUP env m aSource params
  | .sta aSource => onSTA m aSource
  | .connected aSource => onConnected env m aSource
  | .myNick aSource aNick => onMyNick env m aSource aNick
  | .cLock aSource aLock aPk => onCLock env m aSource aLock aPk
  | .direction aSource dir number => onDirection env m aSource dir number
  | .key aSource => onKey env m aSource
  | .inf aSource params => onINF env m aSource params
  | .supports conn feat => onSupports env m conn feat
  | .failed aSource aError now => onFailed m aSource aError now
  | .protocolError aSource aError now => onProtocolError m aSource aError now
  | .force aUser => (force m aUser, [])
  | .disconnectUser aUser => disconnectUser m aUser
  | .disconnectUserDir aUser isDownload => disconnectUserDir m aUser isDownload
  | .shutdown => shutdown m

/-- When a call or event can occur. The socket fires `Connected` once, when an
outbound connect completes, on a connection still in STATE_CONNECT (the handler
asserts that state); everything else can occur at any time. -/
def enabled (m : ConnectionManager) : Op → Bool
  | .connected aSource =>
    match m.findUC aSource with
    | some src => decide (src.state = .STATE_CONNECT)
    | none => true
  | _ => true

/-- States the manager can be in: the state after the constructor, and every
state that a call or event leads to from such a state, whatever the
collaborators answer. -/
inductive Reachable : ConnectionManager → Prop where
  | init : Reachable ConnectionManager.init
  | step (env : Env) (m : ConnectionManager) (op : Op) :
      Reachable m → enabled m op = true → Reachable (perform env m op).1

/-- Plain environment used in examples: every user online and known, downloads
admitted, a budget of one connect per tick, no TLS checks; the number of a
connection is its address. -/
def exampleEnv : Env :=
  { isOnline := fun _ => true, hasDownload := fun _ => .NORMAL, startDownload := fun _ => true,
    DOWNCONN_PER_SEC := 1, COMPRESS_TRANSFERS := false, ALLOW_UNTRUSTED_CLIENTS := true,
    ENABLE_LAST_IP := false, TCP_PORT := 4000, TLS_PORT := 4001, TLSOk := false,
    findUser := fun c => some c, makeCid := fun nick _ _ => nick.length,
    cidOfString := fun s => s.length, findHubEncoding := fun _ => "utf-8",
    isStealth := fun _ => false, isOp := fun _ _ => false, getFieldKP := fun _ _ => "",
    isExtended := fun _ => false, makeKey := fun l => l, getLock := "LOCK", getPk := "PK",
    fromBase32 := fun _ n => List.replicate n 0, newToken := fun _ => "token",
    number := fun p => p, directionString := fun _ => "Download", hasSocket := fun _ => true,
    remoteIp := fun _ => "10.0.0.1", port := fun _ => 412, keyprint := fun _ => [],
    isTrusted := fun _ => true, FEATURE_MINISLOTS := "MiniSlots",
    FEATURE_XML_BZLIST := "XmlBZList", FEATURE_ADCGET := "ADCGet", FEATURE_ZLIB_GET := "ZLIG",
    FEATURE_TTHL := "TTHL", FEATURE_TTHF := "TTHF", FEATURE_ADC_BAS0 := "BAS0",
    FEATURE_ADC_BASE := "BASE", FEATURE_ADC_BZIP := "BZIP", FEATURE_ADC_TIGR := "TIGR" }

/-- Consecutive calls of `getDownloadConnection` for the same user, one per
environment of the list. -/
def getDownloadConnections (aUser : HintedUser) : List Env → ConnectionManager → ConnectionManager
  | [], m => m
  | e :: es, m => getDownloadConnections aUser es (getDownloadConnection e m aUser).1

/-- At most one queue item per user in each of the two queues. -/
def UniquePerUser (m : ConnectionManager) : Prop :=
  (m.downloads.map (fun c => c.user.user)).Nodup ∧ (m.uploads.map (fun c => c.user.user)).Nodup

/-- The walk of the tick over `l`, item by item with the item it came from; counts
the items that had been tried before (`lastAttempt ≠ 0`) and that the tick moves
from WAITING to CONNECTING. -/
def countGated (env : Env) (aTick : Nat) : Nat → List ConnectionQueueItem → Nat
  | _, [] => 0
  | attempts, c :: cs =>
    let r := tickItem env aTick attempts c
    (if c.lastAttempt ≠ 0 ∧ c.state = .WAITING ∧ r.cqi.state = .CONNECTING then 1 else 0) +
      countGated env aTick r.attempts cs

/-- The per-second tick run once for every (environment, time) pair of the list. -/
def runTicks : List (Env × Nat) → ConnectionManager → ConnectionManager
  | [], m => m
  | t :: ts, m => runTicks ts (onSecond t.1 m t.2).1

/-- Value of `attempts` after the walk of the tick over `l`. -/
def walkAttempts (env : Env) (aTick : Nat) : Nat → List ConnectionQueueItem → Nat
  | attempts, [] => attempts
  | attempts, c :: cs => walkAttempts env aTick (tickItem env aTick attempts c).attempts cs

/-- Example state: the manager after `getDownloadConnection` for two users, both
items new (WAITING, `lastAttempt = 0`). -/
def exampleTwoFresh : ConnectionManager :=
  (getDownloadConnection exampleEnv (getDownloadConnection exampleEnv init ⟨some 7, "hub"⟩).1
    ⟨some 8, "hub"⟩).1

/-- Example environment without a connect budget (`DOWNCONN_PER_SEC = 0`). -/
def exampleEnvNoBudget : Env := { exampleEnv with DOWNCONN_PER_SEC := 0 }

/-- Example item: a WAITING download of user `i`, tried before at time 1. -/
def exampleTried (i : Nat) : ConnectionQueueItem :=
  ⟨i, ⟨some i, "hub"⟩, "tok", true, .WAITING, 1, 0⟩

/-- Example state for the direction tie-break: one connection at address 10 (so
its number is 10 under `exampleEnv`), in STATE_DIRECTION, holding FLAG_DOWNLOAD. -/
def exampleDirection : ConnectionManager :=
  { init with
    userConnections := [{ newUserConnection 10 false with
      user := some 7, state := .STATE_DIRECTION,
      flags := Flags.empty.assign .FLAG_DOWNLOAD true }],
    nextPtr := 11 }

/-- What the association invariant reads of a queue item: address, user,
direction and whether it is ACTIVE. -/
structure QView where
  ptr : Nat
  user : UserPtr
  download : Bool
  active : Bool
deriving DecidableEq, Repr

/-- View of a queue item. -/
def cqiView (c : ConnectionQueueItem) : QView :=
  ⟨c.ptr, c.user.user, c.download, decide (c.state = .ACTIVE)⟩

/-- What the association invariant reads of a connection: address, user, the
flags FLAG_ASSOCIATED, FLAG_DOWNLOAD, FLAG_UPLOAD and the handshake state. -/
structure CView where
  ptr : Nat
  user : UserPtr
  assoc : Bool
  down : Bool
  up : Bool
  state : UserConnection.States
deriving DecidableEq, Repr

/-- View of a connection. -/
def ucView (uc : UserConnection) : CView :=
  ⟨uc.ptr, uc.user, uc.isSet .FLAG_ASSOCIATED, uc.isSet .FLAG_DOWNLOAD, uc.isSet .FLAG_UPLOAD,
    uc.state⟩

/-- Flags and user a connection can have in each handshake state: before a role
is given (CONNECT, SUPNICK, INF) no user and none of the three flags; with a role
but not yet handed over (LOCK, DIRECTION, KEY) exactly one role flag and not
associated; handed over (RUNNING) associated with exactly one role flag. -/
def Shape (v : CView) : Prop :=
  match v.state with
  | .STATE_CONNECT => v.user = none ∧ v.assoc = false ∧ v.down = false ∧ v.up = false
  | .STATE_SUPNICK => v.user = none ∧ v.assoc = false ∧ v.down = false ∧ v.up = false
  | .STATE_INF => v.user = none ∧ v.assoc = false ∧ v.down = false ∧ v.up = false
  | .STATE_LOCK => v.assoc = false ∧ v.down ≠ v.up
  | .STATE_DIRECTION => v.assoc = false ∧ v.down ≠ v.up
  | .STATE_KEY => v.assoc = false ∧ v.down ≠ v.up
  | .STATE_RUNNING => v.assoc = true ∧ v.down ≠ v.up

/-- Associated download connection of user `u`. -/
def assocDown (u : UserPtr) (v : CView) : Bool := v.assoc && v.down && decide (v.user = u)

/-- Associated upload connection of user `u`. -/
def assocUp (u : UserPtr) (v : CView) : Bool := v.assoc && v.up && decide (v.user = u)

/-- ACTIVE queue item of user `u`. -/
def activeOf (u : UserPtr) (q : QView) : Bool := q.active && decide (q.user = u)

/-- Queue item of user `u`. -/
def ofUser (u : UserPtr) (q : QView) : Bool := decide (q.user = u)

/-- The invariant of the manager, on the views of `downloads`, `uploads` and
`userConnections` and the allocation counter: addresses are distinct and
allocated, each queue has one item per user and items of its direction,
connections have the shape of their state, and for every user the associated
download connections are as many as the ACTIVE download items, the associated
upload connections as many as the upload items. -/
structure InvV (ds us : List QView) (cs : List CView) (next : Nat) : Prop where
  dsPtr : (ds.map (fun q => q.ptr)).Nodup
  usPtr : (us.map (fun q => q.ptr)).Nodup
  csPtr : (cs.map (fun v => v.ptr)).Nodup
  dsLt : ∀ q ∈ ds, q.ptr < next
  usLt : ∀ q ∈ us, q.ptr < next
  csLt : ∀ v ∈ cs, v.ptr < next
  dsUser : (ds.map (fun q => q.user)).Nodup
  usUser : (us.map (fun q => q.user)).Nodup
  dsDir : ∀ q ∈ ds, q.download = true
  usDir : ∀ q ∈ us, q.download = false
  usAct : ∀ q ∈ us, q.active = true
  shape : ∀ v ∈ cs, Shape v
  cntD : ∀ u : UserPtr, cs.countP (assocDown u) = ds.countP (activeOf u)
  cntU : ∀ u : UserPtr, cs.countP (assocUp u) = us.countP (ofUser u)

/-- The invariant of the manager. -/
def Inv (m : ConnectionManager) : Prop :=
  InvV (m.downloads.map cqiView) (m.uploads.map cqiView) (m.userConnections.map ucView) m.nextPtr

/-- A run of calls and events under one environment. -/
def runOps (env : Env) : ConnectionManager → List Op → ConnectionManager
  | m, [] => m
  | m, op :: ops => runOps env (perform env m op).1 ops

/-- Every call or event of the run can occur when its turn comes. -/
def allEnabled (env : Env) : ConnectionManager → List Op → Bool
  | _, [] => true
  | m, op :: ops => enabled m op && allEnabled env (perform env m op).1 ops

/-- Example run: a download is requested from user 7, whose nick `abcdefg` is
expected on hub `hub`; the peer connects, sends its nick, its lock, the direction
`Upload` and its key. -/
def exampleHandshake : List Op :=
  [.nmdcExpect "abcdefg" "me" "hub", .getDownloadConnection ⟨some 7, "hub"⟩,
   .accept 10 10 false true, .myNick 2 "abcdefg", .cLock 2 "lock" "pk",
   .direction 2 "Upload" 5, .key 2]

/-- A run of `accept` calls that all read the same tick `now`. Each call is given
by its second tick reading, the kind of listener and whether `uc->accept`
succeeds. The result is the final state and, call by call, the calls made. -/
def acceptRun (now : Nat) :
    ConnectionManager → List (Nat × Bool × Bool) → ConnectionManager × List (List Effect)
  | m, [] => (m, [])
  | m, a :: rest =>
    let r := accept m now a.1 a.2.1 a.2.2
    let r2 := acceptRun now r.1 rest
    (r2.1, r.2 :: r2.2)

/-- The test of the loop of `checkIpFlood` on one connection: it has a live socket
whose remote address and port are the requested ones. -/
def ipMatch (env : Env) (aServer : String) (aPort : Nat) (uc : UserConnection) : Bool :=
  env.hasSocket uc.ptr && decide (env.remoteIp uc.ptr = aServer ∧ env.port uc.ptr = aPort)

/-- Example state: five connections, all with a live socket to `10.0.0.1:412`
under `exampleEnv`. -/
def exampleFiveConnections : ConnectionManager :=
  { init with
    userConnections := (List.range 5).map (fun i => newUserConnection (i + 1) false),
    nextPtr := 6 }

/-- An `accept` call let the socket through: `m1`, the state after it, holds one
more connection than `m`, an incoming one in STATE_SUPNICK at the address `new`
gave, at the end of `userConnections`; when `uc->accept` threw, the connection was
put again and the list is as before. -/
def Admitted (m m1 : ConnectionManager) (acceptOk : Bool) : Prop :=
  ∃ uc : UserConnection, uc.isSet .FLAG_INCOMING = true ∧ uc.state = .STATE_SUPNICK ∧
    uc.ptr = m.nextPtr ∧
    m1.userConnections = if acceptOk then m.userConnections ++ [uc] else m.userConnections

/-- Example state: a fresh manager after one admitted accept at time 10; the
connection at address 1 is incoming and in STATE_SUPNICK. -/
def exampleAccepted : ConnectionManager := (accept init 10 10 false true).1

/-- The connection of `exampleAccepted`. -/
def exampleIncoming : UserConnection :=
  { newUserConnection 1 false with
    flags := Flags.empty.assign .FLAG_INCOMING true, state := .STATE_SUPNICK, lastActivity := 10 }

/-- The write `(*i)->setErrors (0)` of the `INF` handler: the first download item
of the user gets `errors = 0`. -/
def infResetErrors (m : ConnectionManager) (aUser : UserPtr) : ConnectionManager :=
  { m with downloads := modifyCQI aUser (fun c => { c with errors := 0 }) m.downloads }

/-- Example state: an incoming ADC connection at address 1 that has sent
`SUP ADBASE` and is in STATE_INF; no queue items. -/
def exampleInf : ConnectionManager :=
  (onSUP exampleEnv (accept init 10 10 false true).1 1 ["ADBASE"]).1

/-- Example state: `exampleInf` after a download from user 7 was requested, tried
by the tick at time 100 and timed out at the tick at time 60000, so that its item
is WAITING with `errors = 1` and token `token`. -/
def exampleInfQueue : ConnectionManager :=
  (onSecond exampleEnv (onSecond exampleEnv
    (getDownloadConnection exampleEnv exampleInf ⟨some 7, "hub"⟩).1 100).1 60000).1

/-- The connection of `exampleInf` and of `exampleInfQueue`. -/
def exampleInfConnection : UserConnection :=
  { newUserConnection 1 false with
    flags := { Flags.empty with
      incoming := true, adcget := true, minislots := true, tthf := true, tthl := true,
      xmlBzlist := true },
    state := .STATE_INF,
    lastActivity := 10 }

/-- Example state: the example handshake up to the peer's direction; the
connection at address 2 is in STATE_KEY with FLAG_DOWNLOAD and user 7, whose
download item is WAITING. -/
def exampleKeyDownload : ConnectionManager := runOps exampleEnv init (exampleHandshake.take 6)

/-- The connection of `exampleKeyDownload`. -/
def exampleKeyDownloadConnection : UserConnection :=
  { newUserConnection 2 false with
    user := some 7, token := "me", hubUrl := "hub", encoding := "utf-8",
    flags := { Flags.empty with download := true, incoming := true },
    state := .STATE_KEY,
    lastActivity := 10 }

/-- Example state: user 7 connects to us without a download being queued; the
connection at address 1 is in STATE_KEY with FLAG_UPLOAD. -/
def exampleKeyUpload : ConnectionManager :=
  runOps exampleEnv init
    [.nmdcExpect "abcdefg" "me" "hub", .accept 10 10 false true, .myNick 1 "abcdefg",
     .cLock 1 "lock" "pk", .direction 1 "Download" 5]

/-- The connection of `exampleKeyUpload`. -/
def exampleKeyUploadConnection : UserConnection :=
  { newUserConnection 1 false with
    user := some 7, token := "me", hubUrl := "hub", encoding := "utf-8",
    flags := { Flags.empty with upload := true, incoming := true },
    state := .STATE_KEY,
    lastActivity := 10 }

/-- Example state: the example handshake completed; the connection at address 2
is associated with the ACTIVE download item of user 7. -/
def exampleRunning : ConnectionManager := runOps exampleEnv init exampleHandshake

/-- The connection of `exampleRunning`. -/
def exampleRunningConnection : UserConnection :=
  { newUserConnection 2 false with
    user := some 7, token := "me", hubUrl := "hub", encoding := "utf-8",
    flags := { Flags.empty with download := true, incoming := true, associated := true },
    state := .STATE_RUNNING,
    lastActivity := 10 }

/-- Example environment in which the keyprint check fails: every connection has
the keyprint `[1, 2]`, the hub holds `SHA256/AAAA` for every user, and the decoder
of `exampleEnv` writes zero bytes. -/
def exampleEnvKeyprint : Env :=
  { exampleEnv with keyprint := fun _ => [1, 2], getFieldKP := fun _ _ => "SHA256/AAAA" }

/-- Example state: an incoming secure ADC connection at address 1 that has sent
`SUP ADBASE` and is in STATE_INF; no queue items. -/
def exampleInfSecure : ConnectionManager :=
  (onSUP exampleEnv (accept init 10 10 true true).1 1 ["ADBASE"]).1

/-- The connection of `exampleInfSecure`. -/
def exampleInfSecureConnection : UserConnection :=
  { exampleInfConnection with secure := true }

/-- Example environment with strict TLS: no connection is trusted and untrusted
clients are not allowed. -/
def exampleEnvStrict : Env :=
  { exampleEnv with isTrusted := fun _ => false, ALLOW_UNTRUSTED_CLIENTS := false }

/-- Example state: one outbound secure ADC connection, at address 1, still in
STATE_CONNECT. -/
def exampleSecure : ConnectionManager :=
  (adcConnect exampleEnv init "10.0.0.9" "nick" "hubname" "hub" false 412 "tok" true true).1

/-- Example state: a download from user 7 is requested and tried by the tick at
time 100; the peer connects and the handshake runs up to the peer's lock. The
connection at address 2 is in STATE_DIRECTION with FLAG_DOWNLOAD and user 7,
whose download item is CONNECTING with `errors = 0`. Under `exampleEnv` the
number of the connection is 2. -/
def exampleDirectionQueue : ConnectionManager :=
  runOps exampleEnv init
    [.nmdcExpect "abcdefg" "me" "hub", .getDownloadConnection ⟨some 7, "hub"⟩, .second 100,
     .accept 200 200 false true, .myNick 2 "abcdefg", .cLock 2 "lock" "pk"]

/-- The connection of `exampleDirectionQueue`. -/
def exampleDirectionConnection : UserConnection :=
  { newUserConnection 2 false with
    user := some 7, token := "me", hubUrl := "hub", encoding := "utf-8",
    flags := { Flags.empty with download := true, incoming := true },
    state := .STATE_DIRECTION,
    lastActivity := 200 }

/-- Example state: a download from user 7 was requested and tried by the tick at
time 100; its item is CONNECTING with `lastAttempt = 100` and `errors = 0`. -/
def exampleConnecting : ConnectionManager :=
  runOps exampleEnv init [.getDownloadConnection ⟨some 7, "hub"⟩, .second 100]

/-- Example state: the example handshake, then a protocol error on its
connection at time 500; the item of user 7 is WAITING with `lastAttempt = 500`
and `errors = -1`. -/
def exampleSticky : ConnectionManager :=
  runOps exampleEnv init (exampleHandshake ++ [.protocolError 2 "bad" 500])

/-- Example environment in which the download manager admits no start. -/
def exampleEnvDenied : Env := { exampleEnv with startDownload := fun _ => false }

/-- Example state: after the example handshake the connection of user 7 reports
a protocol error at time 500, so the item of user 7 is WAITING with `errors = -1`;
then a download from user 8 is requested, whose nick `abcdefgh` is expected, and
a peer connects (the connection at address 4, in STATE_SUPNICK). -/
def exampleStickyTwo : ConnectionManager :=
  runOps exampleEnv init
    (exampleHandshake ++
      [.protocolError 2 "bad" 500, .getDownloadConnection ⟨some 8, "hub"⟩,
       .nmdcExpect "abcdefgh" "me" "hub", .accept 600 600 false true])

/-- Example state: one download item, of user 7, WAITING, last tried at time
1000, with `errors = 71583`. -/
def exampleManyErrors : ConnectionManager :=
  { init with
    downloads := [⟨1, ⟨some 7, "hub"⟩, "token", true, .WAITING, 1000, 71583⟩], nextPtr := 2 }

/-- The state changes of a connection that the handshake handlers make: none,
or one of the four moves SUPNICK to LOCK, LOCK to DIRECTION, DIRECTION to KEY
(the NMDC path) and SUPNICK to INF (the ADC path). -/
def handshakeMove (s1 s2 : UserConnection.States) : Prop :=
  s1 = s2 ∨ (s1 = .STATE_SUPNICK ∧ s2 = .STATE_LOCK) ∨ (s1 = .STATE_LOCK ∧ s2 = .STATE_DIRECTION) ∨
  (s1 = .STATE_DIRECTION ∧ s2 = .STATE_KEY) ∨ (s1 = .STATE_SUPNICK ∧ s2 = .STATE_INF)

/-- Place of a state in the handshake; the NMDC path (LOCK, DIRECTION, KEY) and
the ADC path (INF) both start from SUPNICK. -/
def stateRank : UserConnection.States → Nat
  | .STATE_CONNECT => 0
  | .STATE_SUPNICK => 1
  | .STATE_INF => 2
  | .STATE_LOCK => 2
  | .STATE_DIRECTION => 3
  | .STATE_KEY => 4
  | .STATE_RUNNING => 5

/-- Every connection that is there before and after is in the state it was in
or has made one of the four moves of the handshake. -/
def Forward (m m2 : ConnectionManager) : Prop :=
  ∀ (p : Nat) (x y : UserConnection), m.findUC p = some x → m2.findUC p = some y →
    handshakeMove x.state y.state

/-! ## Queue lookups -/

theorem findCQI_append_none (l : List ConnectionQueueItem) (c : ConnectionQueueItem) (u : UserPtr)
    (h : findCQI l u = none) (hc : c.user.user = u) : findCQI (l ++ [c]) u = some c := by
  unfold findCQI at *
  rw [List.find?_append, h]
  simp [List.find?, hc]

theorem filter_user_of_findCQI_none (l : List ConnectionQueueItem) (u : UserPtr)
    (h : findCQI l u = none) : l.filter (fun c => decide (c.user.user = u)) = [] := by
  unfold findCQI at h
  rw [List.find?_eq_none] at h
  rw [List.filter_eq_nil_iff]
  exact h

theorem getDownloadConnection_present (env : Env) (m : ConnectionManager) (u : HintedUser)
    (c : ConnectionQueueItem) (h : findCQI m.downloads u.user = some c) :
    getDownloadConnection env m u = (m, [Effect.checkIdle u.user]) := by
  simp [getDownloadConnection, h]

theorem getDownloadConnection_absent (env : Env) (m : ConnectionManager) (u : HintedUser)
    (h : findCQI m.downloads u.user = none) :
    (getDownloadConnection env m u).1 =
      { m with nextPtr := m.nextPtr + 1,
               downloads := m.downloads ++ [newCQI env m.nextPtr u true] } := by
  simp [getDownloadConnection, h, getCQI]

theorem getDownloadConnections_present (u : HintedUser) (es : List Env) (m : ConnectionManager)
    (c : ConnectionQueueItem) (h : findCQI m.downloads u.user = some c) :
    getDownloadConnections u es m = m := by
  induction es with
  | nil => rfl
  | cons e es ih => simp [getDownloadConnections, getDownloadConnection_present e m u c h, ih]

/-- C2. `getDownloadConnection` is idempotent. For a user `u` without a download
item and N ≥ 1 consecutive calls (the list `e :: es`), the queue afterwards is the
old queue followed by one new item for `u`, which is a download item in state
WAITING; it is the only item of `u`; and every further call leaves the whole
manager as it is, asking the download subsystem to recheck idleness. -/
theorem getDownloadConnection_idempotent (m : ConnectionManager) (u : HintedUser) (e : Env)
    (es : List Env) (hnone : findCQI m.downloads u.user = none) :
    (getDownloadConnections u (e :: es) m).downloads = m.downloads ++ [newCQI e m.nextPtr u true] ∧
    ((getDownloadConnections u (e :: es) m).downloads.filter
        (fun c => decide (c.user.user = u.user))).length = 1 ∧
    (newCQI e m.nextPtr u true).user = u ∧
    (newCQI e m.nextPtr u true).download = true ∧
    (newCQI e m.nextPtr u true).state = .WAITING ∧
    ∀ e2 : Env, getDownloadConnection e2 (getDownloadConnections u (e :: es) m) u =
      (getDownloadConnections u (e :: es) m, [Effect.checkIdle u.user]) := by
  have h1 := getDownloadConnection_absent e m u hnone
  have hfind : findCQI (getDownloadConnection e m u).1.downloads u.user =
      some (newCQI e m.nextPtr u true) := by
    rw [h1]
    exact findCQI_append_none _ _ _ hnone rfl
  have hall : getDownloadConnections u (e :: es) m = (getDownloadConnection e m u).1 := by
    simp only [getDownloadConnections]
    exact getDownloadConnections_present u es _ _ hfind
  rw [hall]
  refine ⟨by rw [h1], ?_, rfl, rfl, rfl, ?_⟩
  · rw [h1]
    simp only [List.filter_append, filter_user_of_findCQI_none _ _ hnone]
    simp [newCQI]
  · intro e2
    exact getDownloadConnection_present e2 _ u _ hfind

/-- Witness for C2: three calls for a new user on the empty manager. -/
theorem getDownloadConnection_idempotent_witness :
    findCQI init.downloads (HintedUser.mk (some 7) "hub").user = none ∧
    (getDownloadConnections ⟨some 7, "hub"⟩ [exampleEnv, exampleEnv, exampleEnv] init).downloads =
      [newCQI exampleEnv 1 ⟨some 7, "hub"⟩ true] :=
  ⟨rfl, (getDownloadConnection_idempotent init ⟨some 7, "hub"⟩ exampleEnv
    [exampleEnv, exampleEnv] rfl).1⟩

/-! ## The per-second walk -/

theorem tickItem_ptr (env : Env) (t a : Nat) (c : ConnectionQueueItem) :
    (tickItem env t a c).cqi.ptr = c.ptr := by
  unfold tickItem
  dsimp only
  split_ifs <;> rfl

theorem tickItem_user (env : Env) (t a : Nat) (c : ConnectionQueueItem) :
    (tickItem env t a c).cqi.user = c.user := by
  unfold tickItem
  dsimp only
  split_ifs <;> rfl

theorem tickItem_download (env : Env) (t a : Nat) (c : ConnectionQueueItem) :
    (tickItem env t a c).cqi.download = c.download := by
  unfold tickItem
  dsimp only
  split_ifs <;> rfl

theorem tickItem_token (env : Env) (t a : Nat) (c : ConnectionQueueItem) :
    (tickItem env t a c).cqi.token = c.token := by
  unfold tickItem
  dsimp only
  split_ifs <;> rfl

theorem tickItem_active (env : Env) (t a : Nat) (c : ConnectionQueueItem)
    (h : c.state = .ACTIVE) : tickItem env t a c = ⟨c, false, a, []⟩ := by
  simp [tickItem, h]

theorem tickItem_not_active (env : Env) (t a : Nat) (c : ConnectionQueueItem)
    (h : c.state ≠ .ACTIVE) : (tickItem env t a c).cqi.state ≠ .ACTIVE := by
  unfold tickItem
  dsimp only
  split_ifs <;> simp_all

theorem tickWalk_append (env : Env) (t : Nat) (pre : List ConnectionQueueItem) :
    ∀ (a : Nat) (c : ConnectionQueueItem) (post : List ConnectionQueueItem),
    tickWalk env t a (pre ++ c :: post) =
      tickWalk env t a pre ++ tickItem env t (walkAttempts env t a pre) c ::
        tickWalk env t (tickItem env t (walkAttempts env t a pre) c).attempts post := by
  induction pre with
  | nil => intro a c post; simp [tickWalk, walkAttempts]
  | cons x xs ih => intro a c post; simp [tickWalk, walkAttempts, ih]

theorem tickWalk_length (env : Env) (t : Nat) (l : List ConnectionQueueItem) :
    ∀ a : Nat, (tickWalk env t a l).length = l.length := by
  induction l with
  | nil => intro a; rfl
  | cons x xs ih => intro a; simp [tickWalk, ih]

theorem tickWalk_mem (env : Env) (t : Nat) (l : List ConnectionQueueItem) :
    ∀ (a : Nat) (r : TickStep), r ∈ tickWalk env t a l →
      ∃ c ∈ l, ∃ a2 : Nat, r = tickItem env t a2 c := by
  induction l with
  | nil => intro a r h; simp [tickWalk] at h
  | cons x xs ih =>
    intro a r h
    simp only [tickWalk, List.mem_cons] at h
    rcases h with h | h
    · exact ⟨x, List.mem_cons_self _ _, a, h⟩
    · obtain ⟨c, hc, a2, h2⟩ := ih _ r h
      exact ⟨c, List.mem_cons_of_mem _ hc, a2, h2⟩

theorem tickWalk_map_ptr (env : Env) (t : Nat) (l : List ConnectionQueueItem) :
    ∀ a : Nat, (tickWalk env t a l).map (fun r => r.cqi.ptr) = l.map (fun c => c.ptr) := by
  induction l with
  | nil => intro a; rfl
  | cons x xs ih => intro a; simp [tickWalk, ih, tickItem_ptr]

theorem tickWalk_map_user (env : Env) (t : Nat) (l : List ConnectionQueueItem) :
    ∀ a : Nat, (tickWalk env t a l).map (fun r => r.cqi.user.user) = l.map (fun c => c.user.user) := by
  induction l with
  | nil => intro a; rfl
  | cons x xs ih => intro a; simp [tickWalk, ih, tickItem_user]

/-! ## Removal after the walk -/

theorem putAll_downloads (cs : List ConnectionQueueItem) :
    ∀ m : ConnectionManager, (putAll m cs).1.downloads =
      m.downloads.filter (fun x => cs.all (fun c => !c.download || decide (x.ptr ≠ c.ptr))) := by
  induction cs with
  | nil => intro m; simp [putAll]
  | cons c cs ih =>
    intro m
    simp only [putAll, ih, putCQI]
    by_cases hd : c.download = true
    · simp only [hd, if_true, List.filter_filter, List.all_cons, Bool.not_true, Bool.false_or]
      congr 1
      funext x
      rw [Bool.and_comm]
    · simp only [hd, List.all_cons]
      simp at hd
      simp [hd]

theorem putAll_uploads (cs : List ConnectionQueueItem) :
    ∀ m : ConnectionManager, (putAll m cs).1.uploads =
      m.uploads.filter (fun x => cs.all (fun c => c.download || decide (x.ptr ≠ c.ptr))) := by
  induction cs with
  | nil => intro m; simp [putAll]
  | cons c cs ih =>
    intro m
    simp only [putAll, ih, putCQI]
    by_cases hd : c.download = true
    · simp [hd]
    · simp at hd
      simp only [hd, Bool.false_eq_true, if_false, List.filter_filter, List.all_cons,
        Bool.false_or]
      congr 1
      funext x
      rw [Bool.and_comm]

theorem putAll_frame (cs : List ConnectionQueueItem) :
    ∀ m : ConnectionManager, (putAll m cs).1.userConnections = m.userConnections ∧
      (putAll m cs).1.nextPtr = m.nextPtr ∧
      (putAll m cs).1.expectedConnections = m.expectedConnections ∧
      (putAll m cs).1.floodCounter = m.floodCounter ∧
      (putAll m cs).1.iConnToMeCount = m.iConnToMeCount ∧
      (putAll m cs).1.server = m.server ∧ (putAll m cs).1.secureServer = m.secureServer ∧
      (putAll m cs).1.shuttingDown = m.shuttingDown := by
  induction cs with
  | nil => intro m; simp [putAll]
  | cons c cs ih =>
    intro m
    have h := ih (putCQI m c).1
    simp only [putAll]
    unfold putCQI at h ⊢
    split_ifs at h ⊢ <;> simpa using h

/-! ## Backoff, budget, forced and sticky items -/

theorem wrapInt32_fits (x : Int) (h1 : -2147483648 ≤ x) (h2 : x < 2147483648) :
    wrapInt32 x = x := by
  unfold wrapInt32
  rw [Int.emod_eq_of_lt (by omega) (by omega)]
  omega

theorem toUInt64_fits (x : Int) (h1 : 0 ≤ x) (h2 : x < 18446744073709551616) :
    toUInt64 x = x.toNat := by
  unfold toUInt64
  rw [Int.emod_eq_of_lt h1 h2]

theorem addUInt64_fits (a b : Nat) (h : a + b < 18446744073709551616) :
    addUInt64 a b = a + b := by
  unfold addUInt64
  exact Nat.mod_eq_of_lt h

/-- The retry test of the tick is the comparison of the integers where nothing
overflows: `errors ≤ 35791`, so that `60 * 1000 * max (1, errors)` fits a 32 bit
`int`, and the sum with `lastAttempt` is below 2^64. -/
theorem backoff_in_range (T : Nat) (e : Int) (now : Nat) (he : e ≤ 35791)
    (hT : (T : Int) + 60 * 1000 * max 1 e < 18446744073709551616) :
    addUInt64 T (toUInt64 (wrapInt32 (60 * 1000 * max 1 e))) < now ↔
      (T : Int) + 60 * 1000 * max 1 e < (now : Int) := by
  have h1 : (60000 : Int) ≤ 60 * 1000 * max 1 e := by omega
  have h2 : 60 * 1000 * max 1 e ≤ (2147460000 : Int) := by omega
  rw [wrapInt32_fits _ (by omega) (by omega), toUInt64_fits _ (by omega) (by omega),
    addUInt64_fits _ _ (by omega)]
  omega

/-- The timeout test of the tick is the comparison of the integers where the sum
is below 2^64. -/
theorem timeout_in_range (T : Nat) (now : Nat)
    (hT : (T : Int) + 50 * 1000 < 18446744073709551616) :
    addUInt64 T (50 * 1000) < now ↔ (T : Int) + 50 * 1000 < (now : Int) := by
  rw [addUInt64_fits _ _ (by omega)]
  omega

theorem tickItem_backoff (env : Env) (now a : Nat) (c : ConnectionQueueItem)
    (hstate : c.state ≠ .ACTIVE) (hT0 : c.lastAttempt ≠ 0) (he : c.errors ≤ 35791)
    (hfit : (c.lastAttempt : Int) + 60 * 1000 * max 1 c.errors < 18446744073709551616)
    (hnow : (now : Int) < (c.lastAttempt : Int) + 60000 * max 1 c.errors) :
    (tickItem env now a c).cqi.lastAttempt = c.lastAttempt ∧
    (tickItem env now a c).attempts = a ∧
    ∀ u t, Effect.hubConnect u t ∉ (tickItem env now a c).effects := by
  have hdue : ¬ (c.lastAttempt = 0 ∨
      ((env.DOWNCONN_PER_SEC = 0 ∨ (a : Int) < env.DOWNCONN_PER_SEC) ∧
        addUInt64 c.lastAttempt (toUInt64 (wrapInt32 (60 * 1000 * max 1 c.errors))) < now)) := by
    rintro (h | ⟨_, h⟩)
    · exact hT0 h
    · rw [backoff_in_range _ _ _ he hfit] at h
      omega
  unfold tickItem
  dsimp only
  rw [if_pos hstate]
  split_ifs <;> simp

/-- The backoff lower bound where the arithmetic of the tick does not overflow
(`errors ≤ 35791` and `lastAttempt + 60000 * max (1, errors) < 2^64`). In a tick at
time `now`, for a download item that is not ACTIVE, with `lastAttempt = T ≠ 0` and
`errors = e`, at any place of `downloads`: if `now < T + 60000 * max (1, e)` then
the step of the walk for this item makes no hub connect request and leaves
`lastAttempt = T` (and does not count against the budget). -/
theorem backoff_in_range_bound (env : Env) (now : Nat) (pre post : List ConnectionQueueItem)
    (cqi : ConnectionQueueItem) (T : Nat) (e : Int)
    (hstate : cqi.state ≠ .ACTIVE) (hT : cqi.lastAttempt = T) (hT0 : T ≠ 0) (he : cqi.errors = e)
    (hrange : e ≤ 35791) (hfit : (T : Int) + 60 * 1000 * max 1 e < 18446744073709551616)
    (hnow : (now : Int) < (T : Int) + 60000 * max 1 e) :
    ∃ r : TickStep,
      tickWalk env now 0 (pre ++ cqi :: post) =
        tickWalk env now 0 pre ++ r :: tickWalk env now r.attempts post ∧
      r.cqi.ptr = cqi.ptr ∧ r.cqi.lastAttempt = T ∧
      (∀ u t, Effect.hubConnect u t ∉ r.effects) ∧
      r.attempts = walkAttempts env now 0 pre := by
  subst hT he
  have h := tickItem_backoff env now (walkAttempts env now 0 pre) cqi hstate hT0 hrange hfit hnow
  exact ⟨tickItem env now (walkAttempts env now 0 pre) cqi, tickWalk_append env now pre 0 cqi post,
    tickItem_ptr _ _ _ _, h.1, h.2.2, h.2.1⟩

/-- C5 (backoff lower bound), the code at the failing input. The item of
`exampleManyErrors` is WAITING with `lastAttempt = 1000` and `errors = 71583`, and
its user is online. At the tick of time 20000 the hypothesis of the claim holds:
`20000 < 1000 + 60000 * 71583`. The product `60 * 1000 * 71583 = 4294980000` does
not fit the 32 bit `int` it is formed in, which keeps 12704; the test of the tick
is `1000 + 12704 < 20000`, so the tick asks the hub to connect to the user and
sets `lastAttempt` to 20000. -/
theorem backoff_overflow_divergence :
    exampleManyErrors.downloads =
      [⟨1, ⟨some 7, "hub"⟩, "token", true, .WAITING, 1000, 71583⟩] ∧
    exampleEnv.isOnline (some 7) = true ∧
    ((20000 : Nat) : Int) < ((1000 : Nat) : Int) + 60000 * max 1 71583 ∧
    wrapInt32 (60 * 1000 * max 1 71583) = 12704 ∧
    (onSecond exampleEnv exampleManyErrors 20000).1.downloads =
      [⟨1, ⟨some 7, "hub"⟩, "token", true, .CONNECTING, 20000, 71583⟩] ∧
    Effect.hubConnect ⟨some 7, "hub"⟩ "token" ∈ (onSecond exampleEnv exampleManyErrors 20000).2 := by
  refine ⟨rfl, rfl, by decide, by decide, by decide, by decide⟩

theorem tickItem_attempts (env : Env) (now a : Nat) (c : ConnectionQueueItem) :
    (tickItem env now a c).attempts = a ∨ (tickItem env now a c).attempts = (a + 1) % 65536 := by
  unfold tickItem
  dsimp only
  split_ifs <;> simp

theorem tickItem_gated (env : Env) (now a : Nat) (c : ConnectionQueueItem)
    (hla : c.lastAttempt ≠ 0) (hw : c.state = .WAITING)
    (hc : (tickItem env now a c).cqi.state = .CONNECTING) :
    (env.DOWNCONN_PER_SEC = 0 ∨ (a : Int) < env.DOWNCONN_PER_SEC) ∧
    (tickItem env now a c).attempts = (a + 1) % 65536 := by
  unfold tickItem at hc ⊢
  dsimp only at hc ⊢
  split_ifs at hc ⊢ <;> simp_all

theorem countGated_bound (env : Env) (now : Nat) (hk : 0 < env.DOWNCONN_PER_SEC)
    (l : List ConnectionQueueItem) :
    ∀ a : Nat, a + l.length < 65536 →
      (countGated env now a l : Int) + a ≤ max env.DOWNCONN_PER_SEC a := by
  induction l with
  | nil => intro a _; simp [countGated]
  | cons c cs ih =>
    intro a hlen
    simp only [List.length_cons] at hlen
    simp only [countGated]
    have hmod : (a + 1) % 65536 = a + 1 := Nat.mod_eq_of_lt (by omega)
    by_cases hg : c.lastAttempt ≠ 0 ∧ c.state = .WAITING ∧
        (tickItem env now a c).cqi.state = .CONNECTING
    · obtain ⟨hb, hatt⟩ := tickItem_gated env now a c hg.1 hg.2.1 hg.2.2
      rw [if_pos hg, hatt, hmod]
      have h2 := ih (a + 1) (by omega)
      push_cast at h2 ⊢
      omega
    · rw [if_neg hg]
      rcases tickItem_attempts env now a c with hatt | hatt
      · rw [hatt]
        have h2 := ih a (by omega)
        push_cast at h2 ⊢
        omega
      · rw [hatt, hmod]
        have h2 := ih (a + 1) (by omega)
        push_cast at h2 ⊢
        omega

theorem countGated_noBudget (n : Nat) :
    ∀ s a : Nat, 0 < s →
      countGated exampleEnvNoBudget 100000 a ((List.range' s n).map exampleTried) = n := by
  induction n with
  | zero => intro s a _; rfl
  | succ n ih =>
    intro s a hs
    simp only [List.range'_succ, List.map_cons, countGated]
    rw [ih (s + 1) _ (by omega)]
    have h1 : (tickItem exampleEnvNoBudget 100000 a (exampleTried s)).cqi.state = .CONNECTING := by
      simp [tickItem, exampleTried, exampleEnvNoBudget, exampleEnv, addUInt64, toUInt64,
        wrapInt32]
    have h2 : (exampleTried s).lastAttempt ≠ 0 ∧ (exampleTried s).state = .WAITING := by
      simp [exampleTried]
    rw [if_pos ⟨h2.1, h2.2, h1⟩]
    omega

/-- C6, as stated, fails: with `DOWNCONN_PER_SEC = 1` and two new items in
`downloads` (both WAITING, never tried), one tick moves both to CONNECTING and
makes two hub connect requests. -/
theorem connect_budget_counterexample :
    exampleEnv.DOWNCONN_PER_SEC = 1 ∧
    exampleTwoFresh.downloads.map (fun c => (c.state, c.lastAttempt)) =
      [(.WAITING, 0), (.WAITING, 0)] ∧
    (onSecond exampleEnv exampleTwoFresh 1000).1.downloads.map (fun c => c.state) =
      [.CONNECTING, .CONNECTING] ∧
    countConnects (onSecond exampleEnv exampleTwoFresh 1000).2 = 2 := by
  decide

/-- C6, amended. Per-tick connect budget: with `DOWNCONN_PER_SEC = k > 0` and fewer
than 65536 items in `downloads` (the range of the 16 bit counter `attempts`), the
number of items with `lastAttempt ≠ 0` that one tick moves from WAITING to
CONNECTING is at most k; items with `lastAttempt = 0` are outside the budget.
With k = 0 there is no bound: every number n is reached by some list. -/
theorem connect_budget (env : Env) (now : Nat) (l : List ConnectionQueueItem)
    (hk : 0 < env.DOWNCONN_PER_SEC) (hlen : l.length < 65536) :
    (countGated env now 0 l : Int) ≤ env.DOWNCONN_PER_SEC ∧
    ∀ n : Nat, ∃ (env0 : Env) (l0 : List ConnectionQueueItem),
      env0.DOWNCONN_PER_SEC = 0 ∧ (l0.map (fun c => c.user.user)).Nodup ∧
      countGated env0 100000 0 l0 = n := by
  constructor
  · have h := countGated_bound env now hk l 0 (by omega)
    have hmax : max env.DOWNCONN_PER_SEC ((0 : Nat) : Int) = env.DOWNCONN_PER_SEC := by
      apply max_eq_left
      exact_mod_cast hk.le
    rw [hmax] at h
    simpa using h
  · intro n
    refine ⟨exampleEnvNoBudget, (List.range' 1 n).map exampleTried, rfl, ?_,
      countGated_noBudget n 1 0 (by omega)⟩
    rw [List.map_map]
    have hinj : Function.Injective ((fun c : ConnectionQueueItem => c.user.user) ∘ exampleTried) := by
      intro i j h
      simpa [exampleTried] using h
    exact (List.nodup_range' 1 n).map hinj

/-- Witness for C6 amended: budget 1, one item tried long ago and due. -/
theorem connect_budget_witness :
    (0 : Int) < exampleEnv.DOWNCONN_PER_SEC ∧ [exampleTried 1].length < 65536 ∧
    (countGated exampleEnv 100000 0 [exampleTried 1] : Int) ≤ exampleEnv.DOWNCONN_PER_SEC :=
  ⟨by decide, by decide,
    (connect_budget exampleEnv 100000 [exampleTried 1] (by decide) (by decide)).1⟩

theorem onSecond_downloads (env : Env) (m : ConnectionManager) (t : Nat) :
    (onSecond env m t).1.downloads =
      ((tickWalk env t 0 m.downloads).map (fun r => r.cqi)).filter (fun x =>
        (((tickWalk env t 0 m.downloads).filter (fun r => r.removed)).map (fun r => r.cqi)).all
          (fun c => !c.download || decide (x.ptr ≠ c.ptr))) := by
  simp only [onSecond, putAll_downloads]

theorem onSecond_effects (env : Env) (m : ConnectionManager) (t : Nat) (r : TickStep)
    (hr : r ∈ tickWalk env t 0 m.downloads) (e : Effect) (he : e ∈ r.effects) :
    e ∈ (onSecond env m t).2 := by
  simp only [onSecond, List.mem_append, List.mem_flatten, List.mem_map]
  exact Or.inl ⟨r.effects, ⟨r, hr, rfl⟩, he⟩

theorem tickWalk_mem_ptr (env : Env) (t a : Nat) (l : List ConnectionQueueItem) (r : TickStep)
    (h : r ∈ tickWalk env t a l) : ∃ x ∈ l, r.cqi.ptr = x.ptr := by
  obtain ⟨c, hc, a2, h2⟩ := tickWalk_mem env t l a r h
  exact ⟨c, hc, by rw [h2, tickItem_ptr]⟩

/-- An item whose step does not put it on the `removed` list, and whose address no
other entry of `downloads` shares, is in `downloads` after the tick as its step
left it, and it is the only entry with that address. -/
theorem onSecond_keeps (env : Env) (m : ConnectionManager) (t : Nat)
    (pre post : List ConnectionQueueItem) (c : ConnectionQueueItem)
    (hd : m.downloads = pre ++ c :: post) (hptr : ∀ x ∈ pre ++ post, x.ptr ≠ c.ptr)
    (hr : (tickItem env t (walkAttempts env t 0 pre) c).removed = false) :
    tickItem env t (walkAttempts env t 0 pre) c ∈ tickWalk env t 0 m.downloads ∧
    (tickItem env t (walkAttempts env t 0 pre) c).cqi ∈ (onSecond env m t).1.downloads ∧
    ∀ x ∈ (onSecond env m t).1.downloads, x.ptr = c.ptr →
      x = (tickItem env t (walkAttempts env t 0 pre) c).cqi := by
  have hw := tickWalk_append env t pre 0 c post
  rw [← hd] at hw
  have hother : ∀ r ∈ tickWalk env t 0 m.downloads,
      r = tickItem env t (walkAttempts env t 0 pre) c ∨ r.cqi.ptr ≠ c.ptr := by
    intro r hrm
    rw [hw, List.mem_append, List.mem_cons] at hrm
    rcases hrm with h | h | h
    · obtain ⟨x, hx, hp⟩ := tickWalk_mem_ptr env t _ _ r h
      exact Or.inr (hp ▸ hptr x (List.mem_append_left _ hx))
    · exact Or.inl h
    · obtain ⟨x, hx, hp⟩ := tickWalk_mem_ptr env t _ _ r h
      exact Or.inr (hp ▸ hptr x (List.mem_append_right _ hx))
  have hin : tickItem env t (walkAttempts env t 0 pre) c ∈ tickWalk env t 0 m.downloads := by
    rw [hw]; simp
  refine ⟨hin, ?_, ?_⟩
  · rw [onSecond_downloads, List.mem_filter]
    refine ⟨List.mem_map_of_mem _ hin, ?_⟩
    rw [List.all_eq_true]
    intro c2 hc2
    rw [List.mem_map] at hc2
    obtain ⟨r2, hr2, rfl⟩ := hc2
    rw [List.mem_filter] at hr2
    rcases hother r2 hr2.1 with h | h
    · rw [h, hr] at hr2
      exact absurd hr2.2 (by simp)
    · simp only [Bool.or_eq_true, Bool.not_eq_true', decide_eq_true_eq]
      right
      rw [tickItem_ptr]
      exact fun hh => h hh.symm
  · intro x hx hxp
    rw [onSecond_downloads, List.mem_filter, List.mem_map] at hx
    obtain ⟨⟨r2, hr2, rfl⟩, _⟩ := hx
    rcases hother r2 hr2 with h | h
    · rw [h]
    · exact absurd hxp h

theorem modifyCQI_first (u : UserPtr) (f : ConnectionQueueItem → ConnectionQueueItem)
    (pre : List ConnectionQueueItem) (c : ConnectionQueueItem) (post : List ConnectionQueueItem)
    (hu : c.user.user = u) (hpre : ∀ x ∈ pre, x.user.user ≠ u) :
    modifyCQI u f (pre ++ c :: post) = pre ++ f c :: post := by
  induction pre with
  | nil => simp [modifyCQI, hu]
  | cons x xs ih =>
    have hx : x.user.user ≠ u := hpre x (List.mem_cons_self _ _)
    have h2 := ih (fun y hy => hpre y (List.mem_cons_of_mem _ hy))
    show modifyCQI u f (x :: (xs ++ c :: post)) = x :: (xs ++ f c :: post)
    simp only [modifyCQI, if_neg hx, h2]

theorem modifyCQI_none (u : UserPtr) (f : ConnectionQueueItem → ConnectionQueueItem)
    (l : List ConnectionQueueItem) (h : findCQI l u = none) : modifyCQI u f l = l := by
  induction l with
  | nil => rfl
  | cons x xs ih =>
    unfold findCQI at h ih
    rw [List.find?_cons] at h
    by_cases hx : x.user.user = u
    · simp [hx] at h
    · simp only [hx, decide_False] at h
      simp only [modifyCQI, if_neg hx]
      rw [ih h]

theorem findCQI_some_split (l : List ConnectionQueueItem) (u : UserPtr) (c : ConnectionQueueItem)
    (h : findCQI l u = some c) :
    c.user.user = u ∧ ∃ pre post, l = pre ++ c :: post ∧ ∀ x ∈ pre, x.user.user ≠ u := by
  induction l with
  | nil => simp [findCQI] at h
  | cons x xs ih =>
    unfold findCQI at h ih
    rw [List.find?_cons] at h
    by_cases hx : x.user.user = u
    · simp only [hx, decide_True] at h
      cases h
      exact ⟨hx, [], xs, rfl, by simp⟩
    · simp only [hx, decide_False] at h
      obtain ⟨hc, pre, post, hl, hpre⟩ := ih h
      refine ⟨hc, x :: pre, post, by rw [hl]; rfl, ?_⟩
      intro y hy
      rcases List.mem_cons.mp hy with rfl | hy
      · exact hx
      · exact hpre y hy

theorem tickItem_forced (env : Env) (now a : Nat) (c : ConnectionQueueItem)
    (hstate : c.state = .WAITING) (hla : c.lastAttempt = 0)
    (honline : env.isOnline c.user.user = true) (hprio : env.hasDownload c.user ≠ .PAUSED)
    (hstart : env.startDownload (env.hasDownload c.user) = true) :
    tickItem env now a c =
      ⟨{ c with lastAttempt := now, state := .CONNECTING }, false, (a + 1) % 65536,
        [Effect.hubConnect c.user c.token,
         Effect.fireStatusChanged { c with lastAttempt := now, state := .CONNECTING }]⟩ := by
  simp [tickItem, hstate, hla, honline, hprio, hstart]

/-- C7. `force` then tick reconnects. For a download item `c` of user `u` in state
WAITING (the first item of `u` in `downloads`, at an address of its own), with the
user online, the queue priority not PAUSED and start admission granted, whatever
`errors` and `lastAttempt` were: after `force (u)` the step of the tick at time
`now` for the item is a hub connect request for the user with the token of the
item, state CONNECTING and `lastAttempt = now`, for every value of the counter
`attempts` and every `DOWNCONN_PER_SEC`; the request is among the calls of the
tick and the item is in `downloads` afterwards in that form. -/
theorem force_then_tick (env : Env) (now : Nat) (m : ConnectionManager)
    (pre post : List ConnectionQueueItem) (c : ConnectionQueueItem) (u : UserPtr)
    (hd : m.downloads = pre ++ c :: post) (hu : c.user.user = u)
    (hpre : ∀ x ∈ pre, x.user.user ≠ u) (hptr : ∀ x ∈ pre ++ post, x.ptr ≠ c.ptr)
    (hstate : c.state = .WAITING) (honline : env.isOnline u = true)
    (hprio : env.hasDownload c.user ≠ .PAUSED)
    (hstart : env.startDownload (env.hasDownload c.user) = true) :
    (∀ a : Nat, tickItem env now a { c with lastAttempt := 0 } =
      ⟨{ c with lastAttempt := now, state := .CONNECTING }, false, (a + 1) % 65536,
        [Effect.hubConnect c.user c.token,
         Effect.fireStatusChanged { c with lastAttempt := now, state := .CONNECTING }]⟩) ∧
    Effect.hubConnect c.user c.token ∈ (onSecond env (force m u) now).2 ∧
    { c with lastAttempt := now, state := .CONNECTING } ∈ (onSecond env (force m u) now).1.downloads ∧
    ∀ x ∈ (onSecond env (force m u) now).1.downloads, x.ptr = c.ptr →
      x = { c with lastAttempt := now, state := .CONNECTING } := by
  subst hu
  have hitem : ∀ a : Nat, tickItem env now a { c with lastAttempt := 0 } =
      ⟨{ c with lastAttempt := now, state := .CONNECTING }, false, (a + 1) % 65536,
        [Effect.hubConnect c.user c.token,
         Effect.fireStatusChanged { c with lastAttempt := now, state := .CONNECTING }]⟩ :=
    fun a => tickItem_forced env now a _ hstate rfl honline hprio hstart
  have hf : (force m c.user.user).downloads = pre ++ { c with lastAttempt := 0 } :: post := by
    simp only [force, hd]
    exact modifyCQI_first _ _ pre c post rfl hpre
  have hk := onSecond_keeps env (force m c.user.user) now pre post { c with lastAttempt := 0 } hf
    hptr (by rw [hitem])
  rw [hitem] at hk
  refine ⟨hitem, ?_, hk.2.1, hk.2.2⟩
  exact onSecond_effects env _ now _ hk.1 _ (by simp)

/-- Witness for C7: an item with the sticky `errors = -1`, last tried at 5000,
behind another item, under a budget of 1. -/
theorem force_then_tick_witness :
    Effect.hubConnect ⟨some 8, "hub"⟩ "tok" ∈
      (onSecond exampleEnv (force { init with downloads :=
        [exampleTried 1, ⟨2, ⟨some 8, "hub"⟩, "tok", true, .WAITING, 5000, -1⟩] } (some 8)) 6000).2 :=
  (force_then_tick exampleEnv 6000
    { init with downloads := [exampleTried 1, ⟨2, ⟨some 8, "hub"⟩, "tok", true, .WAITING, 5000, -1⟩] }
    [exampleTried 1] [] ⟨2, ⟨some 8, "hub"⟩, "tok", true, .WAITING, 5000, -1⟩ (some 8)
    rfl rfl (by decide) (by decide) rfl rfl (by decide) rfl).2.1

theorem nodup_ptr_split (pre post : List ConnectionQueueItem) (c : ConnectionQueueItem)
    (h : ((pre ++ c :: post).map (fun x => x.ptr)).Nodup) : ∀ x ∈ pre ++ post, x.ptr ≠ c.ptr := by
  rw [List.map_append, List.map_cons, List.nodup_append, List.nodup_cons] at h
  obtain ⟨_, ⟨hpost, _⟩, hdis⟩ := h
  intro x hx hxc
  rcases List.mem_append.mp hx with hx | hx
  · exact hdis (List.mem_map_of_mem (fun x => x.ptr) hx) (hxc ▸ List.mem_cons_self _ _)
  · exact hpost (hxc ▸ List.mem_map_of_mem (fun x => x.ptr) hx)

theorem onSecond_nodup_ptr (env : Env) (m : ConnectionManager) (t : Nat)
    (h : (m.downloads.map (fun c => c.ptr)).Nodup) :
    ((onSecond env m t).1.downloads.map (fun c => c.ptr)).Nodup := by
  rw [onSecond_downloads]
  have hmap : ((tickWalk env t 0 m.downloads).map (fun r => r.cqi)).map (fun c => c.ptr) =
      m.downloads.map (fun c => c.ptr) := by
    rw [List.map_map]
    exact tickWalk_map_ptr env t m.downloads 0
  rw [← hmap] at h
  exact h.sublist ((List.filter_sublist _).map _)

theorem tickItem_sticky (env : Env) (now a : Nat) (c : ConnectionQueueItem)
    (hstate : c.state ≠ .ACTIVE) (herr : c.errors = -1) (hla : c.lastAttempt ≠ 0)
    (honline : env.isOnline c.user.user = true) :
    tickItem env now a c = ⟨c, false, a, []⟩ := by
  simp [tickItem, hstate, herr, hla, honline]

theorem onSecond_sticky (env : Env) (m : ConnectionManager) (t : Nat) (c : ConnectionQueueItem)
    (hc : c ∈ m.downloads) (hptr : (m.downloads.map (fun c => c.ptr)).Nodup)
    (hstate : c.state ≠ .ACTIVE) (herr : c.errors = -1) (hla : c.lastAttempt ≠ 0)
    (honline : env.isOnline c.user.user = true) :
    (∃ a : Nat, (⟨c, false, a, []⟩ : TickStep) ∈ tickWalk env t 0 m.downloads) ∧
    c ∈ (onSecond env m t).1.downloads ∧
    ∀ x ∈ (onSecond env m t).1.downloads, x.ptr = c.ptr → x = c := by
  obtain ⟨pre, post, hd⟩ := List.append_of_mem hc
  have hst := tickItem_sticky env t (walkAttempts env t 0 pre) c hstate herr hla honline
  have hk := onSecond_keeps env m t pre post c hd (nodup_ptr_split pre post c (hd ▸ hptr))
    (by rw [hst])
  rw [hst] at hk
  exact ⟨⟨_, hk.1⟩, hk.2.1, hk.2.2⟩

/-- The protocol error mark under ticks alone. A download item that is not
ACTIVE, with `errors = -1` and `lastAttempt ≠ 0`, whose user is online: the step
of a tick for it changes nothing, does not put it on the `removed` list and makes
no call (no hub connect request, no timeout). In a manager whose download items
have distinct addresses this goes on for any number of ticks in a row (with the
user online), as long as no other event comes between them: the item is still in
`downloads`, unchanged, and the step of the next tick for it is again empty. -/
theorem sticky_over_ticks (ticks : List (Env × Nat)) (m : ConnectionManager)
    (c : ConnectionQueueItem) (hc : c ∈ m.downloads)
    (hptr : (m.downloads.map (fun c => c.ptr)).Nodup)
    (hstate : c.state ≠ .ACTIVE) (herr : c.errors = -1) (hla : c.lastAttempt ≠ 0)
    (honline : ∀ t ∈ ticks, t.1.isOnline c.user.user = true) :
    (∀ (env : Env) (now a : Nat), env.isOnline c.user.user = true →
      tickItem env now a c = ⟨c, false, a, []⟩) ∧
    c ∈ (runTicks ticks m).downloads ∧
    (∀ x ∈ (runTicks ticks m).downloads, x.ptr = c.ptr → x = c) ∧
    ∀ (env : Env) (now : Nat), env.isOnline c.user.user = true →
      (∃ a : Nat, (⟨c, false, a, []⟩ : TickStep) ∈
        tickWalk env now 0 (runTicks ticks m).downloads) ∧
      c ∈ (onSecond env (runTicks ticks m) now).1.downloads := by
  refine ⟨fun env now a h => tickItem_sticky env now a c hstate herr hla h, ?_⟩
  induction ticks generalizing m with
  | nil =>
    simp only [runTicks]
    refine ⟨hc, ?_, ?_⟩
    · intro x hx hxp
      obtain ⟨pre, post, hd⟩ := List.append_of_mem hc
      have hne := nodup_ptr_split pre post c (hd ▸ hptr)
      rw [hd, List.mem_append, List.mem_cons] at hx
      rcases hx with hx | hx | hx
      · exact absurd hxp (hne x (List.mem_append_left _ hx))
      · exact hx
      · exact absurd hxp (hne x (List.mem_append_right _ hx))
    · intro env now h
      have hs := onSecond_sticky env m now c hc hptr hstate herr hla h
      exact ⟨hs.1, hs.2.1⟩
  | cons t ts ih =>
    simp only [runTicks]
    have ht := honline t (List.mem_cons_self _ _)
    have hs := onSecond_sticky t.1 m t.2 c hc hptr hstate herr hla ht
    exact ih (onSecond t.1 m t.2).1 hs.2.1 (onSecond_nodup_ptr t.1 m t.2 hptr)
      (fun t2 h2 => honline t2 (List.mem_cons_of_mem _ h2))

/-- C9. `force (u)` changes one field. With a download item of `u`, the first such
item `c` gets `lastAttempt = 0` and keeps every other field; the items before and
after it and every other part of the manager are as before. Without a download
item of `u` the manager is unchanged. -/
theorem force_frame (m : ConnectionManager) (u : UserPtr) :
    match findCQI m.downloads u with
    | none => force m u = m
    | some c => c.user.user = u ∧ ∃ pre post : List ConnectionQueueItem,
        m.downloads = pre ++ c :: post ∧ (∀ x ∈ pre, x.user.user ≠ u) ∧
        force m u = { m with downloads := pre ++ { c with lastAttempt := 0 } :: post } := by
  cases h : findCQI m.downloads u with
  | none =>
    simp only [force]
    rw [modifyCQI_none u _ _ h]
  | some c =>
    obtain ⟨hu, pre, post, hd, hpre⟩ := findCQI_some_split _ _ _ h
    refine ⟨hu, pre, post, hd, hpre, ?_⟩
    simp only [force]
    rw [hd, modifyCQI_first u _ pre c post hu hpre]

/-! ## Connections by address -/

theorem findUC_some (m : ConnectionManager) (p : Nat) (src : UserConnection)
    (h : m.findUC p = some src) : src.ptr = p ∧ src ∈ m.userConnections := by
  unfold findUC at h
  exact ⟨by simpa using List.find?_some h, List.mem_of_find?_eq_some h⟩

theorem find_map_store (l : List UserConnection) (uc src : UserConnection)
    (h : l.find? (fun x => decide (x.ptr = uc.ptr)) = some src) :
    (l.map (fun x => if x.ptr = uc.ptr then uc else x)).find?
      (fun x => decide (x.ptr = uc.ptr)) = some uc := by
  induction l with
  | nil => simp at h
  | cons x xs ih =>
    rw [List.find?_cons] at h
    by_cases hx : x.ptr = uc.ptr
    · simp [hx]
    · simp only [hx, decide_False] at h
      simp only [List.map_cons, hx, if_false, List.find?_cons, decide_False]
      exact ih h

theorem findUC_storeUC (m : ConnectionManager) (p : Nat) (src uc : UserConnection)
    (h : m.findUC p = some src) (hp : uc.ptr = p) : (m.storeUC uc).findUC p = some uc := by
  subst hp
  exact find_map_store _ _ _ h

theorem findUC_putConnection (m : ConnectionManager) (p : Nat) :
    (putConnection m p).1.findUC p = none := by
  simp only [findUC, putConnection]
  rw [List.find?_eq_none]
  intro x hx
  rw [List.mem_filter] at hx
  simpa using hx.2

/-- C10. NMDC direction tie-break. For a connection in STATE_DIRECTION that holds
exactly one of FLAG_DOWNLOAD and FLAG_UPLOAD, with own number `n = env.number p`,
on `Direction (dir, m)`:
with `dir = "Upload"` it is dropped if it holds FLAG_UPLOAD and otherwise goes to
STATE_KEY with its flags as they were (still download);
with another `dir` and FLAG_DOWNLOAD, `n < m` swaps the role to FLAG_UPLOAD and
goes to STATE_KEY, `n = m` drops the connection, `n > m` goes to STATE_KEY with
the flags as they were; with FLAG_UPLOAD it goes to STATE_KEY unchanged.
Whatever the event, a connection that is still there afterwards is in STATE_KEY
and holds exactly one of the two role flags. -/
theorem direction_tie_break (env : Env) (m : ConnectionManager) (p : Nat) (src : UserConnection)
    (dir : String) (num : Int) (hfind : m.findUC p = some src)
    (hstate : src.state = .STATE_DIRECTION)
    (hrole : src.isSet .FLAG_DOWNLOAD ≠ src.isSet .FLAG_UPLOAD) :
    (dir = "Upload" → src.isSet .FLAG_UPLOAD = true →
      (onDirection env m p dir num).1.findUC p = none ∧
      (onDirection env m p dir num).1.userConnections =
        m.userConnections.filter (fun x => decide (x.ptr ≠ p))) ∧
    (dir = "Upload" → src.isSet .FLAG_UPLOAD = false →
      (onDirection env m p dir num).1.findUC p = some (src.setState .STATE_KEY) ∧
      src.isSet .FLAG_DOWNLOAD = true) ∧
    (dir ≠ "Upload" → src.isSet .FLAG_DOWNLOAD = true → env.number p < num →
      (onDirection env m p dir num).1.findUC p =
        some (((src.unsetFlag .FLAG_DOWNLOAD).setFlag .FLAG_UPLOAD).setState .STATE_KEY)) ∧
    (dir ≠ "Upload" → src.isSet .FLAG_DOWNLOAD = true → env.number p = num →
      (onDirection env m p dir num).1.findUC p = none ∧
      (onDirection env m p dir num).1.userConnections =
        m.userConnections.filter (fun x => decide (x.ptr ≠ p))) ∧
    (dir ≠ "Upload" → src.isSet .FLAG_DOWNLOAD = true → num < env.number p →
      (onDirection env m p dir num).1.findUC p = some (src.setState .STATE_KEY)) ∧
    (dir ≠ "Upload" → src.isSet .FLAG_UPLOAD = true →
      (onDirection env m p dir num).1.findUC p = some (src.setState .STATE_KEY)) ∧
    ∀ uc : UserConnection, (onDirection env m p dir num).1.findUC p = some uc →
      uc.state = .STATE_KEY ∧ uc.isSet .FLAG_DOWNLOAD ≠ uc.isSet .FLAG_UPLOAD := by
  have hp := (findUC_some m p src hfind).1
  have hst : ∀ uc : UserConnection, uc.ptr = p → (m.storeUC uc).findUC p = some uc :=
    fun uc h => findUC_storeUC m p src uc hfind h
  have hput := findUC_putConnection m p
  have hne : src.state ≠ .STATE_DIRECTION ↔ False := by simp [hstate]
  refine ⟨?_, ?_, ?_, ?_, ?_, ?_, ?_⟩
  · intro hd hu
    simp only [onDirection, hfind, hne, if_false, hd, if_true, hu]
    exact ⟨hput, rfl⟩
  · intro hd hu
    simp only [onDirection, hfind, hne, if_false, hd, if_true, hu]
    refine ⟨hst _ hp, ?_⟩
    cases hD : src.isSet .FLAG_DOWNLOAD
    · rw [hD, hu] at hrole; exact absurd rfl hrole
    · rfl
  · intro hd hD hlt
    simp only [onDirection, hfind, hne, if_false, hd, hD, if_true, hlt]
    exact hst _ hp
  · intro hd hD heq
    have hlt : ¬ env.number p < num := by omega
    simp only [onDirection, hfind, hne, if_false, hd, hD, if_true]
    rw [if_neg hlt, if_pos heq]
    exact ⟨hput, rfl⟩
  · intro hd hD hgt
    have hlt : ¬ env.number p < num := by omega
    have heq : ¬ env.number p = num := by omega
    simp only [onDirection, hfind, hne, if_false, hd, hD, if_true]
    rw [if_neg hlt, if_neg heq]
    exact hst _ hp
  · intro hd hU
    have hD : src.isSet .FLAG_DOWNLOAD = false := by
      cases hD : src.isSet .FLAG_DOWNLOAD
      · rfl
      · rw [hD, hU] at hrole; exact absurd rfl hrole
    simp only [onDirection, hfind, hne, if_false, hd, hD]
    exact hst _ hp
  · intro uc huc
    have hkey : ∀ x : UserConnection, x.ptr = p → (m.storeUC x).findUC p = some uc → uc = x := by
      intro x hx h
      rw [hst x hx] at h
      exact (Option.some.inj h).symm
    simp only [onDirection, hfind, hne, if_false] at huc
    split_ifs at huc with h1 h2 h3 h4 h5
    · rw [hput] at huc; cases huc
    · rw [hkey (src.setState .STATE_KEY) hp huc]; exact ⟨rfl, hrole⟩
    · rw [hkey (((src.unsetFlag .FLAG_DOWNLOAD).setFlag .FLAG_UPLOAD).setState .STATE_KEY) hp huc]
      refine ⟨rfl, ?_⟩
      simp [UserConnection.isSet, UserConnection.setState, UserConnection.setFlag,
        UserConnection.unsetFlag, Flags.isSet, Flags.assign]
    · rw [hput] at huc; cases huc
    · rw [hkey (src.setState .STATE_KEY) hp huc]; exact ⟨rfl, hrole⟩
    · rw [hkey (src.setState .STATE_KEY) hp huc]; exact ⟨rfl, hrole⟩

/-- Witness for C10: own number 10, the peer sends `Direction Download 22`; the
connection swaps to FLAG_UPLOAD and goes to STATE_KEY. -/
theorem direction_tie_break_witness :
    exampleDirection.findUC 10 = some { newUserConnection 10 false with
      user := some 7, state := .STATE_DIRECTION,
      flags := Flags.empty.assign .FLAG_DOWNLOAD true } ∧
    (onDirection exampleEnv exampleDirection 10 "Download" 22).1.findUC 10 =
      some { newUserConnection 10 false with
        user := some 7, state := .STATE_KEY,
        flags := Flags.empty.assign .FLAG_UPLOAD true } :=
  ⟨rfl, (direction_tie_break exampleEnv exampleDirection 10
    { newUserConnection 10 false with
      user := some 7, state := .STATE_DIRECTION,
      flags := Flags.empty.assign .FLAG_DOWNLOAD true }
    "Download" 22 rfl rfl (by decide)).2.2.1 (by decide) rfl (by decide)⟩

/-! ## Counting under updates by a key without repetition -/

theorem countP_update_key {α κ : Type} [DecidableEq κ] (key : α → κ) (g : α → α) (P : α → Bool)
    (l : List α) (hnd : (l.map key).Nodup) (a : α) (ha : a ∈ l) :
    (l.map (fun x => if key x = key a then g x else x)).countP P + (if P a then 1 else 0) =
      l.countP P + (if P (g a) then 1 else 0) := by
  induction l with
  | nil => cases ha
  | cons x xs ih =>
    rw [List.map_cons, List.nodup_cons] at hnd
    rcases List.mem_cons.mp ha with rfl | hmem
    · have hrest : xs.map (fun x => if key x = key a then g x else x) = xs := by
        conv_rhs => rw [← List.map_id xs]
        apply List.map_congr_left
        intro y hy
        have : key y ≠ key a := fun h => hnd.1 (h ▸ List.mem_map_of_mem key hy)
        simp [this]
      simp only [List.map_cons, if_true, hrest, List.countP_cons]
      omega
    · have hx : key x ≠ key a := fun h => hnd.1 (h ▸ List.mem_map_of_mem key hmem)
      have h2 := ih hnd.2 hmem
      simp only [List.map_cons, if_neg hx, List.countP_cons]
      omega

theorem countP_remove_key {α κ : Type} [DecidableEq κ] (key : α → κ) (P : α → Bool)
    (l : List α) (hnd : (l.map key).Nodup) (a : α) (ha : a ∈ l) :
    (l.filter (fun x => decide (key x ≠ key a))).countP P + (if P a then 1 else 0) =
      l.countP P := by
  induction l with
  | nil => cases ha
  | cons x xs ih =>
    rw [List.map_cons, List.nodup_cons] at hnd
    rcases List.mem_cons.mp ha with rfl | hmem
    · have hrest : xs.filter (fun x => decide (key x ≠ key a)) = xs := by
        rw [List.filter_eq_self]
        intro y hy
        have : key y ≠ key a := fun h => hnd.1 (h ▸ List.mem_map_of_mem key hy)
        simp [this]
      simp only [List.filter_cons, ne_eq, not_true_eq_false, decide_False, Bool.false_eq_true,
        if_false, List.countP_cons]
      simp only [ne_eq] at hrest
      rw [hrest]
    · have hx : key x ≠ key a := fun h => hnd.1 (h ▸ List.mem_map_of_mem key hmem)
      have h2 := ih hnd.2 hmem
      simp only [List.filter_cons, hx, ne_eq, not_false_eq_true, decide_True, if_true,
        List.countP_cons]
      simp only [ne_eq] at h2
      omega

theorem eq_of_key_eq {α κ : Type} (key : α → κ) (l : List α) (hnd : (l.map key).Nodup)
    (a b : α) (ha : a ∈ l) (hb : b ∈ l) (h : key a = key b) : a = b :=
  List.inj_on_of_nodup_map hnd ha hb h

theorem countP_key_le_one {α κ : Type} [DecidableEq κ] (key : α → κ) (l : List α)
    (hnd : (l.map key).Nodup) (u : κ) : l.countP (fun x => decide (key x = u)) ≤ 1 := by
  induction l with
  | nil => simp
  | cons x xs ih =>
    rw [List.map_cons, List.nodup_cons] at hnd
    rw [List.countP_cons]
    by_cases hx : key x = u
    · have hz : xs.countP (fun x => decide (key x = u)) = 0 := by
        rw [List.countP_eq_zero]
        intro y hy
        have : key y ≠ u := fun h => hnd.1 (hx ▸ h ▸ List.mem_map_of_mem key hy)
        simp [this]
      simp [hx, hz]
    · have := ih hnd.2
      simp [hx, this]

/-! ## Steps that keep the invariant -/

theorem InvV.mono_next {ds us : List QView} {cs : List CView} {n : Nat} (h : InvV ds us cs n)
    (n2 : Nat) (hn : n ≤ n2) : InvV ds us cs n2 :=
  { h with
    dsLt := fun q hq => lt_of_lt_of_le (h.dsLt q hq) hn
    usLt := fun q hq => lt_of_lt_of_le (h.usLt q hq) hn
    csLt := fun v hv => lt_of_lt_of_le (h.csLt v hv) hn }

theorem InvV.filter_ds {ds us : List QView} {cs : List CView} {n : Nat} (h : InvV ds us cs n)
    (k : QView → Bool) (hk : ∀ q ∈ ds, k q = false → q.active = false) :
    InvV (ds.filter k) us cs n := by
  refine { h with dsPtr := ?_, dsLt := ?_, dsUser := ?_, dsDir := ?_, cntD := ?_ }
  · exact h.dsPtr.sublist ((List.filter_sublist ds).map _)
  · exact fun q hq => h.dsLt q (List.mem_of_mem_filter hq)
  · exact h.dsUser.sublist ((List.filter_sublist ds).map _)
  · exact fun q hq => h.dsDir q (List.mem_of_mem_filter hq)
  · intro u
    rw [h.cntD u, List.countP_filter]
    apply List.countP_congr
    intro q hq
    cases hkq : k q
    · simp [activeOf, hk q hq hkq]
    · simp

theorem InvV.filter_us_id {ds us : List QView} {cs : List CView} {n : Nat} (h : InvV ds us cs n)
    (k : QView → Bool) (hk : ∀ q ∈ us, k q = true) : InvV ds (us.filter k) cs n := by
  have : us.filter k = us := List.filter_eq_self.mpr hk
  rw [this]
  exact h

theorem InvV.new_ds {ds us : List QView} {cs : List CView} {n : Nat} (h : InvV ds us cs n)
    (u : UserPtr) (hu : u ∉ ds.map (fun q => q.user)) :
    InvV (ds ++ [⟨n, u, true, false⟩]) us cs (n + 1) := by
  have h2 := h.mono_next (n + 1) (Nat.le_succ n)
  refine { h2 with dsPtr := ?_, dsLt := ?_, dsUser := ?_, dsDir := ?_, cntD := ?_ }
  · rw [List.map_append, List.nodup_append]
    refine ⟨h.dsPtr, by simp, ?_⟩
    intro a ha hb
    simp only [List.map_cons, List.map_nil, List.mem_singleton] at hb
    obtain ⟨q, hq, rfl⟩ := List.mem_map.mp ha
    have := h.dsLt q hq
    omega
  · intro q hq
    rcases List.mem_append.mp hq with hq | hq
    · exact h2.dsLt q hq
    · simp only [List.mem_singleton] at hq
      subst hq
      exact Nat.lt_succ_self n
  · rw [List.map_append, List.nodup_append]
    refine ⟨h.dsUser, by simp, ?_⟩
    intro a ha hb
    simp only [List.map_cons, List.map_nil, List.mem_singleton] at hb
    exact hu (hb ▸ ha)
  · intro q hq
    rcases List.mem_append.mp hq with hq | hq
    · exact h.dsDir q hq
    · simp only [List.mem_singleton] at hq
      subst hq
      rfl
  · intro u2
    rw [h.cntD u2, List.countP_append]
    simp [activeOf]

theorem InvV.new_cs {ds us : List QView} {cs : List CView} {n : Nat} (h : InvV ds us cs n)
    (w : CView) (hp : w.ptr = n) (hs : Shape w) (ha : w.assoc = false) :
    InvV ds us (cs ++ [w]) (n + 1) := by
  have h2 := h.mono_next (n + 1) (Nat.le_succ n)
  refine { h2 with csPtr := ?_, csLt := ?_, shape := ?_, cntD := ?_, cntU := ?_ }
  · rw [List.map_append, List.nodup_append]
    refine ⟨h.csPtr, by simp, ?_⟩
    intro a ha hb
    simp only [List.map_cons, List.map_nil, List.mem_singleton] at hb
    obtain ⟨q, hq, rfl⟩ := List.mem_map.mp ha
    have := h.csLt q hq
    omega
  · intro q hq
    rcases List.mem_append.mp hq with hq | hq
    · exact h2.csLt q hq
    · simp only [List.mem_singleton] at hq
      subst hq
      omega
  · intro q hq
    rcases List.mem_append.mp hq with hq | hq
    · exact h.shape q hq
    · simp only [List.mem_singleton] at hq
      subst hq
      exact hs
  · intro u2
    rw [← h.cntD u2, List.countP_append]
    simp [assocDown, ha]
  · intro u2
    rw [← h.cntU u2, List.countP_append]
    simp [assocUp, ha]

theorem InvV.filter_cs {ds us : List QView} {cs : List CView} {n : Nat} (h : InvV ds us cs n)
    (k : CView → Bool) (hk : ∀ v ∈ cs, k v = false → v.assoc = false) :
    InvV ds us (cs.filter k) n := by
  refine { h with csPtr := ?_, csLt := ?_, shape := ?_, cntD := ?_, cntU := ?_ }
  · exact h.csPtr.sublist ((List.filter_sublist cs).map _)
  · exact fun q hq => h.csLt q (List.mem_of_mem_filter hq)
  · exact fun q hq => h.shape q (List.mem_of_mem_filter hq)
  · intro u
    rw [← h.cntD u, List.countP_filter]
    apply List.countP_congr
    intro q hq
    cases hkq : k q
    · simp [assocDown, hk q hq hkq]
    · simp
  · intro u
    rw [← h.cntU u, List.countP_filter]
    apply List.countP_congr
    intro q hq
    cases hkq : k q
    · simp [assocUp, hk q hq hkq]
    · simp

theorem InvV.map_cs {ds us : List QView} {cs : List CView} {n : Nat} (h : InvV ds us cs n)
    (g : CView → CView)
    (hg : ∀ v ∈ cs, g v = v ∨
      ((g v).ptr = v.ptr ∧ Shape (g v) ∧ v.assoc = false ∧ (g v).assoc = false)) :
    InvV ds us (cs.map g) n := by
  have hptr : ∀ v ∈ cs, (g v).ptr = v.ptr := by
    intro v hv
    rcases hg v hv with h1 | h1
    · rw [h1]
    · exact h1.1
  refine { h with csPtr := ?_, csLt := ?_, shape := ?_, cntD := ?_, cntU := ?_ }
  · rw [List.map_map]
    have : cs.map ((fun v => v.ptr) ∘ g) = cs.map (fun v => v.ptr) :=
      List.map_congr_left (fun v hv => hptr v hv)
    rw [this]
    exact h.csPtr
  · intro w hw
    obtain ⟨v, hv, rfl⟩ := List.mem_map.mp hw
    rw [hptr v hv]
    exact h.csLt v hv
  · intro w hw
    obtain ⟨v, hv, rfl⟩ := List.mem_map.mp hw
    rcases hg v hv with h1 | h1
    · rw [h1]; exact h.shape v hv
    · exact h1.2.1
  · intro u
    rw [← h.cntD u, List.countP_map]
    apply List.countP_congr
    intro v hv
    rcases hg v hv with h1 | h1
    · simp [h1]
    · simp [assocDown, h1.2.2.1, h1.2.2.2]
  · intro u
    rw [← h.cntU u, List.countP_map]
    apply List.countP_congr
    intro v hv
    rcases hg v hv with h1 | h1
    · simp [h1]
    · simp [assocUp, h1.2.2.1, h1.2.2.2]

/-- Replace the view at address `p` by `w`. -/
theorem InvV.store_cs_frame {ds us : List QView} {cs : List CView} {n : Nat}
    (h : InvV ds us cs n) (p : Nat) (w : CView) (hw : w.ptr = p) (hs : Shape w) :
    ((cs.map (fun x => if x.ptr = p then w else x)).map (fun v => v.ptr)).Nodup ∧
    (∀ v ∈ cs.map (fun x => if x.ptr = p then w else x), v.ptr < n) ∧
    (∀ v ∈ cs.map (fun x => if x.ptr = p then w else x), Shape v) := by
  have hptr : ∀ v : CView, (if v.ptr = p then w else v).ptr = v.ptr := by
    intro v
    by_cases hv : v.ptr = p
    · rw [if_pos hv, hw, hv]
    · rw [if_neg hv]
  refine ⟨?_, ?_, ?_⟩
  · rw [List.map_map]
    have : cs.map ((fun v => v.ptr) ∘ fun x => if x.ptr = p then w else x) =
        cs.map (fun v => v.ptr) := List.map_congr_left (fun v _ => hptr v)
    rw [this]
    exact h.csPtr
  · intro v hv
    obtain ⟨x, hx, rfl⟩ := List.mem_map.mp hv
    rw [hptr x]
    exact h.csLt x hx
  · intro v hv
    obtain ⟨x, hx, rfl⟩ := List.mem_map.mp hv
    by_cases hxp : x.ptr = p
    · rw [if_pos hxp]; exact hs
    · rw [if_neg hxp]; exact h.shape x hx

theorem InvV.setActive_frame {ds us : List QView} {cs : List CView} {n : Nat}
    (h : InvV ds us cs n) (u : UserPtr) (b : Bool) :
    ((ds.map (fun q => if q.user = u then { q with active := b } else q)).map
      (fun q => q.ptr)).Nodup ∧
    (∀ q ∈ ds.map (fun q => if q.user = u then { q with active := b } else q), q.ptr < n) ∧
    ((ds.map (fun q => if q.user = u then { q with active := b } else q)).map
      (fun q => q.user)).Nodup ∧
    (∀ q ∈ ds.map (fun q => if q.user = u then { q with active := b } else q),
      q.download = true) := by
  have hptr : ∀ q : QView, (if q.user = u then { q with active := b } else q).ptr = q.ptr := by
    intro q; split_ifs <;> rfl
  have husr : ∀ q : QView, (if q.user = u then { q with active := b } else q).user = q.user := by
    intro q; split_ifs <;> rfl
  have hdir : ∀ q : QView,
      (if q.user = u then { q with active := b } else q).download = q.download := by
    intro q; split_ifs <;> rfl
  refine ⟨?_, ?_, ?_, ?_⟩
  · rw [List.map_map]
    have : ds.map ((fun q => q.ptr) ∘ fun q => if q.user = u then { q with active := b } else q) =
        ds.map (fun q => q.ptr) := List.map_congr_left (fun q _ => hptr q)
    rw [this]
    exact h.dsPtr
  · intro v hv
    obtain ⟨x, hx, rfl⟩ := List.mem_map.mp hv
    rw [hptr x]
    exact h.dsLt x hx
  · rw [List.map_map]
    have : ds.map ((fun q => q.user) ∘ fun q => if q.user = u then { q with active := b } else q) =
        ds.map (fun q => q.user) := List.map_congr_left (fun q _ => husr q)
    rw [this]
    exact h.dsUser
  · intro v hv
    obtain ⟨x, hx, rfl⟩ := List.mem_map.mp hv
    rw [hdir x]
    exact h.dsDir x hx

/-- Association of a download: the connection at `p` becomes associated as
download of `u`, the download item of `u`, not ACTIVE so far, becomes ACTIVE. -/
theorem InvV.assocD {ds us : List QView} {cs : List CView} {n : Nat} (h : InvV ds us cs n)
    (p : Nat) (u : UserPtr) (v : CView) (hv : v ∈ cs) (hvp : v.ptr = p) (hva : v.assoc = false)
    (q0 : QView) (hq : q0 ∈ ds) (hqu : q0.user = u) (hqa : q0.active = false) :
    InvV (ds.map (fun q => if q.user = u then { q with active := true } else q)) us
      (cs.map (fun x => if x.ptr = p then ⟨p, u, true, true, false, .STATE_RUNNING⟩ else x)) n := by
  subst hvp hqu
  obtain ⟨c1, c2, c3⟩ := h.store_cs_frame v.ptr ⟨v.ptr, q0.user, true, true, false, .STATE_RUNNING⟩
    rfl (by simp [Shape])
  obtain ⟨d1, d2, d3, d4⟩ := h.setActive_frame q0.user true
  refine { h with
    dsPtr := d1
    dsLt := d2
    dsUser := d3
    dsDir := d4
    csPtr := c1
    csLt := c2
    shape := c3
    cntD := ?_
    cntU := ?_ }
  · intro u2
    have e1 := countP_update_key (fun x : CView => x.ptr)
      (fun _ => ⟨v.ptr, q0.user, true, true, false, .STATE_RUNNING⟩) (assocDown u2) cs h.csPtr v hv
    have e2 := countP_update_key (fun q : QView => q.user)
      (fun q => { q with active := true }) (activeOf u2) ds h.dsUser q0 hq
    have e3 := h.cntD u2
    have f1 : assocDown u2 v = false := by simp [assocDown, hva]
    have f2 : activeOf u2 q0 = false := by simp [activeOf, hqa]
    have f3 : assocDown u2 ⟨v.ptr, q0.user, true, true, false, .STATE_RUNNING⟩ =
        decide (q0.user = u2) := by
      simp [assocDown]
    have f4 : activeOf u2 { q0 with active := true } = decide (q0.user = u2) := by
      simp [activeOf]
    rw [f1, f3] at e1
    rw [f2, f4] at e2
    simp only [Bool.false_eq_true, if_false, Nat.add_zero] at e1 e2
    omega
  · intro u2
    have e1 := countP_update_key (fun x : CView => x.ptr)
      (fun _ => ⟨v.ptr, q0.user, true, true, false, .STATE_RUNNING⟩) (assocUp u2) cs h.csPtr v hv
    have e3 := h.cntU u2
    have f1 : assocUp u2 v = false := by simp [assocUp, hva]
    have f3 : assocUp u2 ⟨v.ptr, q0.user, true, true, false, .STATE_RUNNING⟩ = false := by
      simp [assocUp]
    rw [f1, f3] at e1
    simp only [Bool.false_eq_true, if_false, Nat.add_zero] at e1
    omega

/-- Association of an upload: the connection at `p` becomes associated as upload
of `u`, and a new upload item of `u`, who had none, is appended. -/
theorem InvV.assocU {ds us : List QView} {cs : List CView} {n : Nat} (h : InvV ds us cs n)
    (p : Nat) (u : UserPtr) (v : CView) (hv : v ∈ cs) (hvp : v.ptr = p) (hva : v.assoc = false)
    (hu : u ∉ us.map (fun q => q.user)) :
    InvV ds (us ++ [⟨n, u, false, true⟩])
      (cs.map (fun x => if x.ptr = p then ⟨p, u, true, false, true, .STATE_RUNNING⟩ else x))
      (n + 1) := by
  subst hvp
  obtain ⟨c1, c2, c3⟩ := h.store_cs_frame v.ptr ⟨v.ptr, u, true, false, true, .STATE_RUNNING⟩ rfl
    (by simp [Shape])
  have h2 := h.mono_next (n + 1) (Nat.le_succ n)
  refine { h2 with
    usPtr := ?_
    usLt := ?_
    usUser := ?_
    usDir := ?_
    usAct := ?_
    csPtr := c1
    csLt := fun x hx => Nat.lt_succ_of_lt (c2 x hx)
    shape := c3
    cntD := ?_
    cntU := ?_ }
  · rw [List.map_append, List.nodup_append]
    refine ⟨h.usPtr, by simp, ?_⟩
    intro a ha hb
    simp only [List.map_cons, List.map_nil, List.mem_singleton] at hb
    obtain ⟨q, hq, rfl⟩ := List.mem_map.mp ha
    have := h.usLt q hq
    omega
  · intro q hq
    rcases List.mem_append.mp hq with hq | hq
    · exact h2.usLt q hq
    · simp only [List.mem_singleton] at hq
      subst hq
      exact Nat.lt_succ_self n
  · rw [List.map_append, List.nodup_append]
    refine ⟨h.usUser, by simp, ?_⟩
    intro a ha hb
    simp only [List.map_cons, List.map_nil, List.mem_singleton] at hb
    exact hu (hb ▸ ha)
  · intro q hq
    rcases List.mem_append.mp hq with hq | hq
    · exact h.usDir q hq
    · simp only [List.mem_singleton] at hq
      subst hq
      rfl
  · intro q hq
    rcases List.mem_append.mp hq with hq | hq
    · exact h.usAct q hq
    · simp only [List.mem_singleton] at hq
      subst hq
      rfl
  · intro u2
    have e1 := countP_update_key (fun x : CView => x.ptr)
      (fun _ => ⟨v.ptr, u, true, false, true, .STATE_RUNNING⟩) (assocDown u2) cs h.csPtr v hv
    have e3 := h.cntD u2
    have f1 : assocDown u2 v = false := by simp [assocDown, hva]
    have f3 : assocDown u2 ⟨v.ptr, u, true, false, true, .STATE_RUNNING⟩ = false := by
      simp [assocDown]
    rw [f1, f3] at e1
    simp only [Bool.false_eq_true, if_false, Nat.add_zero] at e1
    omega
  · intro u2
    have e1 := countP_update_key (fun x : CView => x.ptr)
      (fun _ => ⟨v.ptr, u, true, false, true, .STATE_RUNNING⟩) (assocUp u2) cs h.csPtr v hv
    have e3 := h.cntU u2
    have f1 : assocUp u2 v = false := by simp [assocUp, hva]
    have f3 : assocUp u2 ⟨v.ptr, u, true, false, true, .STATE_RUNNING⟩ = decide (u = u2) := by
      simp [assocUp]
    rw [f1, f3] at e1
    rw [List.countP_append]
    simp only [Bool.false_eq_true, if_false, Nat.add_zero] at e1
    simp only [List.countP_cons, List.countP_nil, ofUser]
    by_cases huu : u = u2 <;> simp [huu] at e1 ⊢ <;> omega

/-- Failure of an associated download connection: the connection at `p` goes, the
download item of its user is no longer ACTIVE. -/
theorem InvV.failD {ds us : List QView} {cs : List CView} {n : Nat} (h : InvV ds us cs n)
    (p : Nat) (v : CView) (hv : v ∈ cs) (hvp : v.ptr = p) (hva : v.assoc = true)
    (hvd : v.down = true) :
    InvV (ds.map (fun q => if q.user = v.user then { q with active := false } else q)) us
      (cs.filter (fun x => decide (x.ptr ≠ p))) n := by
  subst hvp
  obtain ⟨d1, d2, d3, d4⟩ := h.setActive_frame v.user false
  have hup : v.up = false := by
    have hs := h.shape v hv
    unfold Shape at hs
    cases hst : v.state <;> rw [hst] at hs <;> simp_all
  have hpos : 0 < ds.countP (activeOf v.user) := by
    rw [← h.cntD v.user, List.countP_pos_iff]
    exact ⟨v, hv, by simp [assocDown, hva, hvd]⟩
  obtain ⟨q0, hq, hq0⟩ := List.countP_pos_iff.mp hpos
  simp only [activeOf, Bool.and_eq_true, decide_eq_true_eq] at hq0
  refine { h with
    dsPtr := d1
    dsLt := d2
    dsUser := d3
    dsDir := d4
    csPtr := h.csPtr.sublist ((List.filter_sublist cs).map _)
    csLt := fun x hx => h.csLt x (List.mem_of_mem_filter hx)
    shape := fun x hx => h.shape x (List.mem_of_mem_filter hx)
    cntD := ?_
    cntU := ?_ }
  · intro u2
    have e1 := countP_remove_key (fun x : CView => x.ptr) (assocDown u2) cs h.csPtr v hv
    have e2 := countP_update_key (fun q : QView => q.user)
      (fun q => { q with active := false }) (activeOf u2) ds h.dsUser q0 hq
    have e3 := h.cntD u2
    dsimp only at e1 e2
    have f1 : assocDown u2 v = decide (q0.user = u2) := by simp [assocDown, hva, hvd, hq0.2]
    have f2 : activeOf u2 q0 = decide (q0.user = u2) := by simp [activeOf, hq0.1]
    have f4 : activeOf u2 { q0 with active := false } = false := by simp [activeOf]
    rw [f1] at e1
    rw [f2, f4] at e2
    simp only [Bool.false_eq_true, if_false, Nat.add_zero] at e2
    rw [← hq0.2]
    omega
  · intro u2
    have e1 := countP_remove_key (fun x : CView => x.ptr) (assocUp u2) cs h.csPtr v hv
    have e3 := h.cntU u2
    dsimp only at e1
    have f1 : assocUp u2 v = false := by simp [assocUp, hup]
    rw [f1] at e1
    simp only [Bool.false_eq_true, if_false, Nat.add_zero] at e1
    omega

/-- Failure of an associated upload connection: the connection at `p` goes, and
so does the upload item `q0` of its user. -/
theorem InvV.failU {ds us : List QView} {cs : List CView} {n : Nat} (h : InvV ds us cs n)
    (p : Nat) (v : CView) (hv : v ∈ cs) (hvp : v.ptr = p) (hva : v.assoc = true)
    (hvd : v.down = false) (hvu : v.up = true)
    (q0 : QView) (hq : q0 ∈ us) (hqu : q0.user = v.user) :
    InvV ds (us.filter (fun x => decide (x.ptr ≠ q0.ptr)))
      (cs.filter (fun x => decide (x.ptr ≠ p))) n := by
  subst hvp
  refine { h with
    usPtr := h.usPtr.sublist ((List.filter_sublist us).map _)
    usLt := fun x hx => h.usLt x (List.mem_of_mem_filter hx)
    usUser := h.usUser.sublist ((List.filter_sublist us).map _)
    usDir := fun x hx => h.usDir x (List.mem_of_mem_filter hx)
    usAct := fun x hx => h.usAct x (List.mem_of_mem_filter hx)
    csPtr := h.csPtr.sublist ((List.filter_sublist cs).map _)
    csLt := fun x hx => h.csLt x (List.mem_of_mem_filter hx)
    shape := fun x hx => h.shape x (List.mem_of_mem_filter hx)
    cntD := ?_
    cntU := ?_ }
  · intro u2
    have e1 := countP_remove_key (fun x : CView => x.ptr) (assocDown u2) cs h.csPtr v hv
    have e3 := h.cntD u2
    dsimp only at e1
    have f1 : assocDown u2 v = false := by simp [assocDown, hvd]
    rw [f1] at e1
    simp only [Bool.false_eq_true, if_false, Nat.add_zero] at e1
    omega
  · intro u2
    have e1 := countP_remove_key (fun x : CView => x.ptr) (assocUp u2) cs h.csPtr v hv
    have e2 := countP_remove_key (fun x : QView => x.ptr) (ofUser u2) us h.usPtr q0 hq
    have e3 := h.cntU u2
    dsimp only at e1 e2
    have f1 : assocUp u2 v = decide (v.user = u2) := by simp [assocUp, hva, hvu]
    have f2 : ofUser u2 q0 = decide (v.user = u2) := by simp [ofUser, hqu]
    rw [f1] at e1
    rw [f2] at e2
    omega

/-- There is an upload item for the user of an associated upload connection. -/
theorem InvV.upload_item {ds us : List QView} {cs : List CView} {n : Nat} (h : InvV ds us cs n)
    (v : CView) (hv : v ∈ cs) (hva : v.assoc = true) (hvu : v.up = true) :
    ∃ q ∈ us, q.user = v.user := by
  have hpos : 0 < us.countP (ofUser v.user) := by
    rw [← h.cntU v.user, List.countP_pos_iff]
    exact ⟨v, hv, by simp [assocUp, hva, hvu]⟩
  obtain ⟨q0, hq, hq0⟩ := List.countP_pos_iff.mp hpos
  exact ⟨q0, hq, by simpa [ofUser] using hq0⟩

/-- There is an ACTIVE download item for the user of an associated download
connection. -/
theorem InvV.download_item {ds us : List QView} {cs : List CView} {n : Nat} (h : InvV ds us cs n)
    (v : CView) (hv : v ∈ cs) (hva : v.assoc = true) (hvd : v.down = true) :
    ∃ q ∈ ds, q.user = v.user ∧ q.active = true := by
  have hpos : 0 < ds.countP (activeOf v.user) := by
    rw [← h.cntD v.user, List.countP_pos_iff]
    exact ⟨v, hv, by simp [assocDown, hva, hvd]⟩
  obtain ⟨q0, hq, hq0⟩ := List.countP_pos_iff.mp hpos
  simp only [activeOf, Bool.and_eq_true, decide_eq_true_eq] at hq0
  exact ⟨q0, hq, hq0.2, hq0.1⟩

/-! ## Views of the containers after the basic operations -/

theorem ucView_ptr (uc : UserConnection) : (ucView uc).ptr = uc.ptr := rfl

theorem storeUC_view (m : ConnectionManager) (uc : UserConnection) :
    (m.storeUC uc).userConnections.map ucView =
      (m.userConnections.map ucView).map (fun v => if v.ptr = uc.ptr then ucView uc else v) := by
  simp only [storeUC, List.map_map]
  apply List.map_congr_left
  intro x _
  simp only [Function.comp, ucView_ptr]
  split_ifs <;> rfl

theorem putConnection_view (m : ConnectionManager) (p : Nat) :
    (putConnection m p).1.userConnections.map ucView =
      (m.userConnections.map ucView).filter (fun v => decide (v.ptr ≠ p)) := by
  simp only [putConnection, List.filter_map]
  rfl

theorem Inv.ucPtr {m : ConnectionManager} (h : Inv m) :
    (m.userConnections.map (fun x => x.ptr)).Nodup := by
  have := h.csPtr
  rwa [List.map_map] at this

theorem Inv.dsUser' {m : ConnectionManager} (h : Inv m) :
    (m.downloads.map (fun c => c.user.user)).Nodup := by
  have := h.dsUser
  rwa [List.map_map] at this

theorem Inv.usUser' {m : ConnectionManager} (h : Inv m) :
    (m.uploads.map (fun c => c.user.user)).Nodup := by
  have := h.usUser
  rwa [List.map_map] at this

theorem Inv.dsPtr' {m : ConnectionManager} (h : Inv m) :
    (m.downloads.map (fun c => c.ptr)).Nodup := by
  have := h.dsPtr
  rwa [List.map_map] at this

theorem Inv.usPtr' {m : ConnectionManager} (h : Inv m) :
    (m.uploads.map (fun c => c.ptr)).Nodup := by
  have := h.usPtr
  rwa [List.map_map] at this

theorem Inv.findUC_eq {m : ConnectionManager} (h : Inv m) (p : Nat) (src : UserConnection)
    (hf : m.findUC p = some src) (x : UserConnection) (hx : x ∈ m.userConnections)
    (hxp : x.ptr = p) : x = src := by
  obtain ⟨hp, hmem⟩ := findUC_some m p src hf
  exact eq_of_key_eq (fun x => x.ptr) _ h.ucPtr x src hx hmem (hxp.trans hp.symm)

theorem Inv.of_views {m m2 : ConnectionManager} (h : Inv m)
    (hd : m2.downloads.map cqiView = m.downloads.map cqiView)
    (hu : m2.uploads.map cqiView = m.uploads.map cqiView)
    (hc : m2.userConnections.map ucView = m.userConnections.map ucView)
    (hn : m.nextPtr ≤ m2.nextPtr) : Inv m2 := by
  unfold Inv at h ⊢
  rw [hd, hu, hc]
  exact h.mono_next _ hn

/-- Writing a connection that was and stays unassociated keeps the invariant. -/
theorem Inv.storeUC_plain {m : ConnectionManager} (h : Inv m) (p : Nat) (src uc : UserConnection)
    (hf : m.findUC p = some src) (hp : uc.ptr = p) (hs : Shape (ucView uc))
    (ha : (ucView src).assoc = false) (ha2 : (ucView uc).assoc = false) : Inv (m.storeUC uc) := by
  unfold Inv at h ⊢
  rw [storeUC_view]
  have h2 : InvV (m.downloads.map cqiView) (m.uploads.map cqiView)
      ((m.userConnections.map ucView).map (fun v => if v.ptr = uc.ptr then ucView uc else v))
      m.nextPtr := by
    apply h.map_cs
    intro v hv
    by_cases hvp : v.ptr = uc.ptr
    · right
      obtain ⟨x, hx, rfl⟩ := List.mem_map.mp hv
      have hxs : x = src := Inv.findUC_eq h p src hf x hx (hvp.trans hp)
      rw [if_pos hvp]
      exact ⟨hvp.symm, hs, hxs ▸ ha, ha2⟩
    · left
      rw [if_neg hvp]
  exact h2

/-- Writing a connection whose view does not change keeps the invariant. -/
theorem Inv.storeUC_same {m : ConnectionManager} (h : Inv m) (p : Nat) (src uc : UserConnection)
    (hf : m.findUC p = some src) (hp : uc.ptr = p) (hv : ucView uc = ucView src) :
    Inv (m.storeUC uc) := by
  unfold Inv at h ⊢
  rw [storeUC_view]
  have h2 : InvV (m.downloads.map cqiView) (m.uploads.map cqiView)
      ((m.userConnections.map ucView).map (fun v => if v.ptr = uc.ptr then ucView uc else v))
      m.nextPtr := by
    apply h.map_cs
    intro v hvm
    left
    by_cases hvp : v.ptr = uc.ptr
    · obtain ⟨x, hx, rfl⟩ := List.mem_map.mp hvm
      have hxs : x = src := Inv.findUC_eq h p src hf x hx (hvp.trans hp)
      rw [if_pos hvp, hv, hxs]
    · rw [if_neg hvp]
  exact h2

/-- Dropping a connection that is not associated keeps the invariant. -/
theorem Inv.putConnection_plain {m : ConnectionManager} (h : Inv m) (p : Nat)
    (ha : ∀ src, m.findUC p = some src → (ucView src).assoc = false) :
    Inv (putConnection m p).1 := by
  unfold Inv at h ⊢
  rw [putConnection_view]
  have h2 : InvV (m.downloads.map cqiView) (m.uploads.map cqiView)
      ((m.userConnections.map ucView).filter (fun v => decide (v.ptr ≠ p))) m.nextPtr := by
    apply h.filter_cs
    intro v hv hk
    obtain ⟨x, hx, rfl⟩ := List.mem_map.mp hv
    have hxp : x.ptr = p := by simpa [ucView] using hk
    cases hf : m.findUC p with
    | none =>
      unfold findUC at hf
      rw [List.find?_eq_none] at hf
      exact absurd hxp (by simpa using hf x hx)
    | some src =>
      have hxs : x = src := Inv.findUC_eq h p src hf x hx hxp
      exact hxs ▸ ha src hf
  exact h2

theorem Inv.shape_of_find {m : ConnectionManager} (h : Inv m) (p : Nat) (src : UserConnection)
    (hf : m.findUC p = some src) : Shape (ucView src) :=
  h.shape _ (List.mem_map_of_mem ucView (findUC_some m p src hf).2)

theorem Shape.not_assoc {v : CView} (h : Shape v) (hs : v.state ≠ .STATE_RUNNING) :
    v.assoc = false := by
  unfold Shape at h
  cases hst : v.state <;> rw [hst] at h <;> simp_all

theorem Shape.assoc_running {v : CView} (h : Shape v) (ha : v.assoc = true) :
    v.state = .STATE_RUNNING ∧ v.down ≠ v.up := by
  unfold Shape at h
  cases hst : v.state <;> rw [hst] at h <;> simp_all

/-! ## Views of the queues -/

theorem modifyCQI_view_same (u : UserPtr) (f : ConnectionQueueItem → ConnectionQueueItem)
    (hf : ∀ c, cqiView (f c) = cqiView c) (l : List ConnectionQueueItem) :
    (modifyCQI u f l).map cqiView = l.map cqiView := by
  induction l with
  | nil => rfl
  | cons x xs ih =>
    simp only [modifyCQI]
    split_ifs
    · simp [hf]
    · simp [ih]

theorem modifyCQI_map_user (u : UserPtr) (f : ConnectionQueueItem → ConnectionQueueItem)
    (hf : ∀ c, (f c).user = c.user) (l : List ConnectionQueueItem) :
    (modifyCQI u f l).map (fun c => c.user.user) = l.map (fun c => c.user.user) := by
  induction l with
  | nil => rfl
  | cons x xs ih =>
    simp only [modifyCQI]
    split_ifs
    · simp [hf]
    · simp [ih]

theorem modifyCQI_view_active (u : UserPtr) (b : Bool)
    (f : ConnectionQueueItem → ConnectionQueueItem)
    (hf : ∀ c, cqiView (f c) = { cqiView c with active := b }) (l : List ConnectionQueueItem)
    (hnd : (l.map (fun c => c.user.user)).Nodup) :
    (modifyCQI u f l).map cqiView =
      (l.map cqiView).map (fun q => if q.user = u then { q with active := b } else q) := by
  induction l with
  | nil => rfl
  | cons x xs ih =>
    rw [List.map_cons, List.nodup_cons] at hnd
    simp only [modifyCQI]
    by_cases hx : x.user.user = u
    · have hrest : (xs.map cqiView).map (fun q => if q.user = u then { q with active := b } else q)
          = xs.map cqiView := by
        conv_rhs => rw [← List.map_id (xs.map cqiView)]
        apply List.map_congr_left
        intro q hq
        obtain ⟨y, hy, rfl⟩ := List.mem_map.mp hq
        have : y.user.user ≠ u := fun h => hnd.1 (hx ▸ h ▸ List.mem_map_of_mem _ hy)
        simp [cqiView, this]
      rw [if_pos hx]
      simp only [List.map_cons, hrest, hf]
      simp [cqiView, hx]
    · rw [if_neg hx]
      simp only [List.map_cons, ih hnd.2]
      simp [cqiView, hx]

theorem myNickScan_view (cid : CID) (l : List ConnectionQueueItem) :
    (myNickScan cid l).1.map cqiView = l.map cqiView := by
  induction l with
  | nil => rfl
  | cons x xs ih =>
    simp only [myNickScan]
    split_ifs
    · simp [cqiView]
    · simp [ih, cqiView]

theorem myNickScan_map_user (cid : CID) (l : List ConnectionQueueItem) :
    (myNickScan cid l).1.map (fun c => c.user.user) = l.map (fun c => c.user.user) := by
  induction l with
  | nil => rfl
  | cons x xs ih =>
    simp only [myNickScan]
    split_ifs
    · simp
    · simp [ih]

theorem tickItem_view (env : Env) (t a : Nat) (c : ConnectionQueueItem) :
    cqiView (tickItem env t a c).cqi = cqiView c := by
  have h1 := tickItem_ptr env t a c
  have h2 := tickItem_user env t a c
  have h3 := tickItem_download env t a c
  have h4 : decide ((tickItem env t a c).cqi.state = .ACTIVE) = decide (c.state = .ACTIVE) := by
    by_cases hs : c.state = .ACTIVE
    · rw [tickItem_active env t a c hs]
    · have := tickItem_not_active env t a c hs
      simp [hs, this]
  simp only [cqiView, h1, h2, h3, h4]

theorem tickWalk_view (env : Env) (t : Nat) (l : List ConnectionQueueItem) :
    ∀ a : Nat, ((tickWalk env t a l).map (fun r => r.cqi)).map cqiView = l.map cqiView := by
  induction l with
  | nil => intro a; rfl
  | cons x xs ih => intro a; simp [tickWalk, ih, tickItem_view]

theorem tickItem_removed (env : Env) (t a : Nat) (c : ConnectionQueueItem)
    (h : (tickItem env t a c).removed = true) : c.state ≠ .ACTIVE := by
  intro hs
  rw [tickItem_active env t a c hs] at h
  cases h

theorem onSecond_view (env : Env) (m : ConnectionManager) (t : Nat) :
    (ConnectionManager.onSecond env m t).1.downloads.map cqiView =
      (m.downloads.map cqiView).filter (fun q =>
        (((tickWalk env t 0 m.downloads).filter (fun r => r.removed)).map (fun r => r.cqi)).all
          (fun c => !c.download || decide (q.ptr ≠ c.ptr))) := by
  have hfm : ∀ (L : List ConnectionQueueItem) (k : QView → Bool),
      (L.filter (k ∘ cqiView)).map cqiView = (L.map cqiView).filter k :=
    fun L k => by rw [List.filter_map]
  rw [onSecond_downloads, ← tickWalk_view env t m.downloads 0]
  exact hfm _ (fun q =>
    (((tickWalk env t 0 m.downloads).filter (fun r => r.removed)).map (fun r => r.cqi)).all
      (fun c => !c.download || decide (q.ptr ≠ c.ptr)))

theorem onSecond_frame (env : Env) (m : ConnectionManager) (t : Nat) :
    (ConnectionManager.onSecond env m t).1.userConnections = m.userConnections ∧
    (ConnectionManager.onSecond env m t).1.nextPtr = m.nextPtr := by
  have hfr := putAll_frame (((tickWalk env t 0 m.downloads).filter (fun r => r.removed)).map
      (fun r => r.cqi)) { m with downloads := (tickWalk env t 0 m.downloads).map (fun r => r.cqi) }
  exact ⟨hfr.1, hfr.2.1⟩

/-- The per-second tick keeps the invariant. -/
theorem Inv.onSecond {m : ConnectionManager} (h : Inv m) (env : Env) (t : Nat) :
    Inv (ConnectionManager.onSecond env m t).1 := by
  have hrem : ∀ c ∈ ((tickWalk env t 0 m.downloads).filter (fun r => r.removed)).map
      (fun r => r.cqi), c.download = true ∧ ∃ c0 ∈ m.downloads, c0.ptr = c.ptr ∧
        c0.state ≠ .ACTIVE := by
    intro c hc
    obtain ⟨r, hr, rfl⟩ := List.mem_map.mp hc
    rw [List.mem_filter] at hr
    obtain ⟨c0, hc0, a2, rfl⟩ := tickWalk_mem env t _ 0 r hr.1
    refine ⟨?_, c0, hc0, (tickItem_ptr env t a2 c0).symm, tickItem_removed env t a2 c0 hr.2⟩
    rw [tickItem_download]
    exact h.dsDir _ (List.mem_map_of_mem cqiView hc0)
  have hup : (ConnectionManager.onSecond env m t).1.uploads = m.uploads := by
    simp only [ConnectionManager.onSecond, putAll_uploads]
    rw [List.filter_eq_self]
    intro x _
    rw [List.all_eq_true]
    intro c hc
    simp [(hrem c hc).1]
  obtain ⟨hucs, hnext⟩ := onSecond_frame env m t
  have hds := h.dsPtr'
  unfold Inv at h ⊢
  rw [hup, hucs, hnext, onSecond_view]
  apply h.filter_ds
  intro q hq hk
  obtain ⟨c1, hc1, rfl⟩ := List.mem_map.mp hq
  have hk2 : ¬ ∀ c ∈ ((tickWalk env t 0 m.downloads).filter (fun r => r.removed)).map
      (fun r => r.cqi), (!c.download || decide ((cqiView c1).ptr ≠ c.ptr)) = true := by
    intro hall
    rw [← List.all_eq_true] at hall
    exact absurd (hall.symm.trans hk) (by simp)
  push_neg at hk2
  obtain ⟨c, hc, hcf⟩ := hk2
  obtain ⟨hcd, c0, hc0, hptr, hst⟩ := hrem c hc
  have hp : c1.ptr = c.ptr := by
    simpa [hcd, cqiView] using hcf
  have hc10 : c1 = c0 := eq_of_key_eq (fun c => c.ptr) _ hds c1 c0 hc1 hc0 (hp.trans hptr.symm)
  simp [cqiView, hc10, hst]

/-! ## The invariant under the queue and connection operations -/

theorem storeUC_downloads (m : ConnectionManager) (uc : UserConnection) :
    (m.storeUC uc).downloads = m.downloads := rfl

theorem storeUC_uploads (m : ConnectionManager) (uc : UserConnection) :
    (m.storeUC uc).uploads = m.uploads := rfl

theorem storeUC_nextPtr (m : ConnectionManager) (uc : UserConnection) :
    (m.storeUC uc).nextPtr = m.nextPtr := rfl

theorem findCQI_none_not_mem (l : List ConnectionQueueItem) (u : UserPtr)
    (h : findCQI l u = none) : u ∉ (l.map cqiView).map (fun q => q.user) := by
  unfold findCQI at h
  rw [List.find?_eq_none] at h
  intro hm
  rw [List.map_map] at hm
  obtain ⟨c, hc, hcu⟩ := List.mem_map.mp hm
  exact absurd hcu (by simpa using h c hc)

theorem findCQI_some_mem (l : List ConnectionQueueItem) (u : UserPtr) (c : ConnectionQueueItem)
    (h : findCQI l u = some c) : c ∈ l ∧ c.user.user = u := by
  unfold findCQI at h
  exact ⟨List.mem_of_find?_eq_some h, by simpa using List.find?_some h⟩

theorem Inv.getDownloadConnection {m : ConnectionManager} (h : Inv m) (env : Env)
    (aUser : HintedUser) : Inv (ConnectionManager.getDownloadConnection env m aUser).1 := by
  cases hf : findCQI m.downloads aUser.user with
  | some c =>
    rw [getDownloadConnection_present env m aUser c hf]
    exact h
  | none =>
    rw [getDownloadConnection_absent env m aUser hf]
    unfold Inv at h ⊢
    simp only [List.map_append, List.map_cons, List.map_nil]
    exact h.new_ds aUser.user (findCQI_none_not_mem _ _ hf)

/-- A connection just allocated, written back with its fields set. -/
theorem storeUC_getConnection {m : ConnectionManager} (h : Inv m) (aNmdc secure : Bool)
    (uc : UserConnection) (hp : uc.ptr = m.nextPtr) :
    (getConnection m aNmdc secure).1.storeUC uc =
      { m with nextPtr := m.nextPtr + 1, userConnections := m.userConnections ++ [uc] } := by
  have hold : m.userConnections.map (fun x => if x.ptr = uc.ptr then uc else x) =
      m.userConnections := by
    conv_rhs => rw [← List.map_id m.userConnections]
    apply List.map_congr_left
    intro x hx
    have := h.csLt _ (List.mem_map_of_mem ucView hx)
    have hne : x.ptr ≠ uc.ptr := by
      rw [hp]
      simp only [ucView] at this
      omega
    simp [hne]
  simp only [getConnection, storeUC, List.map_append, hold, List.map_cons, List.map_nil]
  have hnew : (if (if aNmdc = true then (newUserConnection m.nextPtr secure).setFlag .FLAG_NMDC
      else newUserConnection m.nextPtr secure).ptr = uc.ptr then uc
      else (if aNmdc = true then (newUserConnection m.nextPtr secure).setFlag .FLAG_NMDC
      else newUserConnection m.nextPtr secure)) = uc := by
    have : (if aNmdc = true then (newUserConnection m.nextPtr secure).setFlag .FLAG_NMDC
      else newUserConnection m.nextPtr secure).ptr = uc.ptr := by
      rw [hp]
      split_ifs <;> rfl
    rw [if_pos this]
  rw [hnew]

/-- Allocating a connection in a state before the role decision keeps the invariant. -/
theorem Inv.newConnection {m : ConnectionManager} (h : Inv m) (aNmdc secure : Bool)
    (uc : UserConnection) (hp : uc.ptr = m.nextPtr) (hs : Shape (ucView uc))
    (ha : (ucView uc).assoc = false) : Inv ((getConnection m aNmdc secure).1.storeUC uc) := by
  rw [storeUC_getConnection h aNmdc secure uc hp]
  unfold Inv at h ⊢
  simp only [List.map_append, List.map_cons, List.map_nil]
  exact h.new_cs (ucView uc) hp hs ha

theorem findUC_newConnection {m : ConnectionManager} (h : Inv m) (aNmdc secure : Bool)
    (uc : UserConnection) (hp : uc.ptr = m.nextPtr) :
    ((getConnection m aNmdc secure).1.storeUC uc).findUC uc.ptr = some uc := by
  rw [storeUC_getConnection h aNmdc secure uc hp]
  simp only [findUC]
  rw [List.find?_append]
  have hnone : m.userConnections.find? (fun x => decide (x.ptr = uc.ptr)) = none := by
    rw [List.find?_eq_none]
    intro x hx
    have := h.csLt _ (List.mem_map_of_mem ucView hx)
    simp only [ucView] at this
    simp only [decide_eq_true_eq]
    omega
  rw [hnone]
  simp

/-- Method `addDownloadConnection` keeps the invariant, for a connection that is
not associated and carries FLAG_DOWNLOAD only. -/
theorem Inv.addDownloadConnection {m : ConnectionManager} (h : Inv m) (env : Env)
    (src uc : UserConnection) (hf : m.findUC uc.ptr = some src)
    (ha : (ucView src).assoc = false) (hd : uc.isSet .FLAG_DOWNLOAD = true)
    (hu : uc.isSet .FLAG_UPLOAD = false) :
    Inv (ConnectionManager.addDownloadConnection env m uc).1 := by
  have hput : Inv (putConnection m uc.ptr).1 :=
    h.putConnection_plain uc.ptr (fun s hs => by rw [hf] at hs; cases hs; exact ha)
  unfold ConnectionManager.addDownloadConnection
  cases hc : findCQI m.downloads uc.user with
  | none => exact hput
  | some cqi =>
    dsimp only
    split_ifs with hst
    · obtain ⟨hmem, hcu⟩ := findCQI_some_mem _ _ _ hc
      have hds := h.dsUser'
      unfold Inv at h ⊢
      rw [storeUC_view]
      simp only [storeUC_downloads, storeUC_uploads, storeUC_nextPtr]
      rw [modifyCQI_view_active uc.user true _ (fun c => by simp [cqiView]) _ hds]
      have hview : ucView (handOver (uc.setFlag .FLAG_ASSOCIATED)) =
          ⟨uc.ptr, uc.user, true, true, false, .STATE_RUNNING⟩ := by
        have hd2 : uc.flags.download = true := hd
        have hu2 : uc.flags.upload = false := hu
        simp [ucView, handOver, UserConnection.setFlag, UserConnection.setState,
          UserConnection.isSet, Flags.isSet, Flags.assign, hd2, hu2]
      rw [hview]
      have hp : (handOver (uc.setFlag .FLAG_ASSOCIATED)).ptr = uc.ptr := rfl
      rw [hp]
      refine h.assocD uc.ptr uc.user (ucView src)
        (List.mem_map_of_mem ucView (findUC_some m _ src hf).2) (findUC_some m _ src hf).1 ha
        (cqiView cqi) (List.mem_map_of_mem cqiView hmem) hcu ?_
      rcases hst with hst | hst <;> simp [cqiView, hst]
    · exact hput

/-- Method `addUploadConnection` keeps the invariant, for a connection that is
not associated and carries FLAG_UPLOAD only. -/
theorem Inv.addUploadConnection {m : ConnectionManager} (h : Inv m) (env : Env)
    (src uc : UserConnection) (hf : m.findUC uc.ptr = some src)
    (ha : (ucView src).assoc = false) (hd : uc.isSet .FLAG_DOWNLOAD = false)
    (hu : uc.isSet .FLAG_UPLOAD = true) :
    Inv (ConnectionManager.addUploadConnection env m uc).1 := by
  have hput : Inv (putConnection m uc.ptr).1 :=
    h.putConnection_plain uc.ptr (fun s hs => by rw [hf] at hs; cases hs; exact ha)
  unfold ConnectionManager.addUploadConnection
  cases hc : findCQI m.uploads uc.user with
  | some cqi => exact hput
  | none =>
    unfold Inv at h ⊢
    rw [storeUC_view]
    simp only [storeUC_downloads, storeUC_uploads, storeUC_nextPtr, getCQI, List.map_append,
      List.map_cons, List.map_nil, Bool.false_eq_true, if_false]
    have hview : ucView (handOver (uc.setFlag .FLAG_ASSOCIATED)) =
        ⟨uc.ptr, uc.user, true, false, true, .STATE_RUNNING⟩ := by
      have hd2 : uc.flags.download = false := hd
      have hu2 : uc.flags.upload = true := hu
      simp [ucView, handOver, UserConnection.setFlag, UserConnection.setState,
        UserConnection.isSet, Flags.isSet, Flags.assign, hd2, hu2]
    rw [hview]
    have hp : (handOver (uc.setFlag .FLAG_ASSOCIATED)).ptr = uc.ptr := rfl
    rw [hp]
    exact h.assocU uc.ptr uc.user (ucView src)
      (List.mem_map_of_mem ucView (findUC_some m _ src hf).2) (findUC_some m _ src hf).1 ha
      (findCQI_none_not_mem _ _ hc)

theorem putCQI_upload_view (m : ConnectionManager) (cqi : ConnectionQueueItem)
    (hd : cqi.download = false) :
    (putCQI m cqi).1.uploads.map cqiView =
      (m.uploads.map cqiView).filter (fun q => decide (q.ptr ≠ (cqiView cqi).ptr)) ∧
    (putCQI m cqi).1.downloads = m.downloads ∧
    (putCQI m cqi).1.userConnections = m.userConnections ∧
    (putCQI m cqi).1.nextPtr = m.nextPtr := by
  have e : (putCQI m cqi).1 =
      { m with uploads := m.uploads.filter (fun x => decide (x.ptr ≠ cqi.ptr)) } := by
    simp [putCQI, hd]
  rw [e]
  exact ⟨by rw [List.filter_map]; rfl, rfl, rfl, rfl⟩

theorem Shape.exclusive {v : CView} (h : Shape v) : ¬ (v.down = true ∧ v.up = true) := by
  unfold Shape at h
  cases hst : v.state <;> rw [hst] at h <;> cases hd : v.down <;> cases hu : v.up <;> simp_all

/-- Method `failed` keeps the invariant. -/
theorem Inv.failed {m : ConnectionManager} (h : Inv m) (aSource : Nat) (aError : String)
    (protocolError : Bool) (now : Nat) :
    Inv (ConnectionManager.failed m aSource aError protocolError now).1 := by
  unfold ConnectionManager.failed
  cases hf : m.findUC aSource with
  | none => exact h
  | some src =>
    obtain ⟨hp, hmem⟩ := findUC_some m aSource src hf
    have hvm : ucView src ∈ m.userConnections.map ucView := List.mem_map_of_mem ucView hmem
    have hsh := h.shape _ hvm
    dsimp only
    by_cases hA : src.isSet .FLAG_ASSOCIATED = true
    · rw [if_pos hA]
      obtain ⟨_, hne⟩ := hsh.assoc_running hA
      by_cases hD : src.isSet .FLAG_DOWNLOAD = true
      · rw [if_pos hD]
        have hds := h.dsUser'
        unfold Inv at h ⊢
        rw [putConnection_view]
        simp only [putConnection]
        rw [modifyCQI_view_active src.user false _ (fun c => by simp [cqiView]) _ hds]
        exact h.failD aSource (ucView src) hvm hp hA hD
      · rw [if_neg hD]
        have hD2 : src.isSet .FLAG_DOWNLOAD = false := by simpa using hD
        have hU : src.isSet .FLAG_UPLOAD = true := by
          cases hU : src.isSet .FLAG_UPLOAD
          · exact absurd (show (ucView src).down = (ucView src).up by
              simp [ucView, hD2, hU]) hne
          · rfl
        rw [if_pos hU]
        obtain ⟨q, hq, hqu⟩ := h.upload_item (ucView src) hvm hA hU
        cases hc : findCQI m.uploads src.user with
        | none =>
          have hqm : q.user ∈ (m.uploads.map cqiView).map (fun q => q.user) :=
            List.mem_map_of_mem (fun q : QView => q.user) hq
          rw [hqu] at hqm
          exact absurd hqm (findCQI_none_not_mem _ _ hc)
        | some cqi =>
          obtain ⟨hcm, hcu⟩ := findCQI_some_mem _ _ _ hc
          have hcd : cqi.download = false := h.usDir _ (List.mem_map_of_mem cqiView hcm)
          obtain ⟨e1, e2, e3, e4⟩ := putCQI_upload_view m cqi hcd
          unfold Inv at h ⊢
          rw [putConnection_view]
          simp only [putConnection]
          rw [e1, e2, e3, e4]
          exact h.failU aSource (ucView src) hvm hp hA hD2 hU (cqiView cqi)
            (List.mem_map_of_mem cqiView hcm) hcu
    · rw [if_neg hA]
      exact h.putConnection_plain aSource (fun s hs => by
        rw [hf] at hs; cases hs; simpa [ucView] using hA)

theorem ucView_setFlag (uc : UserConnection) (f : Flag)
    (h : f ≠ .FLAG_ASSOCIATED ∧ f ≠ .FLAG_DOWNLOAD ∧ f ≠ .FLAG_UPLOAD) :
    ucView (uc.setFlag f) = ucView uc := by
  obtain ⟨h1, h2, h3⟩ := h
  cases f <;> first | rfl | contradiction

theorem supParam_view (env : Env) (acc : SupAcc) (p : String) :
    ucView (supParam env acc p).uc = ucView acc.uc := by
  have e1 := fun uc => ucView_setFlag uc .FLAG_SUPPORTS_ADCGET (by decide)
  have e2 := fun uc => ucView_setFlag uc .FLAG_SUPPORTS_MINISLOTS (by decide)
  have e3 := fun uc => ucView_setFlag uc .FLAG_SUPPORTS_TTHF (by decide)
  have e4 := fun uc => ucView_setFlag uc .FLAG_SUPPORTS_TTHL (by decide)
  have e5 := fun uc => ucView_setFlag uc .FLAG_SUPPORTS_XML_BZLIST (by decide)
  have e6 := fun uc => ucView_setFlag uc .FLAG_SUPPORTS_ZLIB_GET (by decide)
  simp only [supParam]
  split_ifs <;> simp only [e1, e2, e3, e4, e5, e6]

theorem supFold_view (env : Env) (params : List String) :
    ∀ acc : SupAcc, ucView (params.foldl (supParam env) acc).uc = ucView acc.uc := by
  induction params with
  | nil => intro acc; rfl
  | cons p ps ih => intro acc; rw [List.foldl_cons, ih, supParam_view]

theorem supportsFeat_view (env : Env) (conn : UserConnection) (f : String) :
    ucView (supportsFeat env conn f) = ucView conn := by
  unfold supportsFeat
  split_ifs <;> rfl

theorem supportsFold_view (env : Env) (feat : List String) :
    ∀ conn : UserConnection, ucView (feat.foldl (supportsFeat env) conn) = ucView conn := by
  induction feat with
  | nil => intro conn; rfl
  | cons p ps ih => intro conn; rw [List.foldl_cons, ih, supportsFeat_view]

theorem myNickScan_some (cid : CID) (l : List ConnectionQueueItem) (u : HintedUser)
    (h : (myNickScan cid l).2 = some u) : u.user = some cid := by
  induction l with
  | nil => simp [myNickScan] at h
  | cons x xs ih =>
    simp only [myNickScan] at h
    split_ifs at h with hc
    · simp only [Option.some.injEq] at h
      rw [← h]
      exact hc.2
    · exact ih h

theorem ucView_ptr_eq {a b : UserConnection} (h : ucView a = ucView b) : a.ptr = b.ptr :=
  congrArg CView.ptr h

/-! ## Flags, state and user of a connection after a setter -/

theorem isSet_setState (uc : UserConnection) (s : UserConnection.States) (f : Flag) :
    (uc.setState s).isSet f = uc.isSet f := rfl

theorem isSet_setUser (uc : UserConnection) (u : UserPtr) (f : Flag) :
    (uc.setUser u).isSet f = uc.isSet f := rfl

theorem isSet_setFlag_same (uc : UserConnection) (f : Flag) : (uc.setFlag f).isSet f = true := by
  cases f <;> rfl

theorem isSet_setFlag_ne (uc : UserConnection) (f g : Flag) (h : f ≠ g) :
    (uc.setFlag f).isSet g = uc.isSet g := by
  cases f <;> cases g <;> first | rfl | exact absurd rfl h

theorem isSet_unsetFlag_same (uc : UserConnection) (f : Flag) :
    (uc.unsetFlag f).isSet f = false := by
  cases f <;> rfl

theorem isSet_unsetFlag_ne (uc : UserConnection) (f g : Flag) (h : f ≠ g) :
    (uc.unsetFlag f).isSet g = uc.isSet g := by
  cases f <;> cases g <;> first | rfl | exact absurd rfl h

theorem ucView_setState (uc : UserConnection) (s : UserConnection.States) :
    ucView (uc.setState s) = { ucView uc with state := s } := rfl

theorem Shape.move {v : CView} (h : Shape v) (s2 : UserConnection.States)
    (hok : (v.state = .STATE_CONNECT ∧ s2 = .STATE_SUPNICK) ∨
      (v.state = .STATE_SUPNICK ∧ s2 = .STATE_INF) ∨
      (v.state = .STATE_LOCK ∧ s2 = .STATE_DIRECTION) ∨
      (v.state = .STATE_DIRECTION ∧ s2 = .STATE_KEY)) : Shape { v with state := s2 } := by
  unfold Shape at h ⊢
  rcases hok with ⟨h1, rfl⟩ | ⟨h1, rfl⟩ | ⟨h1, rfl⟩ | ⟨h1, rfl⟩ <;> rw [h1] at h <;> exact h

theorem Inv.frame {m m2 : ConnectionManager} (h : Inv m) (hd : m2.downloads = m.downloads)
    (hu : m2.uploads = m.uploads) (hc : m2.userConnections = m.userConnections)
    (hn : m2.nextPtr = m.nextPtr) : Inv m2 :=
  h.of_views (by rw [hd]) (by rw [hu]) (by rw [hc]) (by rw [hn])

theorem findUC_frame {m m2 : ConnectionManager} (hc : m2.userConnections = m.userConnections)
    (p : Nat) : m2.findUC p = m.findUC p := by
  simp only [findUC, hc]

/-! ## The invariant under the handshake handlers -/

theorem Inv.onSUP {m : ConnectionManager} (h : Inv m) (env : Env) (aSource : Nat)
    (params : List String) : Inv (ConnectionManager.onSUP env m aSource params).1 := by
  unfold ConnectionManager.onSUP
  cases hf : m.findUC aSource with
  | none => exact h
  | some src =>
    obtain ⟨hp, _⟩ := findUC_some m aSource src hf
    have hsh := h.shape_of_find aSource src hf
    dsimp only
    by_cases hst : src.state = .STATE_SUPNICK
    · rw [if_neg (by simp [hst])]
      have hv := supFold_view env params ⟨false, false, src⟩
      dsimp only at hv
      have hptr : (params.foldl (supParam env) ⟨false, false, src⟩).uc.ptr = aSource :=
        (ucView_ptr_eq hv).trans hp
      have hna : (ucView src).assoc = false := hsh.not_assoc (by simp [ucView, hst])
      have hinf : Inv (m.storeUC
          ((params.foldl (supParam env) ⟨false, false, src⟩).uc.setState .STATE_INF)) := by
        refine h.storeUC_plain aSource src
          ((params.foldl (supParam env) ⟨false, false, src⟩).uc.setState .STATE_INF) hf hptr ?_ hna ?_
        · rw [ucView_setState, hv]
          exact hsh.move _ (Or.inr (Or.inl ⟨hst, rfl⟩))
        · rw [ucView_setState, hv]; exact hna
      split_ifs
      · exact h.storeUC_same aSource src _ hf hptr hv
      · exact hinf
      · exact hinf
    · rw [if_pos hst]
      exact h

theorem Inv.onConnected {m : ConnectionManager} (h : Inv m) (env : Env) (aSource : Nat)
    (hen : enabled m (.connected aSource) = true) :
    Inv (ConnectionManager.onConnected env m aSource).1 := by
  unfold ConnectionManager.onConnected
  cases hf : m.findUC aSource with
  | none => exact h
  | some src =>
    obtain ⟨hp, _⟩ := findUC_some m aSource src hf
    have hsh := h.shape_of_find aSource src hf
    have hst : src.state = .STATE_CONNECT := by
      simpa [enabled, hf] using hen
    have hna : (ucView src).assoc = false := hsh.not_assoc (by simp [ucView, hst])
    have hsup : Inv (m.storeUC (src.setState .STATE_SUPNICK)) := by
      refine h.storeUC_plain aSource src (src.setState .STATE_SUPNICK) hf hp ?_ hna ?_
      · rw [ucView_setState]
        exact hsh.move _ (Or.inl ⟨hst, rfl⟩)
      · rw [ucView_setState]; exact hna
    dsimp only
    split_ifs
    · exact h.putConnection_plain aSource (fun s hs => by rw [hf] at hs; cases hs; exact hna)
    · exact hsup
    · exact hsup

theorem Inv.onCLock {m : ConnectionManager} (h : Inv m) (env : Env) (aSource : Nat)
    (aLock aPk : String) : Inv (ConnectionManager.onCLock env m aSource aLock aPk).1 := by
  unfold ConnectionManager.onCLock
  cases hf : m.findUC aSource with
  | none => exact h
  | some src =>
    obtain ⟨hp, _⟩ := findUC_some m aSource src hf
    have hsh := h.shape_of_find aSource src hf
    dsimp only
    by_cases hst : src.state = .STATE_LOCK
    · rw [if_neg (by simp [hst])]
      have hna : (ucView src).assoc = false := hsh.not_assoc (by simp [ucView, hst])
      refine h.storeUC_plain aSource src (src.setState .STATE_DIRECTION) hf hp ?_ hna ?_
      · rw [ucView_setState]
        exact hsh.move _ (Or.inr (Or.inr (Or.inl ⟨hst, rfl⟩)))
      · rw [ucView_setState]; exact hna
    · rw [if_pos hst]
      exact h

theorem Inv.onDirection {m : ConnectionManager} (h : Inv m) (env : Env) (aSource : Nat)
    (dir : String) (number : Int) :
    Inv (ConnectionManager.onDirection env m aSource dir number).1 := by
  unfold ConnectionManager.onDirection
  cases hf : m.findUC aSource with
  | none => exact h
  | some src =>
    obtain ⟨hp, _⟩ := findUC_some m aSource src hf
    have hsh := h.shape_of_find aSource src hf
    dsimp only
    by_cases hst : src.state = .STATE_DIRECTION
    · rw [if_neg (by simp [hst])]
      have hna : (ucView src).assoc = false := hsh.not_assoc (by simp [ucView, hst])
      have hput : Inv (putConnection m aSource).1 :=
        h.putConnection_plain aSource (fun s hs => by rw [hf] at hs; cases hs; exact hna)
      have hkey : Inv (m.storeUC (src.setState .STATE_KEY)) := by
        refine h.storeUC_plain aSource src (src.setState .STATE_KEY) hf hp ?_ hna ?_
        · rw [ucView_setState]
          exact hsh.move _ (Or.inr (Or.inr (Or.inr ⟨hst, rfl⟩)))
        · rw [ucView_setState]; exact hna
      split_ifs with h1 h2 h3 h4 h5
      · exact hput
      · exact hkey
      · refine h.storeUC_plain aSource src
          (((src.unsetFlag .FLAG_DOWNLOAD).setFlag .FLAG_UPLOAD).setState .STATE_KEY) hf hp ?_ hna ?_
        · have e1 : (((src.unsetFlag .FLAG_DOWNLOAD).setFlag .FLAG_UPLOAD).setState
              .STATE_KEY).isSet .FLAG_ASSOCIATED = src.isSet .FLAG_ASSOCIATED := by
            rw [isSet_setState, isSet_setFlag_ne _ _ _ (by decide),
              isSet_unsetFlag_ne _ _ _ (by decide)]
          have e2 : (((src.unsetFlag .FLAG_DOWNLOAD).setFlag .FLAG_UPLOAD).setState
              .STATE_KEY).isSet .FLAG_DOWNLOAD = false := by
            rw [isSet_setState, isSet_setFlag_ne _ _ _ (by decide), isSet_unsetFlag_same]
          have e3 : (((src.unsetFlag .FLAG_DOWNLOAD).setFlag .FLAG_UPLOAD).setState
              .STATE_KEY).isSet .FLAG_UPLOAD = true := by
            rw [isSet_setState, isSet_setFlag_same]
          have hna2 : src.isSet .FLAG_ASSOCIATED = false := hna
          simp only [Shape, ucView, e1, e2, e3, hna2]
          exact ⟨trivial, by decide⟩
        · have e1 : (((src.unsetFlag .FLAG_DOWNLOAD).setFlag .FLAG_UPLOAD).setState
              .STATE_KEY).isSet .FLAG_ASSOCIATED = src.isSet .FLAG_ASSOCIATED := by
            rw [isSet_setState, isSet_setFlag_ne _ _ _ (by decide),
              isSet_unsetFlag_ne _ _ _ (by decide)]
          exact e1.trans hna
      · exact hput
      · exact hkey
      · exact hkey
    · rw [if_pos hst]
      exact h

theorem Inv.onKey {m : ConnectionManager} (h : Inv m) (env : Env) (aSource : Nat) :
    Inv (ConnectionManager.onKey env m aSource).1 := by
  unfold ConnectionManager.onKey
  cases hf : m.findUC aSource with
  | none => exact h
  | some src =>
    obtain ⟨hp, _⟩ := findUC_some m aSource src hf
    have hsh := h.shape_of_find aSource src hf
    dsimp only
    by_cases hst : src.state = .STATE_KEY
    · rw [if_neg (by simp [hst])]
      have hna : (ucView src).assoc = false := hsh.not_assoc (by simp [ucView, hst])
      have hne : src.isSet .FLAG_DOWNLOAD ≠ src.isSet .FLAG_UPLOAD := by
        have := hsh
        simp only [Shape, ucView, hst] at this
        exact this.2
      have hf2 : m.findUC src.ptr = some src := hp ▸ hf
      by_cases hD : src.isSet .FLAG_DOWNLOAD = true
      · rw [if_pos hD]
        apply h.addDownloadConnection env src src hf2 hna hD
        cases hU : src.isSet .FLAG_UPLOAD
        · rfl
        · rw [hD, hU] at hne; exact absurd rfl hne
      · rw [if_neg hD]
        have hD2 : src.isSet .FLAG_DOWNLOAD = false := by simpa using hD
        apply h.addUploadConnection env src src hf2 hna hD2
        cases hU : src.isSet .FLAG_UPLOAD
        · rw [hD2, hU] at hne; exact absurd rfl hne
        · rfl
    · rw [if_pos hst]
      exact h

theorem Inv.onSupports {m : ConnectionManager} (h : Inv m) (env : Env) (conn : Nat)
    (feat : List String) : Inv (ConnectionManager.onSupports env m conn feat).1 := by
  unfold ConnectionManager.onSupports
  cases hf : m.findUC conn with
  | none => exact h
  | some src =>
    obtain ⟨hp, _⟩ := findUC_some m conn src hf
    have hv := supportsFold_view env feat src
    exact h.storeUC_same conn src _ hf ((ucView_ptr_eq hv).trans hp) hv

theorem Shape.early {v : CView} (h : Shape v)
    (hs : v.state = .STATE_CONNECT ∨ v.state = .STATE_SUPNICK ∨ v.state = .STATE_INF) :
    v.user = none ∧ v.assoc = false ∧ v.down = false ∧ v.up = false := by
  unfold Shape at h
  rcases hs with h1 | h1 | h1 <;> rw [h1] at h <;> exact h

/-- Tail of the `MyNick` handler: the connection goes to STATE_LOCK. -/
theorem Inv.myNickFinish {m : ConnectionManager} (h : Inv m) (env : Env)
    (src uc : UserConnection) (hf : m.findUC uc.ptr = some src)
    (ha : (ucView src).assoc = false) (ha2 : uc.isSet .FLAG_ASSOCIATED = false)
    (hne : uc.isSet .FLAG_DOWNLOAD ≠ uc.isSet .FLAG_UPLOAD) :
    Inv (ConnectionManager.myNickFinish env m uc).1 := by
  unfold ConnectionManager.myNickFinish
  dsimp only
  have key : ∀ x : UserConnection, x.ptr = uc.ptr →
      x.isSet .FLAG_ASSOCIATED = uc.isSet .FLAG_ASSOCIATED →
      x.isSet .FLAG_DOWNLOAD = uc.isSet .FLAG_DOWNLOAD →
      x.isSet .FLAG_UPLOAD = uc.isSet .FLAG_UPLOAD → Inv (m.storeUC (x.setState .STATE_LOCK)) := by
    intro x hx e1 e2 e3
    refine h.storeUC_plain uc.ptr src (x.setState .STATE_LOCK) hf hx ?_ ha ?_
    · show Shape ⟨x.ptr, x.user, x.isSet .FLAG_ASSOCIATED, x.isSet .FLAG_DOWNLOAD,
        x.isSet .FLAG_UPLOAD, .STATE_LOCK⟩
      rw [e1, e2, e3, ha2]
      exact ⟨rfl, hne⟩
    · exact e1.trans ha2
  have f1 : ∀ (x : UserConnection) (g : Flag), g ≠ .FLAG_ASSOCIATED ∧ g ≠ .FLAG_DOWNLOAD ∧
      g ≠ .FLAG_UPLOAD → (x.setFlag g).isSet .FLAG_ASSOCIATED = x.isSet .FLAG_ASSOCIATED ∧
      (x.setFlag g).isSet .FLAG_DOWNLOAD = x.isSet .FLAG_DOWNLOAD ∧
      (x.setFlag g).isSet .FLAG_UPLOAD = x.isSet .FLAG_UPLOAD := by
    intro x g hg
    exact ⟨isSet_setFlag_ne x g _ hg.1, isSet_setFlag_ne x g _ hg.2.1, isSet_setFlag_ne x g _ hg.2.2⟩
  have s1 := f1 uc .FLAG_STEALTH (by decide)
  by_cases hs : env.isStealth uc.hubUrl = true
  · rw [if_pos hs]
    have o1 := f1 (uc.setFlag .FLAG_STEALTH) .FLAG_OP (by decide)
    by_cases ho : env.isOp (uc.setFlag .FLAG_STEALTH).user (uc.setFlag .FLAG_STEALTH).hubUrl = true
    · rw [if_pos ho]
      exact key _ rfl (o1.1.trans s1.1) (o1.2.1.trans s1.2.1) (o1.2.2.trans s1.2.2)
    · rw [if_neg ho]
      exact key _ rfl s1.1 s1.2.1 s1.2.2
  · rw [if_neg hs]
    have o1 := f1 uc .FLAG_OP (by decide)
    by_cases ho : env.isOp uc.user uc.hubUrl = true
    · rw [if_pos ho]
      exact key _ rfl o1.1 o1.2.1 o1.2.2
    · rw [if_neg ho]
      exact key _ rfl rfl rfl rfl

/-- The `MyNick` handler from the computation of the CID on. -/
theorem Inv.myNickRole {m : ConnectionManager} (h : Inv m) (env : Env)
    (src uc : UserConnection) (aNick : String) (hf : m.findUC uc.ptr = some src)
    (hv : ucView uc = ucView src) (hst : src.state = .STATE_SUPNICK) :
    Inv (ConnectionManager.myNickRole env m uc aNick).1 := by
  have hsh := h.shape_of_find uc.ptr src hf
  obtain ⟨hun, hna, hnd, hnu⟩ := hsh.early (Or.inr (Or.inl hst))
  rw [← hv] at hun hnd hnu
  have hna0 : uc.isSet .FLAG_ASSOCIATED = false := by rw [← hv] at hna; exact hna
  have hnd0 : uc.isSet .FLAG_DOWNLOAD = false := hnd
  have hnu0 : uc.isSet .FLAG_UPLOAD = false := hnu
  have hun0 : uc.user = none := hun
  unfold ConnectionManager.myNickRole
  dsimp only
  have h1 : Inv { m with downloads :=
      (myNickScan (env.makeCid aNick uc.encoding uc.hubUrl) m.downloads).1 } :=
    h.of_views (myNickScan_view _ _) rfl rfl (le_refl _)
  have hf1 : ∀ p, ({ m with downloads :=
      (myNickScan (env.makeCid aNick uc.encoding uc.hubUrl) m.downloads).1 } :
        ConnectionManager).findUC p = m.findUC p := fun p => rfl
  cases hscan : (myNickScan (env.makeCid aNick uc.encoding uc.hubUrl) m.downloads).2 with
  | some u =>
    dsimp only
    have hsome := myNickScan_some _ _ _ hscan
    have hu1 : ((uc.setUser u.user).setFlag .FLAG_DOWNLOAD).user ≠ none := by
      show u.user ≠ none
      rw [hsome]; simp
    rw [if_neg hu1]
    refine h1.myNickFinish env src _ ((hf1 _).trans hf) hna ?_ ?_
    · rw [isSet_setFlag_ne _ _ _ (by decide), isSet_setUser]; exact hna0
    · rw [isSet_setFlag_same, isSet_setFlag_ne _ _ _ (by decide), isSet_setUser, hnu0]
      decide
  | none =>
    dsimp only
    rw [if_pos hun0]
    split_ifs with hbad
    · exact h1.putConnection_plain uc.ptr (fun s hs => by
        rw [hf1, hf] at hs; cases hs; exact hna)
    · refine h1.myNickFinish env src _ ((hf1 _).trans hf) hna ?_ ?_
      · rw [isSet_setFlag_ne _ _ _ (by decide), isSet_setUser]; exact hna0
      · rw [isSet_setFlag_same, isSet_setFlag_ne _ _ _ (by decide), isSet_setUser, hnd0]
        decide

theorem Inv.onMyNick {m : ConnectionManager} (h : Inv m) (env : Env) (aSource : Nat)
    (aNick : String) : Inv (ConnectionManager.onMyNick env m aSource aNick).1 := by
  unfold ConnectionManager.onMyNick
  cases hf : m.findUC aSource with
  | none => exact h
  | some src =>
    obtain ⟨hp, _⟩ := findUC_some m aSource src hf
    have hsh := h.shape_of_find aSource src hf
    dsimp only
    by_cases hst : src.state = .STATE_SUPNICK
    · rw [if_neg (by simp [hst])]
      have hna : (ucView src).assoc = false := hsh.not_assoc (by simp [ucView, hst])
      have h1 : Inv { m with expectedConnections :=
          (expectedRemove m.expectedConnections aNick).2 } := h.frame rfl rfl rfl rfl
      split_ifs
      · exact h1.putConnection_plain aSource (fun s hs => by
          have : m.findUC aSource = some s := hs
          rw [hf] at this; cases this; exact hna)
      · exact h1.myNickRole env src _ aNick (hp.symm ▸ hf) rfl hst
      · exact h.myNickRole env src src aNick (hp.symm ▸ hf) rfl hst
    · rw [if_pos hst]
      exact h

/-- The `INF` handler from the role decision on. -/
theorem Inv.infRole {m : ConnectionManager} (h : Inv m) (env : Env)
    (src uc : UserConnection) (token : String) (hf : m.findUC uc.ptr = some src)
    (ha : (ucView src).assoc = false) (hd : uc.isSet .FLAG_DOWNLOAD = false)
    (hu : uc.isSet .FLAG_UPLOAD = false) :
    Inv (ConnectionManager.infRole env m uc token).1 := by
  unfold ConnectionManager.infRole
  have hup : ∀ m2 : ConnectionManager, Inv m2 → m2.findUC uc.ptr = some src →
      Inv (ConnectionManager.addUploadConnection env m2 (uc.setFlag .FLAG_UPLOAD)).1 := by
    intro m2 h2 hf2
    refine h2.addUploadConnection env src (uc.setFlag .FLAG_UPLOAD) hf2 ha ?_ ?_
    · rw [isSet_setFlag_ne _ _ _ (by decide)]; exact hd
    · exact isSet_setFlag_same _ _
  cases hc : findCQI m.downloads uc.user with
  | none => exact hup m h hf
  | some cqi =>
    dsimp only
    have h1 : Inv { m with
        downloads := (modifyCQI uc.user (fun c => { c with errors := 0 }) m.downloads) } :=
      h.of_views (modifyCQI_view_same uc.user (fun c => { c with errors := 0 }) (fun c => rfl)
        m.downloads) rfl rfl (le_refl _)
    split_ifs
    · refine h1.addDownloadConnection env src (uc.setFlag .FLAG_DOWNLOAD) hf ha ?_ ?_
      · exact isSet_setFlag_same _ _
      · rw [isSet_setFlag_ne _ _ _ (by decide)]; exact hu
    · exact hup _ h1 hf

theorem Inv.onINF {m : ConnectionManager} (h : Inv m) (env : Env) (aSource : Nat)
    (params : List String) : Inv (ConnectionManager.onINF env m aSource params).1 := by
  unfold ConnectionManager.onINF
  cases hf : m.findUC aSource with
  | none => exact h
  | some src =>
    obtain ⟨hp, _⟩ := findUC_some m aSource src hf
    have hsh := h.shape_of_find aSource src hf
    dsimp only
    by_cases hst : src.state = .STATE_INF
    · rw [if_neg (by simp [hst])]
      obtain ⟨_, hna, hnd, hnu⟩ := hsh.early (Or.inr (Or.inr hst))
      have hput : Inv (putConnection m aSource).1 :=
        h.putConnection_plain aSource (fun s hs => by rw [hf] at hs; cases hs; exact hna)
      have hrole : ∀ token : String, Inv (ConnectionManager.infRole env m
          (src.setUser (env.findUser (env.cidOfString (Option.get! (getParam params "ID"))))) token).1 :=
        fun token => h.infRole env src _ token (hp.symm ▸ hf) hna hnd hnu
      cases hid : getParam params "ID" with
      | none => exact h
      | some cid =>
        dsimp only
        have hrole2 : ∀ token : String, Inv (ConnectionManager.infRole env m
            (src.setUser (env.findUser (env.cidOfString cid))) token).1 :=
          fun token => h.infRole env src _ token (hp.symm ▸ hf) hna hnd hnu
        split_ifs
        · exact hput
        · exact hput
        · cases hto : getParam params "TO" with
          | none => exact hput
          | some token => exact hrole2 token
        · exact hrole2 _
    · rw [if_pos hst]
      exact h

/-- Allocating a connection and dropping it at once keeps the invariant. -/
theorem Inv.newConnection_put {m : ConnectionManager} (h : Inv m) (aNmdc secure : Bool)
    (uc : UserConnection) (hp : uc.ptr = m.nextPtr) (hs : Shape (ucView uc))
    (ha : (ucView uc).assoc = false) :
    Inv (putConnection ((getConnection m aNmdc secure).1.storeUC uc) uc.ptr).1 := by
  refine (h.newConnection aNmdc secure uc hp hs ha).putConnection_plain _ (fun s hs2 => ?_)
  rw [findUC_newConnection h aNmdc secure uc hp] at hs2
  cases hs2
  exact ha

theorem Inv.acceptAdmit {m : ConnectionManager} (h : Inv m) (now2 : Nat)
    (secure acceptOk : Bool) : Inv (ConnectionManager.acceptAdmit m now2 secure acceptOk).1 := by
  unfold ConnectionManager.acceptAdmit
  dsimp only
  have hp : ({ ((getConnection m false secure).2.setFlag .FLAG_INCOMING).setState .STATE_SUPNICK
      with lastActivity := now2 } : UserConnection).ptr = m.nextPtr := rfl
  have hview : ucView ({ ((getConnection m false secure).2.setFlag .FLAG_INCOMING).setState
      .STATE_SUPNICK with lastActivity := now2 } : UserConnection) =
        ⟨m.nextPtr, none, false, false, false, .STATE_SUPNICK⟩ := rfl
  split_ifs
  · exact h.newConnection false secure _ hp (by rw [hview]; simp [Shape]) (by rw [hview])
  · exact h.newConnection_put false secure _ hp (by rw [hview]; simp [Shape]) (by rw [hview])

theorem Inv.accept {m : ConnectionManager} (h : Inv m) (now now2 : Nat)
    (secure acceptOk : Bool) : Inv (ConnectionManager.accept m now now2 secure acceptOk).1 := by
  unfold ConnectionManager.accept
  dsimp only
  generalize hm1 : (if m.iConnToMeCount > 0 then
    { m with iConnToMeCount := m.iConnToMeCount - 1 } else m) = m1
  have h1 : Inv m1 := by
    rw [← hm1]
    split_ifs
    · exact h.frame rfl rfl rfl rfl
    · exact h
  split_ifs
  · refine Inv.acceptAdmit ?_ _ _ _
    exact h1.frame rfl rfl rfl rfl
  · exact h1
  · refine Inv.acceptAdmit ?_ _ _ _
    exact h1.frame rfl rfl rfl rfl
  · exact Inv.acceptAdmit h1 _ _ _

/-- Tail of the two outbound connects: the new connection is written with its
fields set and dropped again when the connect throws. -/
theorem Inv.connectTail {m : ConnectionManager} (h : Inv m) (aNmdc secure : Bool)
    (uc : UserConnection)
    (hv : ucView uc = ⟨m.nextPtr, none, false, false, false, .STATE_CONNECT⟩)
    (connectOk : Bool) (fx fx2 : List Effect) :
    Inv (if connectOk = true then ((getConnection m aNmdc secure).1.storeUC uc, fx)
      else ((putConnection ((getConnection m aNmdc secure).1.storeUC uc) uc.ptr).1, fx2)).1 := by
  have hp : uc.ptr = m.nextPtr := congrArg CView.ptr hv
  have hs : Shape (ucView uc) := by rw [hv]; simp [Shape]
  have ha : (ucView uc).assoc = false := by rw [hv]
  split_ifs
  · exact h.newConnection aNmdc secure uc hp hs ha
  · exact h.newConnection_put aNmdc secure uc hp hs ha

theorem Inv.nmdcConnect {m : ConnectionManager} (h : Inv m) (env : Env) (aServer : String)
    (aPort : Nat) (aNick hubUrl encoding : String) (stealth secure connectOk : Bool) :
    Inv (ConnectionManager.nmdcConnect env m aServer aPort aNick hubUrl encoding stealth secure
      connectOk).1 := by
  unfold ConnectionManager.nmdcConnect
  dsimp only
  by_cases h1 : m.shuttingDown = true
  · rw [if_pos h1]; exact h
  · rw [if_neg h1]
    by_cases h2 : (checkIpFlood env m aServer aPort ("NMDC Hub: " ++ hubUrl)).1 = true
    · rw [if_pos h2]; exact h
    · rw [if_neg h2]
      refine Inv.connectTail h true secure _ ?_ connectOk _ _
      split_ifs
      · rw [ucView_setFlag _ _ (by decide), ucView_setFlag _ _ (by decide)]
        rfl
      · rw [ucView_setFlag _ _ (by decide)]
        rfl

theorem Inv.adcConnect {m : ConnectionManager} (h : Inv m) (env : Env)
    (ip nick hubName hubUrl : String) (isOp : Bool) (aPort : Nat) (aToken : String)
    (secure connectOk : Bool) :
    Inv (ConnectionManager.adcConnect env m ip nick hubName hubUrl isOp aPort aToken secure
      connectOk).1 := by
  unfold ConnectionManager.adcConnect
  dsimp only
  by_cases h1 : m.shuttingDown = true
  · rw [if_pos h1]; exact h
  · rw [if_neg h1]
    by_cases h2 : (checkIpFlood env m ip aPort
        ("ADC Nick: " ++ nick ++ ", Hub: " ++ hubName)).1 = true
    · rw [if_pos h2]; exact h
    · rw [if_neg h2]
      refine Inv.connectTail h false secure _ ?_ connectOk _ _
      split_ifs
      · rw [ucView_setFlag _ _ (by decide)]
        rfl
      · rfl

theorem Inv.init : Inv ConnectionManager.init := by
  unfold Inv ConnectionManager.init
  exact {
    dsPtr := List.nodup_nil
    usPtr := List.nodup_nil
    csPtr := List.nodup_nil
    dsLt := fun q hq => by cases hq
    usLt := fun q hq => by cases hq
    csLt := fun q hq => by cases hq
    dsUser := List.nodup_nil
    usUser := List.nodup_nil
    dsDir := fun q hq => by cases hq
    usDir := fun q hq => by cases hq
    usAct := fun q hq => by cases hq
    shape := fun q hq => by cases hq
    cntD := fun u => rfl
    cntU := fun u => rfl }

/-- Every call and event keeps the invariant. -/
theorem Inv.perform {m : ConnectionManager} (h : Inv m) (env : Env) (op : Op)
    (hen : enabled m op = true) : Inv (ConnectionManager.perform env m op).1 := by
  cases op with
  | listen =>
    simp only [ConnectionManager.perform, listen, disconnect]
    split_ifs <;> exact h.frame rfl rfl rfl rfl
  | getDownloadConnection aUser => exact h.getDownloadConnection env aUser
  | second aTick => exact h.onSecond env aTick
  | minute aTick => exact h
  | accept now now2 secure acceptOk => exact h.accept now now2 secure acceptOk
  | nmdcConnect aServer aPort aNick hubUrl encoding stealth secure connectOk =>
    exact h.nmdcConnect env aServer aPort aNick hubUrl encoding stealth secure connectOk
  | adcConnect ip nick hubName hubUrl isOp aPort aToken secure connectOk =>
    exact h.adcConnect env ip nick hubName hubUrl isOp aPort aToken secure connectOk
  | nmdcExpect aNick aMyNick aHubUrl => exact h.frame rfl rfl rfl rfl
  | connToMe => exact h.frame rfl rfl rfl rfl
  | sup aSource params => exact h.onSUP env aSource params
  | sta aSource => exact h
  | connected aSource => exact h.onConnected env aSource hen
  | myNick aSource aNick => exact h.onMyNick env aSource aNick
  | cLock aSource aLock aPk => exact h.onCLock env aSource aLock aPk
  | direction aSource dir number => exact h.onDirection env aSource dir number
  | key aSource => exact h.onKey env aSource
  | inf aSource params => exact h.onINF env aSource params
  | supports conn feat => exact h.onSupports env conn feat
  | failed aSource aError now => exact h.failed aSource aError false now
  | protocolError aSource aError now => exact h.failed aSource aError true now
  | force aUser =>
    exact h.of_views (modifyCQI_view_same aUser (fun c => { c with lastAttempt := 0 })
      (fun c => rfl) m.downloads) rfl rfl (le_refl _)
  | disconnectUser aUser => exact h
  | disconnectUserDir aUser isDownload =>
    simp only [ConnectionManager.perform, disconnectUserDir]
    split <;> exact h
  | shutdown => exact h.frame rfl rfl rfl rfl

/-- Every reachable state satisfies the invariant. -/
theorem Reachable.inv {m : ConnectionManager} (h : Reachable m) : Inv m := by
  induction h with
  | init => exact Inv.init
  | step env m op _ hen ih => exact ih.perform env op hen

/-! ## Association and role exclusivity in reachable states -/

theorem reachable_runOps (env : Env) (ops : List Op) :
    ∀ m : ConnectionManager, Reachable m → allEnabled env m ops = true →
      Reachable (runOps env m ops) := by
  induction ops with
  | nil => intro m h _; exact h
  | cons op ops ih =>
    intro m h hen
    simp only [allEnabled, Bool.and_eq_true] at hen
    exact ih _ (Reachable.step env m op h hen.1) hen.2

theorem Inv.count_download {m : ConnectionManager} (h : Inv m) (c : ConnectionQueueItem)
    (hc : c ∈ m.downloads) (hs : c.state = .ACTIVE) :
    m.userConnections.countP (fun uc => uc.isSet .FLAG_ASSOCIATED && uc.isSet .FLAG_DOWNLOAD &&
      decide (uc.user = c.user.user)) = 1 := by
  have e := h.cntD c.user.user
  rw [List.countP_map, List.countP_map] at e
  have e2 : m.userConnections.countP (fun uc => uc.isSet .FLAG_ASSOCIATED &&
      uc.isSet .FLAG_DOWNLOAD && decide (uc.user = c.user.user)) =
        m.downloads.countP (activeOf c.user.user ∘ cqiView) := e
  rw [e2]
  apply le_antisymm
  · refine le_trans (List.countP_mono_left (q := fun x => decide (x.user.user = c.user.user))
      (fun x _ hx => ?_)) (countP_key_le_one (fun x : ConnectionQueueItem => x.user.user) _
        h.dsUser' c.user.user)
    simp only [Function.comp, activeOf, cqiView, Bool.and_eq_true, decide_eq_true_eq] at hx
    simpa using hx.2
  · rw [Nat.succ_le_iff, List.countP_pos_iff]
    exact ⟨c, hc, by simp [activeOf, cqiView, hs]⟩

theorem Inv.count_upload {m : ConnectionManager} (h : Inv m) (c : ConnectionQueueItem)
    (hc : c ∈ m.uploads) :
    m.userConnections.countP (fun uc => uc.isSet .FLAG_ASSOCIATED && uc.isSet .FLAG_UPLOAD &&
      decide (uc.user = c.user.user)) = 1 := by
  have e := h.cntU c.user.user
  rw [List.countP_map, List.countP_map] at e
  have e2 : m.userConnections.countP (fun uc => uc.isSet .FLAG_ASSOCIATED &&
      uc.isSet .FLAG_UPLOAD && decide (uc.user = c.user.user)) =
        m.uploads.countP (ofUser c.user.user ∘ cqiView) := e
  rw [e2]
  apply le_antisymm
  · exact countP_key_le_one (fun x : ConnectionQueueItem => x.user.user) _ h.usUser' c.user.user
  · rw [Nat.succ_le_iff, List.countP_pos_iff]
    exact ⟨c, hc, by simp [ofUser, cqiView]⟩

theorem Inv.assoc_item {m : ConnectionManager} (h : Inv m) (uc : UserConnection)
    (huc : uc ∈ m.userConnections) (ha : uc.isSet .FLAG_ASSOCIATED = true) :
    (uc.isSet .FLAG_DOWNLOAD = true ∧ uc.isSet .FLAG_UPLOAD = false ∧
      ∃ c ∈ m.downloads, c.user.user = uc.user ∧ c.download = true ∧ c.state = .ACTIVE) ∨
    (uc.isSet .FLAG_DOWNLOAD = false ∧ uc.isSet .FLAG_UPLOAD = true ∧
      ∃ c ∈ m.uploads, c.user.user = uc.user ∧ c.download = false ∧ c.state = .ACTIVE) := by
  have hvm : ucView uc ∈ m.userConnections.map ucView := List.mem_map_of_mem ucView huc
  obtain ⟨_, hne⟩ := (h.shape _ hvm).assoc_running ha
  have hne2 : uc.isSet .FLAG_DOWNLOAD ≠ uc.isSet .FLAG_UPLOAD := hne
  cases hD : uc.isSet .FLAG_DOWNLOAD
  · have hU : uc.isSet .FLAG_UPLOAD = true := by
      cases hU : uc.isSet .FLAG_UPLOAD
      · rw [hD, hU] at hne2; exact absurd rfl hne2
      · rfl
    right
    obtain ⟨q, hq, hqu⟩ := h.upload_item (ucView uc) hvm ha hU
    obtain ⟨c, hc, rfl⟩ := List.mem_map.mp hq
    refine ⟨rfl, hU, c, hc, hqu, h.usDir _ hq, ?_⟩
    simpa [cqiView] using h.usAct _ hq
  · have hU : uc.isSet .FLAG_UPLOAD = false := by
      cases hU : uc.isSet .FLAG_UPLOAD
      · rfl
      · rw [hD, hU] at hne2; exact absurd rfl hne2
    left
    obtain ⟨q, hq, hqu, hqa⟩ := h.download_item (ucView uc) hvm ha hD
    obtain ⟨c, hc, rfl⟩ := List.mem_map.mp hq
    refine ⟨rfl, hU, c, hc, hqu, h.dsDir _ hq, ?_⟩
    simpa [cqiView] using hqa

/-- C3. Association invariant. In every reachable state of the manager: every
download item in state ACTIVE has exactly one connection in `userConnections`
that carries FLAG_ASSOCIATED and FLAG_DOWNLOAD for its user, every upload item in
state ACTIVE exactly one that carries FLAG_ASSOCIATED and FLAG_UPLOAD for its
user; and every connection with FLAG_ASSOCIATED holds exactly one role flag and
has a queue item for its user in the queue of that role (`downloads` for
FLAG_DOWNLOAD, `uploads` for FLAG_UPLOAD), of that direction and ACTIVE. -/
theorem association_invariant (m : ConnectionManager) (h : Reachable m) :
    (∀ c ∈ m.downloads, c.state = .ACTIVE →
      m.userConnections.countP (fun uc => uc.isSet .FLAG_ASSOCIATED &&
        uc.isSet .FLAG_DOWNLOAD && decide (uc.user = c.user.user)) = 1) ∧
    (∀ c ∈ m.uploads, c.state = .ACTIVE →
      m.userConnections.countP (fun uc => uc.isSet .FLAG_ASSOCIATED &&
        uc.isSet .FLAG_UPLOAD && decide (uc.user = c.user.user)) = 1) ∧
    (∀ uc ∈ m.userConnections, uc.isSet .FLAG_ASSOCIATED = true →
      (uc.isSet .FLAG_DOWNLOAD = true ∧ uc.isSet .FLAG_UPLOAD = false ∧
        ∃ c ∈ m.downloads, c.user.user = uc.user ∧ c.download = true ∧ c.state = .ACTIVE) ∨
      (uc.isSet .FLAG_DOWNLOAD = false ∧ uc.isSet .FLAG_UPLOAD = true ∧
        ∃ c ∈ m.uploads, c.user.user = uc.user ∧ c.download = false ∧ c.state = .ACTIVE)) :=
  ⟨fun c hc hs => h.inv.count_download c hc hs, fun c hc _ => h.inv.count_upload c hc,
    fun uc huc ha => h.inv.assoc_item uc huc ha⟩

/-- Witness for C3: the state after the example handshake, with one ACTIVE
download item and its connection. -/
theorem association_invariant_witness :
    Reachable (runOps exampleEnv init exampleHandshake) ∧
    (runOps exampleEnv init exampleHandshake).downloads.map (fun c => c.state) = [.ACTIVE] ∧
    ∀ c ∈ (runOps exampleEnv init exampleHandshake).downloads, c.state = .ACTIVE →
      (runOps exampleEnv init exampleHandshake).userConnections.countP
        (fun uc => uc.isSet .FLAG_ASSOCIATED && uc.isSet .FLAG_DOWNLOAD &&
          decide (uc.user = c.user.user)) = 1 :=
  ⟨reachable_runOps exampleEnv exampleHandshake init Reachable.init (by decide), by decide,
    (association_invariant (runOps exampleEnv init exampleHandshake)
      (reachable_runOps exampleEnv exampleHandshake init Reachable.init (by decide))).1⟩

/-- C4. Role exclusivity. In every reachable state no connection carries both
FLAG_DOWNLOAD and FLAG_UPLOAD, and a connection in STATE_KEY or handed over
(STATE_RUNNING, where the INF handler leaves a connection it gave a role) carries
exactly one of them; and this still holds after any further call or event. -/
theorem role_exclusivity (m : ConnectionManager) (h : Reachable m) :
    (∀ uc ∈ m.userConnections,
      ¬ (uc.isSet .FLAG_DOWNLOAD = true ∧ uc.isSet .FLAG_UPLOAD = true) ∧
      (uc.state = .STATE_KEY ∨ uc.state = .STATE_RUNNING →
        uc.isSet .FLAG_DOWNLOAD ≠ uc.isSet .FLAG_UPLOAD)) ∧
    ∀ (env : Env) (ops : List Op), allEnabled env m ops = true →
      ∀ uc ∈ (runOps env m ops).userConnections,
        ¬ (uc.isSet .FLAG_DOWNLOAD = true ∧ uc.isSet .FLAG_UPLOAD = true) := by
  have key : ∀ m2 : ConnectionManager, Reachable m2 → ∀ uc ∈ m2.userConnections,
      ¬ (uc.isSet .FLAG_DOWNLOAD = true ∧ uc.isSet .FLAG_UPLOAD = true) ∧
      (uc.state = .STATE_KEY ∨ uc.state = .STATE_RUNNING →
        uc.isSet .FLAG_DOWNLOAD ≠ uc.isSet .FLAG_UPLOAD) := by
    intro m2 h2 uc huc
    have hs := h2.inv.shape _ (List.mem_map_of_mem ucView huc)
    refine ⟨hs.exclusive, fun hst => ?_⟩
    unfold Shape at hs
    rcases hst with hst | hst
    · have : (ucView uc).state = .STATE_KEY := hst
      rw [this] at hs
      exact hs.2
    · have : (ucView uc).state = .STATE_RUNNING := hst
      rw [this] at hs
      exact hs.2
  exact ⟨key m h, fun env ops hen uc huc =>
    (key _ (reachable_runOps env ops m h hen) uc huc).1⟩

/-- Witness for C4: the state after the example handshake. -/
theorem role_exclusivity_witness :
    Reachable (runOps exampleEnv init exampleHandshake) ∧
    (runOps exampleEnv init exampleHandshake).userConnections.map (fun uc => uc.state) =
      [.STATE_RUNNING] ∧
    ∀ uc ∈ (runOps exampleEnv init exampleHandshake).userConnections,
      ¬ (uc.isSet .FLAG_DOWNLOAD = true ∧ uc.isSet .FLAG_UPLOAD = true) ∧
      (uc.state = .STATE_KEY ∨ uc.state = .STATE_RUNNING →
        uc.isSet .FLAG_DOWNLOAD ≠ uc.isSet .FLAG_UPLOAD) :=
  ⟨reachable_runOps exampleEnv exampleHandshake init Reachable.init (by decide), by decide,
    (role_exclusivity (runOps exampleEnv init exampleHandshake)
      (reachable_runOps exampleEnv exampleHandshake init Reachable.init (by decide))).1⟩

/-! ## One queue item per user, operation by operation -/

theorem UniquePerUser.frame_kept {m m2 : ConnectionManager} (h : UniquePerUser m)
    (hd : m2.downloads = m.downloads) (hu : m2.uploads = m.uploads) : UniquePerUser m2 := by
  unfold UniquePerUser at h ⊢
  rw [hd, hu]
  exact h

theorem UniquePerUser.sub_kept {m m2 : ConnectionManager} (h : UniquePerUser m)
    (hd : (m2.downloads.map (fun c => c.user.user)).Sublist (m.downloads.map (fun c => c.user.user)))
    (hu : (m2.uploads.map (fun c => c.user.user)).Sublist (m.uploads.map (fun c => c.user.user))) :
    UniquePerUser m2 :=
  ⟨h.1.sublist hd, h.2.sublist hu⟩

theorem UniquePerUser.putConnection_kept {m : ConnectionManager} (h : UniquePerUser m) (p : Nat) :
    UniquePerUser (putConnection m p).1 := h.frame_kept rfl rfl

theorem UniquePerUser.storeUC_kept {m : ConnectionManager} (h : UniquePerUser m)
    (uc : UserConnection) : UniquePerUser (m.storeUC uc) := h.frame_kept rfl rfl

theorem UniquePerUser.putCQI_kept {m : ConnectionManager} (h : UniquePerUser m)
    (c : ConnectionQueueItem) : UniquePerUser (putCQI m c).1 := by
  unfold ConnectionManager.putCQI
  split_ifs
  · exact h.sub_kept ((List.filter_sublist _).map _) (List.Sublist.refl _)
  · exact h.sub_kept (List.Sublist.refl _) ((List.filter_sublist _).map _)

theorem UniquePerUser.putAll_kept (cs : List ConnectionQueueItem) :
    ∀ m : ConnectionManager, UniquePerUser m → UniquePerUser (putAll m cs).1 := by
  induction cs with
  | nil => intro m h; exact h
  | cons c cs ih => intro m h; exact ih _ (h.putCQI_kept c)

theorem UniquePerUser.onSecond_kept {m : ConnectionManager} (h : UniquePerUser m) (env : Env)
    (t : Nat) : UniquePerUser (ConnectionManager.onSecond env m t).1 := by
  unfold ConnectionManager.onSecond
  dsimp only
  apply UniquePerUser.putAll_kept
  refine ⟨?_, h.2⟩
  have := tickWalk_map_user env t m.downloads 0
  simp only [List.map_map] at this ⊢
  exact this ▸ h.1

theorem UniquePerUser.modify_kept {m : ConnectionManager} (h : UniquePerUser m) (u : UserPtr)
    (f : ConnectionQueueItem → ConnectionQueueItem) (hf : ∀ c, (f c).user = c.user) :
    UniquePerUser { m with downloads := (modifyCQI u f m.downloads) } := by
  refine ⟨?_, h.2⟩
  show ((modifyCQI u f m.downloads).map (fun c => c.user.user)).Nodup
  rw [modifyCQI_map_user u f hf]
  exact h.1

theorem UniquePerUser.getDownloadConnection_kept {m : ConnectionManager} (h : UniquePerUser m)
    (env : Env) (aUser : HintedUser) :
    UniquePerUser (ConnectionManager.getDownloadConnection env m aUser).1 := by
  cases hf : findCQI m.downloads aUser.user with
  | some c =>
    rw [getDownloadConnection_present env m aUser c hf]
    exact h
  | none =>
    rw [getDownloadConnection_absent env m aUser hf]
    refine ⟨?_, h.2⟩
    show ((m.downloads ++ [newCQI env m.nextPtr aUser true]).map (fun c => c.user.user)).Nodup
    rw [List.map_append, List.nodup_append]
    refine ⟨h.1, by simp, ?_⟩
    intro a ha hb
    simp only [List.map_cons, List.map_nil, List.mem_singleton] at hb
    have hnot := findCQI_none_not_mem _ _ hf
    rw [List.map_map] at hnot
    exact hnot (hb ▸ ha)

theorem UniquePerUser.addDownloadConnection_kept {m : ConnectionManager} (h : UniquePerUser m)
    (env : Env) (uc : UserConnection) :
    UniquePerUser (ConnectionManager.addDownloadConnection env m uc).1 := by
  unfold ConnectionManager.addDownloadConnection
  cases hc : findCQI m.downloads uc.user with
  | none => exact h.putConnection_kept _
  | some cqi =>
    dsimp only
    split_ifs
    · exact (h.modify_kept uc.user (fun c => { c with state := .ACTIVE }) (fun c => rfl)).storeUC_kept _
    · exact h.putConnection_kept _

theorem UniquePerUser.addUploadConnection_kept {m : ConnectionManager} (h : UniquePerUser m)
    (env : Env) (uc : UserConnection) :
    UniquePerUser (ConnectionManager.addUploadConnection env m uc).1 := by
  unfold ConnectionManager.addUploadConnection
  cases hc : findCQI m.uploads uc.user with
  | some cqi => exact h.putConnection_kept _
  | none =>
    dsimp only
    apply UniquePerUser.storeUC_kept
    refine ⟨h.1, ?_⟩
    show ((m.uploads ++ [_]).map (fun c : ConnectionQueueItem => c.user.user)).Nodup
    rw [List.map_append, List.nodup_append]
    refine ⟨h.2, by simp, ?_⟩
    intro a ha hb
    simp only [List.map_cons, List.map_nil, List.mem_singleton] at hb
    have hnot := findCQI_none_not_mem _ _ hc
    rw [List.map_map] at hnot
    have hb2 : a = uc.user := hb
    subst hb2
    exact hnot ha

theorem UniquePerUser.infRole_kept {m : ConnectionManager} (h : UniquePerUser m) (env : Env)
    (uc : UserConnection) (token : String) :
    UniquePerUser (ConnectionManager.infRole env m uc token).1 := by
  unfold ConnectionManager.infRole
  cases hc : findCQI m.downloads uc.user with
  | none => exact h.addUploadConnection_kept env _
  | some cqi =>
    dsimp only
    have h1 := h.modify_kept uc.user (fun c => { c with errors := 0 }) (fun c => rfl)
    split_ifs
    · exact h1.addDownloadConnection_kept env _
    · exact h1.addUploadConnection_kept env _

theorem UniquePerUser.onINF_kept {m : ConnectionManager} (h : UniquePerUser m) (env : Env)
    (aSource : Nat) (params : List String) :
    UniquePerUser (ConnectionManager.onINF env m aSource params).1 := by
  unfold ConnectionManager.onINF
  cases hf : m.findUC aSource with
  | none => exact h
  | some src =>
    dsimp only
    split_ifs
    · exact h
    · cases hid : getParam params "ID" with
      | none => exact h
      | some cid =>
        dsimp only
        split_ifs
        · exact h.putConnection_kept _
        · exact h.putConnection_kept _
        · cases hto : getParam params "TO" with
          | none => exact h.putConnection_kept _
          | some token => exact h.infRole_kept env _ token
        · exact h.infRole_kept env _ _

theorem UniquePerUser.myNickFinish_kept {m : ConnectionManager} (h : UniquePerUser m) (env : Env)
    (uc : UserConnection) : UniquePerUser (ConnectionManager.myNickFinish env m uc).1 :=
  h.storeUC_kept _

theorem UniquePerUser.myNickRole_kept {m : ConnectionManager} (h : UniquePerUser m) (env : Env)
    (uc : UserConnection) (aNick : String) :
    UniquePerUser (ConnectionManager.myNickRole env m uc aNick).1 := by
  unfold ConnectionManager.myNickRole
  dsimp only
  have h1 : UniquePerUser { m with downloads :=
      (myNickScan (env.makeCid aNick uc.encoding uc.hubUrl) m.downloads).1 } := by
    refine ⟨?_, h.2⟩
    show ((myNickScan (env.makeCid aNick uc.encoding uc.hubUrl) m.downloads).1.map
      (fun c => c.user.user)).Nodup
    rw [myNickScan_map_user]
    exact h.1
  split_ifs
  · exact h1.putConnection_kept _
  · exact h1.myNickFinish_kept env _
  · exact h1.myNickFinish_kept env _

theorem UniquePerUser.onMyNick_kept {m : ConnectionManager} (h : UniquePerUser m) (env : Env)
    (aSource : Nat) (aNick : String) :
    UniquePerUser (ConnectionManager.onMyNick env m aSource aNick).1 := by
  unfold ConnectionManager.onMyNick
  cases hf : m.findUC aSource with
  | none => exact h
  | some src =>
    dsimp only
    have h1 : UniquePerUser { m with expectedConnections :=
        (expectedRemove m.expectedConnections aNick).2 } := h.frame_kept rfl rfl
    split_ifs
    · exact h
    · exact h1.putConnection_kept _
    · exact h1.myNickRole_kept env _ aNick
    · exact h.myNickRole_kept env _ aNick

theorem UniquePerUser.onKey_kept {m : ConnectionManager} (h : UniquePerUser m) (env : Env)
    (aSource : Nat) : UniquePerUser (ConnectionManager.onKey env m aSource).1 := by
  unfold ConnectionManager.onKey
  cases hf : m.findUC aSource with
  | none => exact h
  | some src =>
    dsimp only
    split_ifs
    · exact h
    · exact h.addDownloadConnection_kept env _
    · exact h.addUploadConnection_kept env _

theorem UniquePerUser.failed_kept {m : ConnectionManager} (h : UniquePerUser m) (aSource : Nat)
    (aError : String) (protocolError : Bool) (now : Nat) :
    UniquePerUser (ConnectionManager.failed m aSource aError protocolError now).1 := by
  unfold ConnectionManager.failed
  cases hf : m.findUC aSource with
  | none => exact h
  | some src =>
    dsimp only
    by_cases hA : src.isSet .FLAG_ASSOCIATED = true
    · rw [if_pos hA]
      by_cases hD : src.isSet .FLAG_DOWNLOAD = true
      · rw [if_pos hD]
        apply UniquePerUser.putConnection_kept
        refine ⟨?_, h.2⟩
        show ((modifyCQI src.user _ m.downloads).map (fun c => c.user.user)).Nodup
        rw [modifyCQI_map_user]
        · exact h.1
        · intro c; rfl
      · rw [if_neg hD]
        by_cases hU : src.isSet .FLAG_UPLOAD = true
        · rw [if_pos hU]
          cases hc : findCQI m.uploads src.user with
          | none => exact h.putConnection_kept _
          | some cqi => exact (h.putCQI_kept cqi).putConnection_kept _
        · rw [if_neg hU]
          exact h.putConnection_kept _
    · rw [if_neg hA]
      exact h.putConnection_kept _

theorem UniquePerUser.getConnection_kept {m : ConnectionManager} (h : UniquePerUser m)
    (aNmdc secure : Bool) : UniquePerUser (getConnection m aNmdc secure).1 := h.frame_kept rfl rfl

theorem UniquePerUser.acceptAdmit_kept {m : ConnectionManager} (h : UniquePerUser m) (now2 : Nat)
    (secure acceptOk : Bool) :
    UniquePerUser (ConnectionManager.acceptAdmit m now2 secure acceptOk).1 := by
  unfold ConnectionManager.acceptAdmit
  dsimp only
  split_ifs
  · exact (h.getConnection_kept false secure).storeUC_kept _
  · exact ((h.getConnection_kept false secure).storeUC_kept _).putConnection_kept _

theorem UniquePerUser.accept_kept {m : ConnectionManager} (h : UniquePerUser m) (now now2 : Nat)
    (secure acceptOk : Bool) :
    UniquePerUser (ConnectionManager.accept m now now2 secure acceptOk).1 := by
  unfold ConnectionManager.accept
  dsimp only
  generalize hm1 : (if m.iConnToMeCount > 0 then
    { m with iConnToMeCount := m.iConnToMeCount - 1 } else m) = m1
  have h1 : UniquePerUser m1 := by
    rw [← hm1]
    split_ifs
    · exact h.frame_kept rfl rfl
    · exact h
  split_ifs
  · refine UniquePerUser.acceptAdmit_kept ?_ _ _ _
    exact h1.frame_kept rfl rfl
  · exact h1
  · refine UniquePerUser.acceptAdmit_kept ?_ _ _ _
    exact h1.frame_kept rfl rfl
  · exact UniquePerUser.acceptAdmit_kept h1 _ _ _

theorem UniquePerUser.connectTail_kept {m : ConnectionManager} (h : UniquePerUser m)
    (aNmdc secure : Bool) (uc : UserConnection) (connectOk : Bool) (fx fx2 : List Effect) :
    UniquePerUser (if connectOk = true then
      ((ConnectionManager.getConnection m aNmdc secure).1.storeUC uc, fx)
      else ((ConnectionManager.putConnection
        ((ConnectionManager.getConnection m aNmdc secure).1.storeUC uc) uc.ptr).1, fx2)).1 := by
  split_ifs
  · exact (h.getConnection_kept aNmdc secure).storeUC_kept _
  · exact ((h.getConnection_kept aNmdc secure).storeUC_kept _).putConnection_kept _

/-- Every call and event keeps one queue item per user, from any state. -/
theorem UniquePerUser.perform_kept {m : ConnectionManager} (h : UniquePerUser m) (env : Env)
    (op : Op) : UniquePerUser (ConnectionManager.perform env m op).1 := by
  cases op with
  | listen =>
    simp only [ConnectionManager.perform, listen, disconnect]
    split_ifs <;> exact h.frame_kept rfl rfl
  | getDownloadConnection aUser => exact h.getDownloadConnection_kept env aUser
  | second aTick => exact h.onSecond_kept env aTick
  | minute aTick => exact h
  | accept now now2 secure acceptOk => exact h.accept_kept now now2 secure acceptOk
  | nmdcConnect aServer aPort aNick hubUrl encoding stealth secure connectOk =>
    simp only [ConnectionManager.perform, ConnectionManager.nmdcConnect]
    by_cases h1 : m.shuttingDown = true
    · rw [if_pos h1]; exact h
    · rw [if_neg h1]
      by_cases h2 : (checkIpFlood env m aServer aPort ("NMDC Hub: " ++ hubUrl)).1 = true
      · rw [if_pos h2]; exact h
      · rw [if_neg h2]
        exact UniquePerUser.connectTail_kept h true secure _ connectOk _ _
  | adcConnect ip nick hubName hubUrl isOp aPort aToken secure connectOk =>
    simp only [ConnectionManager.perform, ConnectionManager.adcConnect]
    by_cases h1 : m.shuttingDown = true
    · rw [if_pos h1]; exact h
    · rw [if_neg h1]
      by_cases h2 : (checkIpFlood env m ip aPort
          ("ADC Nick: " ++ nick ++ ", Hub: " ++ hubName)).1 = true
      · rw [if_pos h2]; exact h
      · rw [if_neg h2]
        exact UniquePerUser.connectTail_kept h false secure _ connectOk _ _
  | nmdcExpect aNick aMyNick aHubUrl => exact h.frame_kept rfl rfl
  | connToMe => exact h.frame_kept rfl rfl
  | sup aSource params =>
    simp only [ConnectionManager.perform, onSUP]
    split
    · exact h
    · split_ifs <;> exact h
  | sta aSource => exact h
  | connected aSource =>
    simp only [ConnectionManager.perform, onConnected]
    split
    · exact h
    · split_ifs <;> exact h
  | myNick aSource aNick => exact h.onMyNick_kept env aSource aNick
  | cLock aSource aLock aPk =>
    simp only [ConnectionManager.perform, onCLock]
    split
    · exact h
    · split_ifs <;> exact h
  | direction aSource dir number =>
    simp only [ConnectionManager.perform, onDirection]
    split
    · exact h
    · split_ifs <;> exact h
  | key aSource => exact h.onKey_kept env aSource
  | inf aSource params => exact h.onINF_kept env aSource params
  | supports conn feat =>
    simp only [ConnectionManager.perform, onSupports]
    split
    · exact h
    · exact h.storeUC_kept _
  | failed aSource aError now => exact h.failed_kept aSource aError false now
  | protocolError aSource aError now => exact h.failed_kept aSource aError true now
  | force aUser => exact h.modify_kept aUser (fun c => { c with lastAttempt := 0 }) (fun c => rfl)
  | disconnectUser aUser => exact h
  | disconnectUserDir aUser isDownload =>
    simp only [ConnectionManager.perform, disconnectUserDir]
    split <;> exact h
  | shutdown => exact h.frame_kept rfl rfl

/-- C1. Queue uniqueness is kept by every operation. From any state in which
`downloads` and `uploads` each hold at most one item per user, every call and
event of the manager (`getDownloadConnection`, the per-second tick, the `MyNick`,
`Key` and `INF` handlers with `addDownloadConnection` and `addUploadConnection`,
`failed`, `force`, and all the others of `Op`), whatever the collaborators answer,
leads to a state in which each of the two queues again holds at most one item per
user. -/
theorem queue_uniqueness (env : Env) (m : ConnectionManager) (op : Op)
    (h : (m.downloads.map (fun c => c.user.user)).Nodup ∧
      (m.uploads.map (fun c => c.user.user)).Nodup) :
    ((perform env m op).1.downloads.map (fun c => c.user.user)).Nodup ∧
    ((perform env m op).1.uploads.map (fun c => c.user.user)).Nodup :=
  UniquePerUser.perform_kept h env op

/-- Witness for C1: the key event of the example handshake, which associates the
connection of user 7. -/
theorem queue_uniqueness_witness :
    ((runOps exampleEnv init (exampleHandshake.take 6)).downloads.map
        (fun c => c.user.user)).Nodup ∧
    ((perform exampleEnv (runOps exampleEnv init (exampleHandshake.take 6))
      (.key 2)).1.downloads.map (fun c => c.user.user)).Nodup :=
  ⟨by decide, (queue_uniqueness exampleEnv (runOps exampleEnv init (exampleHandshake.take 6))
    (.key 2) (by decide)).1⟩

/-! ## The inbound flood guard -/

theorem acceptAdmit_counters (m : ConnectionManager) (now2 : Nat) (secure acceptOk : Bool) :
    (acceptAdmit m now2 secure acceptOk).1.floodCounter = m.floodCounter ∧
    (acceptAdmit m now2 secure acceptOk).1.iConnToMeCount = m.iConnToMeCount ∧
    (acceptAdmit m now2 secure acceptOk).1.downloads = m.downloads ∧
    (acceptAdmit m now2 secure acceptOk).1.uploads = m.uploads := by
  cases acceptOk <;> simp [acceptAdmit, getConnection, storeUC, putConnection]

theorem acceptAdmit_effects (m : ConnectionManager) (now2 : Nat) (secure acceptOk : Bool) :
    (acceptAdmit m now2 secure acceptOk).2 ≠ [Effect.acceptAndClose] := by
  cases acceptOk <;> simp [acceptAdmit, putConnection]

theorem acceptAdmit_length (m : ConnectionManager) (now2 : Nat) (secure : Bool) :
    (acceptAdmit m now2 secure true).1.userConnections.length = m.userConnections.length + 1 := by
  simp [acceptAdmit, getConnection, storeUC]

theorem map_store_append (l : List UserConnection) (u0 uc1 : UserConnection)
    (h0 : u0.ptr = uc1.ptr) (hne : ∀ x ∈ l, x.ptr ≠ uc1.ptr) :
    (l ++ [u0]).map (fun x => if x.ptr = uc1.ptr then uc1 else x) = l ++ [uc1] := by
  rw [List.map_append]
  congr 1
  · conv_rhs => rw [← List.map_id l]
    apply List.map_congr_left
    intro x hx
    simp [hne x hx]
  · simp [h0]

theorem acceptAdmit_admitted (m : ConnectionManager) (now2 : Nat) (secure acceptOk : Bool)
    (hfresh : ∀ x ∈ m.userConnections, x.ptr < m.nextPtr) :
    Admitted m (acceptAdmit m now2 secure acceptOk).1 acceptOk := by
  have hne : ∀ x ∈ m.userConnections, x.ptr ≠ m.nextPtr := fun x hx => Nat.ne_of_lt (hfresh x hx)
  have hst := map_store_append m.userConnections (newUserConnection m.nextPtr secure)
    { ((newUserConnection m.nextPtr secure).setFlag .FLAG_INCOMING).setState
      .STATE_SUPNICK with lastActivity := now2 } rfl hne
  refine ⟨{ ((newUserConnection m.nextPtr secure).setFlag .FLAG_INCOMING).setState
    .STATE_SUPNICK with lastActivity := now2 }, rfl, rfl, rfl, ?_⟩
  cases acceptOk
  · have e : (acceptAdmit m now2 secure false).1.userConnections =
        (((m.userConnections ++ [newUserConnection m.nextPtr secure]).map
          (fun x => if x.ptr = m.nextPtr then
            ({ ((newUserConnection m.nextPtr secure).setFlag .FLAG_INCOMING).setState
              .STATE_SUPNICK with lastActivity := now2 } : UserConnection) else x)).filter
          (fun x => decide (x.ptr ≠ m.nextPtr))) := rfl
    rw [e]
    have hst2 : (m.userConnections ++ [newUserConnection m.nextPtr secure]).map
          (fun x => if x.ptr = m.nextPtr then
            ({ ((newUserConnection m.nextPtr secure).setFlag .FLAG_INCOMING).setState
              .STATE_SUPNICK with lastActivity := now2 } : UserConnection) else x) = _ := hst
    rw [hst2, List.filter_append]
    have hfil : m.userConnections.filter (fun x => decide (x.ptr ≠ m.nextPtr)) =
        m.userConnections := by
      rw [List.filter_eq_self]
      intro x hx
      simp [hne x hx]
    rw [hfil]
    simp [newUserConnection, UserConnection.setFlag, UserConnection.setState]
  · have e : (acceptAdmit m now2 secure true).1.userConnections =
        ((m.userConnections ++ [newUserConnection m.nextPtr secure]).map
          (fun x => if x.ptr = m.nextPtr then
            ({ ((newUserConnection m.nextPtr secure).setFlag .FLAG_INCOMING).setState
              .STATE_SUPNICK with lastActivity := now2 } : UserConnection) else x)) := rfl
    rw [e]
    exact hst

theorem acceptAdmit_admitted_of (m m1 : ConnectionManager) (now2 : Nat) (secure acceptOk : Bool)
    (hu : m1.userConnections = m.userConnections) (hn : m1.nextPtr = m.nextPtr)
    (hfresh : ∀ x ∈ m.userConnections, x.ptr < m.nextPtr) :
    Admitted m (acceptAdmit m1 now2 secure acceptOk).1 acceptOk := by
  have h := acceptAdmit_admitted m1 now2 secure acceptOk (by rw [hu, hn]; exact hfresh)
  unfold Admitted at h ⊢
  rw [hu, hn] at h
  exact h

theorem accept_decrement (m : ConnectionManager) :
    (if m.iConnToMeCount > 0 then { m with iConnToMeCount := m.iConnToMeCount - 1 } else m) =
      { m with iConnToMeCount := m.iConnToMeCount - 1 } := by
  by_cases h : m.iConnToMeCount > 0
  · rw [if_pos h]
  · rw [if_neg h]
    have h0 : m.iConnToMeCount = 0 := by omega
    cases m
    simp only at h0
    simp [h0]

theorem accept_eq (m : ConnectionManager) (now now2 : Nat) (secure acceptOk : Bool) :
    accept m now now2 secure acceptOk =
      if now > m.floodCounter then
        acceptAdmit { m with iConnToMeCount := m.iConnToMeCount - 1, floodCounter := now + FLOOD_ADD }
          now2 secure acceptOk
      else if now + FLOOD_TRIGGER < m.floodCounter then
        ({ m with iConnToMeCount := m.iConnToMeCount - 1 }, [Effect.acceptAndClose])
      else if m.iConnToMeCount - 1 ≤ 0 then
        acceptAdmit { m with iConnToMeCount := m.iConnToMeCount - 1,
                             floodCounter := m.floodCounter + FLOOD_ADD } now2 secure acceptOk
      else
        acceptAdmit { m with iConnToMeCount := m.iConnToMeCount - 1 } now2 secure acceptOk := by
  unfold accept
  simp only [accept_decrement]

/-- C11 (inbound flood guard step): `accept` at time `now` first decrements
`iConnToMeCount` when it is positive (truncated subtraction, never below 0). With
`now > floodCounter` the counter becomes `now + 2000` and the socket is admitted;
else with `now + 20000 < floodCounter` the socket is rejected, `floodCounter` and
`userConnections` are as before and the socket is accepted and closed; else the
socket is admitted and `floodCounter` grows by 2000 exactly when the decremented
`iConnToMeCount` is 0. An admitted socket is a new connection with FLAG_INCOMING
in STATE_SUPNICK at the end of `userConnections` (unless `uc->accept` throws,
which puts the connection again). The hypothesis says that `new` returns an
address no connection of the manager has. -/
theorem flood_guard_step (m : ConnectionManager) (now now2 : Nat) (secure acceptOk : Bool)
    (hfresh : ∀ x ∈ m.userConnections, x.ptr < m.nextPtr) :
    (accept m now now2 secure acceptOk).1.iConnToMeCount = m.iConnToMeCount - 1 ∧
    (m.floodCounter < now →
      (accept m now now2 secure acceptOk).1.floodCounter = now + 2000 ∧
      Admitted m (accept m now now2 secure acceptOk).1 acceptOk) ∧
    (now ≤ m.floodCounter → now + 20000 < m.floodCounter →
      (accept m now now2 secure acceptOk).1.floodCounter = m.floodCounter ∧
      (accept m now now2 secure acceptOk).1.userConnections = m.userConnections ∧
      (accept m now now2 secure acceptOk).2 = [Effect.acceptAndClose]) ∧
    (now ≤ m.floodCounter → m.floodCounter ≤ now + 20000 →
      (accept m now now2 secure acceptOk).1.floodCounter =
        (if m.iConnToMeCount - 1 = 0 then m.floodCounter + 2000 else m.floodCounter) ∧
      Admitted m (accept m now now2 secure acceptOk).1 acceptOk) := by
  rw [accept_eq]
  refine ⟨?_, ?_, ?_, ?_⟩
  · split_ifs <;> first | rfl | exact (acceptAdmit_counters _ _ _ _).2.1
  · intro h
    rw [if_pos h]
    exact ⟨(acceptAdmit_counters _ _ _ _).1, acceptAdmit_admitted_of m _ _ _ _ rfl rfl hfresh⟩
  · intro h1 h2
    rw [if_neg (by omega), if_pos (by simpa [FLOOD_TRIGGER] using h2)]
    exact ⟨rfl, rfl, rfl⟩
  · intro h1 h2
    rw [if_neg (by omega), if_neg (by simp only [FLOOD_TRIGGER]; omega)]
    by_cases h0 : m.iConnToMeCount - 1 = 0
    · rw [if_pos (by omega), if_pos h0]
      exact ⟨(acceptAdmit_counters _ _ _ _).1, acceptAdmit_admitted_of m _ _ _ _ rfl rfl hfresh⟩
    · rw [if_neg (by omega), if_neg h0]
      exact ⟨(acceptAdmit_counters _ _ _ _).1, acceptAdmit_admitted_of m _ _ _ _ rfl rfl hfresh⟩

/-- Witness for C11: the first accept of a fresh manager at time 10 is admitted,
the counter becomes 2010 and the connection at address 1 is appended. -/
theorem flood_guard_step_witness :
    (∀ x ∈ init.userConnections, x.ptr < init.nextPtr) ∧ init.floodCounter < 10 ∧
    (accept init 10 10 false true).1.floodCounter = 10 + 2000 ∧
    Admitted init (accept init 10 10 false true).1 true :=
  ⟨by decide, by decide,
    ((flood_guard_step init 10 10 false true (by decide)).2.1 (by decide)).1,
    ((flood_guard_step init 10 10 false true (by decide)).2.1 (by decide)).2⟩

theorem accept_step (m : ConnectionManager) (now now2 : Nat) (secure acceptOk : Bool)
    (hi : m.iConnToMeCount = 0) :
    (accept m now now2 secure acceptOk).1.iConnToMeCount = 0 ∧
    (m.floodCounter < now →
      (accept m now now2 secure acceptOk).1.floodCounter = now + 2000 ∧
      (accept m now now2 secure acceptOk).2 ≠ [Effect.acceptAndClose] ∧
      (acceptOk = true → (accept m now now2 secure acceptOk).1.userConnections.length =
        m.userConnections.length + 1)) ∧
    (now ≤ m.floodCounter → m.floodCounter ≤ now + 20000 →
      (accept m now now2 secure acceptOk).1.floodCounter = m.floodCounter + 2000 ∧
      (accept m now now2 secure acceptOk).2 ≠ [Effect.acceptAndClose] ∧
      (acceptOk = true → (accept m now now2 secure acceptOk).1.userConnections.length =
        m.userConnections.length + 1)) ∧
    (now + 20000 < m.floodCounter →
      accept m now now2 secure acceptOk = (m, [Effect.acceptAndClose])) := by
  have hm : ({ m with iConnToMeCount := m.iConnToMeCount - 1 } : ConnectionManager) = m := by
    cases m
    simp only at hi
    simp [hi]
  rw [accept_eq]
  refine ⟨?_, ?_, ?_, ?_⟩
  · split_ifs <;>
      first
      | (show m.iConnToMeCount - 1 = 0; omega)
      | (rw [(acceptAdmit_counters _ _ _ _).2.1]; show m.iConnToMeCount - 1 = 0; omega)
  · intro h
    rw [if_pos h]
    refine ⟨(acceptAdmit_counters _ _ _ _).1, acceptAdmit_effects _ _ _ _, ?_⟩
    intro hok
    rw [hok]
    exact acceptAdmit_length _ _ _
  · intro h1 h2
    rw [if_neg (by omega), if_neg (by simp only [FLOOD_TRIGGER]; omega), if_pos (by omega)]
    refine ⟨(acceptAdmit_counters _ _ _ _).1, acceptAdmit_effects _ _ _ _, ?_⟩
    intro hok
    rw [hok]
    exact acceptAdmit_length _ _ _
  · intro h
    rw [if_neg (by omega), if_pos (by simp only [FLOOD_TRIGGER]; omega), hm]

theorem acceptRun_from (now : Nat) : ∀ (args : List (Nat × Bool × Bool)) (m : ConnectionManager)
    (j : Nat), 1 ≤ j → j ≤ 11 → m.floodCounter = now + 2000 * j → m.iConnToMeCount = 0 →
    (acceptRun now m args).1.floodCounter = now + 2000 * min (j + args.length) 11 ∧
    (acceptRun now m args).1.iConnToMeCount = 0 ∧
    (acceptRun now m args).2.length = args.length ∧
    (∀ k, k < args.length →
      ((acceptRun now m args).2.getD k [] = [Effect.acceptAndClose] ↔ 11 ≤ j + k)) ∧
    ((∀ a ∈ args, a.2.2 = true) → (acceptRun now m args).1.userConnections.length =
      m.userConnections.length + (min (j + args.length) 11 - j)) := by
  intro args
  induction args with
  | nil =>
    intro m j h1 h11 hfc hi
    refine ⟨?_, hi, rfl, ?_, ?_⟩
    · show m.floodCounter = _
      rw [hfc, List.length_nil, Nat.add_zero, Nat.min_eq_left h11]
    · intro k hk
      exact absurd hk (Nat.not_lt_zero k)
    · intro _
      show m.userConnections.length = _
      rw [List.length_nil, Nat.add_zero, Nat.min_eq_left h11]
      omega
  | cons a rest ih =>
    intro m j h1 h11 hfc hi
    have hs := accept_step m now a.1 a.2.1 a.2.2 hi
    have hrun : acceptRun now m (a :: rest) =
        ((acceptRun now (accept m now a.1 a.2.1 a.2.2).1 rest).1,
          (accept m now a.1 a.2.1 a.2.2).2 ::
            (acceptRun now (accept m now a.1 a.2.1 a.2.2).1 rest).2) := rfl
    rw [hrun]
    by_cases hj : j = 11
    · have hrej := hs.2.2.2 (by omega)
      rw [hrej]
      have h := ih m j h1 h11 hfc hi
      refine ⟨?_, h.2.1, ?_, ?_, ?_⟩
      · rw [h.1]
        simp only [List.length_cons]
        rw [Nat.min_eq_right (by omega), Nat.min_eq_right (by omega)]
      · simp only [List.length_cons, h.2.2.1]
      · intro k hk
        cases k with
        | zero => simp only [List.getD_cons_zero, true_iff]; omega
        | succ k =>
          simp only [List.getD_cons_succ]
          rw [h.2.2.2.1 k (by simpa using hk)]
          omega
      · intro hall
        rw [h.2.2.2.2 (fun x hx => hall x (List.mem_cons_of_mem _ hx))]
        simp only [List.length_cons]
        rw [Nat.min_eq_right (by omega), Nat.min_eq_right (by omega)]
    · have hadm := hs.2.2.1 (by omega) (by omega)
      have h := ih (accept m now a.1 a.2.1 a.2.2).1 (j + 1) (by omega) (by omega)
        (by rw [hadm.1, hfc]; ring) hs.1
      have hlen : j + 1 + rest.length = j + (a :: rest).length := by
        simp only [List.length_cons]; omega
      rw [hlen] at h
      refine ⟨h.1, h.2.1, ?_, ?_, ?_⟩
      · simp only [List.length_cons, h.2.2.1]
      · intro k hk
        cases k with
        | zero =>
          simp only [List.getD_cons_zero]
          constructor
          · intro hc; exact absurd hc hadm.2.1
          · intro hc; omega
        | succ k =>
          simp only [List.getD_cons_succ]
          rw [h.2.2.2.1 k (by simpa using hk)]
          omega
      · intro hall
        rw [h.2.2.2.2 (fun x hx => hall x (List.mem_cons_of_mem _ hx)),
          hadm.2.2 (hall a (List.mem_cons_self _ _))]
        have hmin : j + 1 ≤ min (j + (a :: rest).length) 11 := by
          simp only [List.length_cons]
          exact Nat.le_min.mpr ⟨by omega, by omega⟩
        omega

/-- C12 (inbound flood burst bound): in a run of accepts that all read the same
tick `now`, started with `floodCounter < now` and `iConnToMeCount = 0`, the
accept number `k` (from 0) is rejected exactly when `11 ≤ k`; after the run
`floodCounter` is `now + 2000 * min n 11` (so `now + 22000` from the eleventh
accept on, whatever follows), `iConnToMeCount` is still 0, and when no
`uc->accept` throws the run adds `min n 11` connections: 11 for 200 accepts. -/
theorem flood_burst_bound (m : ConnectionManager) (now : Nat) (args : List (Nat × Bool × Bool))
    (hfc : m.floodCounter < now) (hi : m.iConnToMeCount = 0) :
    (acceptRun now m args).2.length = args.length ∧
    (∀ k, k < args.length →
      ((acceptRun now m args).2.getD k [] = [Effect.acceptAndClose] ↔ 11 ≤ k)) ∧
    (args ≠ [] → (acceptRun now m args).1.floodCounter = now + 2000 * min args.length 11) ∧
    (acceptRun now m args).1.iConnToMeCount = 0 ∧
    ((∀ a ∈ args, a.2.2 = true) → (acceptRun now m args).1.userConnections.length =
      m.userConnections.length + min args.length 11) ∧
    ((∀ a ∈ args, a.2.2 = true) → args.length = 200 →
      (acceptRun now m args).1.userConnections.length = m.userConnections.length + 11) := by
  have main : (acceptRun now m args).2.length = args.length ∧
      (∀ k, k < args.length →
        ((acceptRun now m args).2.getD k [] = [Effect.acceptAndClose] ↔ 11 ≤ k)) ∧
      (args ≠ [] → (acceptRun now m args).1.floodCounter = now + 2000 * min args.length 11) ∧
      (acceptRun now m args).1.iConnToMeCount = 0 ∧
      ((∀ a ∈ args, a.2.2 = true) → (acceptRun now m args).1.userConnections.length =
        m.userConnections.length + min args.length 11) := by
    cases args with
    | nil =>
      refine ⟨rfl, ?_, ?_, hi, ?_⟩
      · intro k hk; exact absurd hk (Nat.not_lt_zero k)
      · intro h; exact absurd rfl h
      · intro _; rfl
    | cons a rest =>
      have hs := accept_step m now a.1 a.2.1 a.2.2 hi
      have hadm := hs.2.1 hfc
      have h := acceptRun_from now rest (accept m now a.1 a.2.1 a.2.2).1 1 (le_refl 1) (by omega)
        (by rw [hadm.1]) hs.1
      have hrun : acceptRun now m (a :: rest) =
          ((acceptRun now (accept m now a.1 a.2.1 a.2.2).1 rest).1,
            (accept m now a.1 a.2.1 a.2.2).2 ::
              (acceptRun now (accept m now a.1 a.2.1 a.2.2).1 rest).2) := rfl
      rw [hrun]
      have hlen : 1 + rest.length = (a :: rest).length := by
        simp only [List.length_cons]; omega
      rw [hlen] at h
      refine ⟨?_, ?_, ?_, h.2.1, ?_⟩
      · simp only [List.length_cons, h.2.2.1]
      · intro k hk
        cases k with
        | zero =>
          simp only [List.getD_cons_zero]
          constructor
          · intro hc; exact absurd hc hadm.2.1
          · intro hc; omega
        | succ k =>
          simp only [List.getD_cons_succ]
          rw [h.2.2.2.1 k (by simpa using hk)]
          omega
      · intro _; exact h.1
      · intro hall
        rw [h.2.2.2.2 (fun x hx => hall x (List.mem_cons_of_mem _ hx)),
          hadm.2.2 (hall a (List.mem_cons_self _ _))]
        have hmin : 1 ≤ min (a :: rest).length 11 := by
          simp only [List.length_cons]
          exact Nat.le_min.mpr ⟨by omega, by omega⟩
        omega
  refine ⟨main.1, main.2.1, main.2.2.1, main.2.2.2.1, main.2.2.2.2, ?_⟩
  intro hall h200
  rw [main.2.2.2.2 hall, h200]
  rfl

/-- Witness for C12: 200 accepts at time 10 on a fresh manager leave 11
connections and the counter at 22010. -/
theorem flood_burst_bound_witness :
    init.floodCounter < 10 ∧ init.iConnToMeCount = 0 ∧
    (acceptRun 10 init (List.replicate 200 (10, false, true))).1.userConnections.length =
      init.userConnections.length + 11 ∧
    (acceptRun 10 init (List.replicate 200 (10, false, true))).1.floodCounter =
      10 + 2000 * min (List.replicate 200 ((10 : Nat), false, true)).length 11 :=
  ⟨by decide, rfl,
    (flood_burst_bound init 10 (List.replicate 200 (10, false, true)) (by decide) rfl).2.2.2.2.2
      (fun a ha => by rw [List.eq_of_mem_replicate ha]) (List.length_replicate _ _),
    (flood_burst_bound init 10 (List.replicate 200 (10, false, true)) (by decide) rfl).2.2.1
      (by simp)⟩

/-! ## The outbound flood guard -/

theorem ipFloodLoop_iff (env : Env) (aServer : String) (aPort : Nat) :
    ∀ (l : List UserConnection) (count : Nat), count < 5 →
      (ipFloodLoop env aServer aPort count l = true ↔
        5 ≤ count + l.countP (ipMatch env aServer aPort)) := by
  intro l
  induction l with
  | nil =>
    intro count hc
    simp only [ipFloodLoop, List.countP_nil, Nat.add_zero]
    constructor
    · intro h; exact absurd h (by simp)
    · intro h; omega
  | cons uc rest ih =>
    intro count hc
    by_cases hs : env.hasSocket uc.ptr = false
    · have hm : ipMatch env aServer aPort uc = false := by simp [ipMatch, hs]
      rw [ipFloodLoop, if_pos hs, List.countP_cons_of_neg _ _ (by simp [hm])]
      exact ih count hc
    · rw [ipFloodLoop, if_neg hs]
      have hs1 : env.hasSocket uc.ptr = true := by simpa using hs
      by_cases hq : env.remoteIp uc.ptr = aServer ∧ env.port uc.ptr = aPort
      · have hm : ipMatch env aServer aPort uc = true := by simp [ipMatch, hs1, hq]
        rw [if_pos hq, List.countP_cons_of_pos _ _ hm]
        have hmod : (count + 1) % 256 = count + 1 := Nat.mod_eq_of_lt (by omega)
        rw [hmod]
        by_cases h5 : count + 1 ≥ 5
        · rw [if_pos h5]
          constructor
          · intro _; omega
          · intro _; rfl
        · rw [if_neg h5, ih (count + 1) (by omega)]
          omega
      · have hm : ipMatch env aServer aPort uc = false := by
          simp only [ipMatch, hs1, Bool.true_and, decide_eq_false_iff_not]
          exact hq
        rw [if_neg hq, List.countP_cons_of_neg _ _ (by simp [hm])]
        exact ih count hc

/-- C13 (outbound IP flood guard): `checkIpFlood` refuses the connect exactly when
the port is 80 or 2501, or at least five connections of `userConnections` have a
live socket to the requested address and port. The answer depends on the
connections only through whether that number reaches five (the loop returns at
the fifth match, so the 8 bit counter stays below 5), it does not depend on the
text for the log, and on a refusal `nmdcConnect` and `adcConnect` leave the state
as it is. -/
theorem ip_flood_guard (env : Env) (m : ConnectionManager) (aServer : String) (aPort : Nat)
    (userInfo : String) :
    ((checkIpFlood env m aServer aPort userInfo).1 = true ↔
      (aPort = 80 ∨ aPort = 2501 ∨
        5 ≤ m.userConnections.countP (ipMatch env aServer aPort))) ∧
    (∀ (aNick hubUrl encoding : String) (stealth secure connectOk : Bool),
      (aPort = 80 ∨ aPort = 2501 ∨ 5 ≤ m.userConnections.countP (ipMatch env aServer aPort)) →
      (nmdcConnect env m aServer aPort aNick hubUrl encoding stealth secure connectOk).1 = m) ∧
    (∀ (nick hubName hubUrl : String) (isOp : Bool) (aToken : String) (secure connectOk : Bool),
      (aPort = 80 ∨ aPort = 2501 ∨ 5 ≤ m.userConnections.countP (ipMatch env aServer aPort)) →
      (adcConnect env m aServer nick hubName hubUrl isOp aPort aToken secure connectOk).1 = m) := by
  have key : ∀ info : String, ((checkIpFlood env m aServer aPort info).1 = true ↔
      (aPort = 80 ∨ aPort = 2501 ∨
        5 ≤ m.userConnections.countP (ipMatch env aServer aPort))) := by
    intro info
    unfold checkIpFlood
    by_cases hp : aPort = 80 ∨ aPort = 2501
    · rw [if_pos hp]
      constructor
      · intro _
        rcases hp with h | h
        · exact Or.inl h
        · exact Or.inr (Or.inl h)
      · intro _; rfl
    · rw [if_neg hp]
      show ipFloodLoop env aServer aPort 0 m.userConnections = true ↔ _
      rw [ipFloodLoop_iff env aServer aPort m.userConnections 0 (by omega), Nat.zero_add]
      constructor
      · intro h; exact Or.inr (Or.inr h)
      · intro h
        rcases h with h | h | h
        · exact absurd (Or.inl h) hp
        · exact absurd (Or.inr h) hp
        · exact h
  refine ⟨key userInfo, ?_, ?_⟩
  · intro aNick hubUrl encoding stealth secure connectOk h
    have hc := (key ("NMDC Hub: " ++ hubUrl)).mpr h
    unfold nmdcConnect
    by_cases hsd : m.shuttingDown = true
    · rw [if_pos hsd]
    · rw [if_neg hsd]
      simp only [hc, if_true]
  · intro nick hubName hubUrl isOp aToken secure connectOk h
    have hc := (key ("ADC Nick: " ++ nick ++ ", Hub: " ++ hubName)).mpr h
    unfold adcConnect
    by_cases hsd : m.shuttingDown = true
    · rw [if_pos hsd]
    · rw [if_neg hsd]
      simp only [hc, if_true]

/-- Witness for C13: with five live connections to `10.0.0.1:412` the sixth
connect to that address is refused and `nmdcConnect` changes nothing. -/
theorem ip_flood_guard_witness :
    5 ≤ exampleFiveConnections.userConnections.countP (ipMatch exampleEnv "10.0.0.1" 412) ∧
    (checkIpFlood exampleEnv exampleFiveConnections "10.0.0.1" 412 "hub").1 = true ∧
    (nmdcConnect exampleEnv exampleFiveConnections "10.0.0.1" 412 "nick" "hub" "utf-8"
      false false true).1 = exampleFiveConnections :=
  ⟨by decide,
    (ip_flood_guard exampleEnv exampleFiveConnections "10.0.0.1" 412 "hub").1.mpr
      (Or.inr (Or.inr (by decide))),
    (ip_flood_guard exampleEnv exampleFiveConnections "10.0.0.1" 412 "hub").2.1
      "nick" "hub" "utf-8" false false true (Or.inr (Or.inr (by decide)))⟩

/-! ## Strings: a prefix and the rest -/

theorem string_take_append_drop (s : String) (n : Nat) : s.take n ++ s.drop n = s := by
  apply String.ext
  simp [String.data_append, String.data_take, String.data_drop, List.take_append_drop]

theorem string_take_append (pre rest : String) : (pre ++ rest).take pre.length = pre := by
  apply String.ext
  rw [String.data_take, String.data_append]
  exact List.take_left pre.data rest.data

theorem string_drop_append (pre rest : String) : (pre ++ rest).drop pre.length = rest := by
  apply String.ext
  rw [String.data_drop, String.data_append]
  exact List.drop_left pre.data rest.data

theorem string_prefix_iff (pre p rest : String) :
    (p.take pre.length = pre ∧ p.drop pre.length = rest) ↔ p = pre ++ rest := by
  constructor
  · rintro ⟨h1, h2⟩
    rw [← h1, ← h2, string_take_append_drop]
  · intro h
    rw [h]
    exact ⟨string_take_append pre rest, string_drop_append pre rest⟩

theorem ad_param_iff (p feat : String) :
    (p.take 2 = "AD" ∧ p.drop 2 = feat) ↔ p = "AD" ++ feat :=
  string_prefix_iff "AD" p feat

/-! ## The parameter loop of the SUP handler -/

theorem isSet_setFlag_mono (uc : UserConnection) (f g : Flag) (h : uc.isSet g = true) :
    (uc.setFlag f).isSet g = true := by
  by_cases hfg : f = g
  · rw [hfg]; exact isSet_setFlag_same uc g
  · rw [isSet_setFlag_ne uc f g hfg]; exact h

theorem supParam_not_ad (env : Env) (acc : SupAcc) (p : String) (h : p.take 2 ≠ "AD") :
    supParam env acc p = acc := by
  simp only [supParam, if_neg h]

theorem supParam_base (env : Env) (acc : SupAcc) (p : String) (h1 : p.take 2 = "AD")
    (h2 : p.drop 2 = env.FEATURE_ADC_BASE ∨ p.drop 2 = env.FEATURE_ADC_BAS0) :
    (supParam env acc p).baseOk = true ∧
    (supParam env acc p).uc = ((((acc.uc.setFlag .FLAG_SUPPORTS_ADCGET).setFlag
      .FLAG_SUPPORTS_MINISLOTS).setFlag .FLAG_SUPPORTS_TTHF).setFlag
      .FLAG_SUPPORTS_TTHL).setFlag .FLAG_SUPPORTS_XML_BZLIST := by
  simp only [supParam, if_pos h1, if_pos h2, and_self]

theorem supParam_other (env : Env) (acc : SupAcc) (p : String) (h1 : p.take 2 = "AD")
    (h2 : ¬ (p.drop 2 = env.FEATURE_ADC_BASE ∨ p.drop 2 = env.FEATURE_ADC_BAS0)) :
    (supParam env acc p).baseOk = acc.baseOk ∧
    (supParam env acc p).uc =
      if p.drop 2 = env.FEATURE_ZLIB_GET then acc.uc.setFlag .FLAG_SUPPORTS_ZLIB_GET
      else if p.drop 2 = env.FEATURE_ADC_BZIP then acc.uc.setFlag .FLAG_SUPPORTS_XML_BZLIST
      else acc.uc := by
  simp only [supParam, if_pos h1, if_neg h2]
  split_ifs <;> exact ⟨rfl, rfl⟩

theorem supParam_mono (env : Env) (acc : SupAcc) (p : String) (g : Flag)
    (h : acc.uc.isSet g = true) : (supParam env acc p).uc.isSet g = true := by
  by_cases h1 : p.take 2 = "AD"
  · by_cases h2 : p.drop 2 = env.FEATURE_ADC_BASE ∨ p.drop 2 = env.FEATURE_ADC_BAS0
    · rw [(supParam_base env acc p h1 h2).2]
      exact isSet_setFlag_mono _ _ _ (isSet_setFlag_mono _ _ _ (isSet_setFlag_mono _ _ _
        (isSet_setFlag_mono _ _ _ (isSet_setFlag_mono _ _ _ h))))
    · rw [(supParam_other env acc p h1 h2).2]
      split_ifs
      · exact isSet_setFlag_mono _ _ _ h
      · exact isSet_setFlag_mono _ _ _ h
      · exact h
  · rw [supParam_not_ad env acc p h1]
    exact h

theorem supParam_baseOk (env : Env) (acc : SupAcc) (p : String) :
    (supParam env acc p).baseOk = true ↔
      acc.baseOk = true ∨ p = "AD" ++ env.FEATURE_ADC_BASE ∨ p = "AD" ++ env.FEATURE_ADC_BAS0 := by
  rw [← ad_param_iff, ← ad_param_iff]
  by_cases h1 : p.take 2 = "AD"
  · by_cases h2 : p.drop 2 = env.FEATURE_ADC_BASE ∨ p.drop 2 = env.FEATURE_ADC_BAS0
    · rw [(supParam_base env acc p h1 h2).1]
      simp only [true_iff]
      rcases h2 with h | h
      · exact Or.inr (Or.inl ⟨h1, h⟩)
      · exact Or.inr (Or.inr ⟨h1, h⟩)
    · rw [(supParam_other env acc p h1 h2).1]
      constructor
      · intro h; exact Or.inl h
      · intro h
        rcases h with h | h | h
        · exact h
        · exact absurd (Or.inl h.2) h2
        · exact absurd (Or.inr h.2) h2
  · rw [supParam_not_ad env acc p h1]
    constructor
    · intro h; exact Or.inl h
    · intro h
      rcases h with h | h | h
      · exact h
      · exact absurd h.1 h1
      · exact absurd h.1 h1

theorem supParam_base_flags (env : Env) (acc : SupAcc) (p : String)
    (h : p = "AD" ++ env.FEATURE_ADC_BASE ∨ p = "AD" ++ env.FEATURE_ADC_BAS0) :
    (supParam env acc p).uc.isSet .FLAG_SUPPORTS_ADCGET = true ∧
    (supParam env acc p).uc.isSet .FLAG_SUPPORTS_MINISLOTS = true ∧
    (supParam env acc p).uc.isSet .FLAG_SUPPORTS_TTHF = true ∧
    (supParam env acc p).uc.isSet .FLAG_SUPPORTS_TTHL = true ∧
    (supParam env acc p).uc.isSet .FLAG_SUPPORTS_XML_BZLIST = true := by
  rw [← ad_param_iff, ← ad_param_iff] at h
  have h1 : p.take 2 = "AD" := by rcases h with h | h <;> exact h.1
  have h2 : p.drop 2 = env.FEATURE_ADC_BASE ∨ p.drop 2 = env.FEATURE_ADC_BAS0 := by
    rcases h with h | h
    · exact Or.inl h.2
    · exact Or.inr h.2
  rw [(supParam_base env acc p h1 h2).2]
  refine ⟨?_, ?_, ?_, ?_, ?_⟩
  · exact isSet_setFlag_mono _ _ _ (isSet_setFlag_mono _ _ _ (isSet_setFlag_mono _ _ _
      (isSet_setFlag_mono _ _ _ (isSet_setFlag_same _ _))))
  · exact isSet_setFlag_mono _ _ _ (isSet_setFlag_mono _ _ _ (isSet_setFlag_mono _ _ _
      (isSet_setFlag_same _ _)))
  · exact isSet_setFlag_mono _ _ _ (isSet_setFlag_mono _ _ _ (isSet_setFlag_same _ _))
  · exact isSet_setFlag_mono _ _ _ (isSet_setFlag_same _ _)
  · exact isSet_setFlag_same _ _

theorem supParam_zlib (env : Env) (acc : SupAcc) (p : String)
    (hd1 : env.FEATURE_ZLIB_GET ≠ env.FEATURE_ADC_BASE)
    (hd2 : env.FEATURE_ZLIB_GET ≠ env.FEATURE_ADC_BAS0) :
    (supParam env acc p).uc.isSet .FLAG_SUPPORTS_ZLIB_GET = true ↔
      acc.uc.isSet .FLAG_SUPPORTS_ZLIB_GET = true ∨ p = "AD" ++ env.FEATURE_ZLIB_GET := by
  rw [← ad_param_iff]
  by_cases h1 : p.take 2 = "AD"
  · by_cases h2 : p.drop 2 = env.FEATURE_ADC_BASE ∨ p.drop 2 = env.FEATURE_ADC_BAS0
    · rw [(supParam_base env acc p h1 h2).2]
      rw [isSet_setFlag_ne _ _ _ (by decide), isSet_setFlag_ne _ _ _ (by decide),
        isSet_setFlag_ne _ _ _ (by decide), isSet_setFlag_ne _ _ _ (by decide),
        isSet_setFlag_ne _ _ _ (by decide)]
      constructor
      · intro h; exact Or.inl h
      · intro h
        rcases h with h | h
        · exact h
        · rcases h2 with h3 | h3
          · exact absurd (h.2.symm.trans h3) hd1
          · exact absurd (h.2.symm.trans h3) hd2
    · rw [(supParam_other env acc p h1 h2).2]
      by_cases hz : p.drop 2 = env.FEATURE_ZLIB_GET
      · rw [if_pos hz, isSet_setFlag_same]
        simp only [true_iff]
        exact Or.inr ⟨h1, hz⟩
      · rw [if_neg hz]
        have e : (if p.drop 2 = env.FEATURE_ADC_BZIP then
            acc.uc.setFlag .FLAG_SUPPORTS_XML_BZLIST else acc.uc).isSet
              .FLAG_SUPPORTS_ZLIB_GET = acc.uc.isSet .FLAG_SUPPORTS_ZLIB_GET := by
          split_ifs
          · exact isSet_setFlag_ne _ _ _ (by decide)
          · rfl
        rw [e]
        constructor
        · intro h; exact Or.inl h
        · intro h
          rcases h with h | h
          · exact h
          · exact absurd h.2 hz
  · rw [supParam_not_ad env acc p h1]
    constructor
    · intro h; exact Or.inl h
    · intro h
      rcases h with h | h
      · exact h
      · exact absurd h.1 h1

theorem supFold_baseOk (env : Env) (params : List String) : ∀ acc : SupAcc,
    ((params.foldl (supParam env) acc).baseOk = true ↔
      acc.baseOk = true ∨
        ∃ p ∈ params, p = "AD" ++ env.FEATURE_ADC_BASE ∨ p = "AD" ++ env.FEATURE_ADC_BAS0) := by
  induction params with
  | nil => intro acc; simp
  | cons q qs ih =>
    intro acc
    rw [List.foldl_cons, ih, supParam_baseOk]
    simp only [List.mem_cons, exists_eq_or_imp]
    exact or_assoc

theorem supFold_mono (env : Env) (params : List String) (g : Flag) : ∀ acc : SupAcc,
    acc.uc.isSet g = true → (params.foldl (supParam env) acc).uc.isSet g = true := by
  induction params with
  | nil => intro acc h; exact h
  | cons q qs ih =>
    intro acc h
    rw [List.foldl_cons]
    exact ih _ (supParam_mono env acc q g h)

theorem supFold_base_flags (env : Env) (params : List String) : ∀ acc : SupAcc,
    (∃ p ∈ params, p = "AD" ++ env.FEATURE_ADC_BASE ∨ p = "AD" ++ env.FEATURE_ADC_BAS0) →
    (params.foldl (supParam env) acc).uc.isSet .FLAG_SUPPORTS_ADCGET = true ∧
    (params.foldl (supParam env) acc).uc.isSet .FLAG_SUPPORTS_MINISLOTS = true ∧
    (params.foldl (supParam env) acc).uc.isSet .FLAG_SUPPORTS_TTHF = true ∧
    (params.foldl (supParam env) acc).uc.isSet .FLAG_SUPPORTS_TTHL = true ∧
    (params.foldl (supParam env) acc).uc.isSet .FLAG_SUPPORTS_XML_BZLIST = true := by
  induction params with
  | nil => intro acc h; obtain ⟨p, hp, _⟩ := h; exact absurd hp (List.not_mem_nil p)
  | cons q qs ih =>
    intro acc h
    rw [List.foldl_cons]
    obtain ⟨p, hp, hb⟩ := h
    rcases List.mem_cons.mp hp with e | hmem
    · rw [e] at hb
      have hf := supParam_base_flags env acc q hb
      exact ⟨supFold_mono env qs _ _ hf.1, supFold_mono env qs _ _ hf.2.1,
        supFold_mono env qs _ _ hf.2.2.1, supFold_mono env qs _ _ hf.2.2.2.1,
        supFold_mono env qs _ _ hf.2.2.2.2⟩
    · exact ih _ ⟨p, hmem, hb⟩

theorem supFold_zlib (env : Env) (params : List String)
    (hd1 : env.FEATURE_ZLIB_GET ≠ env.FEATURE_ADC_BASE)
    (hd2 : env.FEATURE_ZLIB_GET ≠ env.FEATURE_ADC_BAS0) : ∀ acc : SupAcc,
    ((params.foldl (supParam env) acc).uc.isSet .FLAG_SUPPORTS_ZLIB_GET = true ↔
      acc.uc.isSet .FLAG_SUPPORTS_ZLIB_GET = true ∨ "AD" ++ env.FEATURE_ZLIB_GET ∈ params) := by
  induction params with
  | nil => intro acc; simp
  | cons q qs ih =>
    intro acc
    rw [List.foldl_cons, ih, supParam_zlib env acc q hd1 hd2]
    simp only [List.mem_cons]
    constructor
    · intro h
      rcases h with (h | h) | h
      · exact Or.inl h
      · exact Or.inr (Or.inl h.symm)
      · exact Or.inr (Or.inr h)
    · intro h
      rcases h with h | h | h
      · exact Or.inl (Or.inl h)
      · exact Or.inl (Or.inr h.symm)
      · exact Or.inr h

theorem supFold_skip (env : Env) (pre post : List String) (q : String) (h : q.take 2 ≠ "AD")
    (acc : SupAcc) :
    (pre ++ q :: post).foldl (supParam env) acc = (pre ++ post).foldl (supParam env) acc := by
  rw [List.foldl_append, List.foldl_append, List.foldl_cons, supParam_not_ad env _ q h]

theorem onSUP_eq (env : Env) (m : ConnectionManager) (aSource : Nat) (src : UserConnection)
    (params : List String) (hfind : m.findUC aSource = some src)
    (hst : src.state = .STATE_SUPNICK) :
    onSUP env m aSource params =
      if (params.foldl (supParam env) ⟨false, false, src⟩).baseOk = false then
        (m.storeUC (params.foldl (supParam env) ⟨false, false, src⟩).uc,
          [Effect.sendFatal aSource .ERROR_PROTOCOL_GENERIC "Invalid SUP" [],
           Effect.ucDisconnect aSource false])
      else if (params.foldl (supParam env) ⟨false, false, src⟩).uc.isSet .FLAG_INCOMING then
        (m.storeUC ((params.foldl (supParam env) ⟨false, false, src⟩).uc.setState .STATE_INF),
          [Effect.sendSup aSource (defAdcFeatures env), Effect.sendInf aSource false])
      else
        (m.storeUC ((params.foldl (supParam env) ⟨false, false, src⟩).uc.setState .STATE_INF),
          [Effect.sendInf aSource true]) := by
  simp only [onSUP, hfind, hst, ne_eq, not_true_eq_false, if_false]

/-- C14 (ADC SUP acceptance): for a connection in STATE_SUPNICK the `SUP` handler
moves it to STATE_INF exactly when some parameter is `AD` followed by the BASE or
the BAS0 feature name, and then the flags SUPPORTS_ADCGET, MINISLOTS, TTHF, TTHL
and XML_BZLIST are set on it; otherwise the state stays STATE_SUPNICK and the
handler sends the fatal `ERROR_PROTOCOL_GENERIC` and disconnects. A parameter
that does not start with `AD` can be removed without changing the outcome. With
the ZLIB_GET feature name different from the two base names, the flag
SUPPORTS_ZLIB_GET is set afterwards exactly when it was set before or the
ZLIB_GET feature is among the `AD` parameters. -/
theorem sup_acceptance (env : Env) (m : ConnectionManager) (aSource : Nat)
    (src : UserConnection) (params : List String)
    (hfind : m.findUC aSource = some src) (hst : src.state = .STATE_SUPNICK) :
    (∃ uc, (onSUP env m aSource params).1.findUC aSource = some uc ∧
      (uc.state = .STATE_INF ↔
        ∃ p ∈ params, p = "AD" ++ env.FEATURE_ADC_BASE ∨ p = "AD" ++ env.FEATURE_ADC_BAS0) ∧
      ((∃ p ∈ params, p = "AD" ++ env.FEATURE_ADC_BASE ∨ p = "AD" ++ env.FEATURE_ADC_BAS0) →
        uc.isSet .FLAG_SUPPORTS_ADCGET = true ∧ uc.isSet .FLAG_SUPPORTS_MINISLOTS = true ∧
        uc.isSet .FLAG_SUPPORTS_TTHF = true ∧ uc.isSet .FLAG_SUPPORTS_TTHL = true ∧
        uc.isSet .FLAG_SUPPORTS_XML_BZLIST = true) ∧
      ((¬ ∃ p ∈ params, p = "AD" ++ env.FEATURE_ADC_BASE ∨ p = "AD" ++ env.FEATURE_ADC_BAS0) →
        uc.state = .STATE_SUPNICK ∧
        (onSUP env m aSource params).2 =
          [Effect.sendFatal aSource .ERROR_PROTOCOL_GENERIC "Invalid SUP" [],
           Effect.ucDisconnect aSource false]) ∧
      (env.FEATURE_ZLIB_GET ≠ env.FEATURE_ADC_BASE → env.FEATURE_ZLIB_GET ≠ env.FEATURE_ADC_BAS0 →
        (uc.isSet .FLAG_SUPPORTS_ZLIB_GET = true ↔
          src.isSet .FLAG_SUPPORTS_ZLIB_GET = true ∨ "AD" ++ env.FEATURE_ZLIB_GET ∈ params))) ∧
    (∀ (pre post : List String) (q : String), params = pre ++ q :: post →
      (∀ rest : String, q ≠ "AD" ++ rest) →
      onSUP env m aSource params = onSUP env m aSource (pre ++ post)) := by
  have hptr : src.ptr = aSource := (findUC_some m aSource src hfind).1
  have hview := supFold_view env params ⟨false, false, src⟩
  have hfptr : (params.foldl (supParam env) ⟨false, false, src⟩).uc.ptr = aSource := by
    rw [← hptr]; exact congrArg CView.ptr hview
  have hfst : (params.foldl (supParam env) ⟨false, false, src⟩).uc.state = .STATE_SUPNICK := by
    rw [← hst]; exact congrArg CView.state hview
  have hbase := supFold_baseOk env params ⟨false, false, src⟩
  simp only [Bool.false_eq_true, false_or] at hbase
  constructor
  · rw [onSUP_eq env m aSource src params hfind hst]
    by_cases hb : (params.foldl (supParam env) ⟨false, false, src⟩).baseOk = true
    · have hex := hbase.mp hb
      have hflags := supFold_base_flags env params ⟨false, false, src⟩ hex
      refine ⟨(params.foldl (supParam env) ⟨false, false, src⟩).uc.setState .STATE_INF, ?_,
        ?_, ?_, ?_, ?_⟩
      · rw [if_neg (by simp [hb])]
        split_ifs <;> exact findUC_storeUC m aSource src _ hfind hfptr
      · exact ⟨fun _ => hex, fun _ => rfl⟩
      · intro _; exact hflags
      · intro hn; exact absurd hex hn
      · intro hd1 hd2
        rw [isSet_setState, supFold_zlib env params hd1 hd2]
    · have hex : ¬ ∃ p ∈ params, p = "AD" ++ env.FEATURE_ADC_BASE ∨
          p = "AD" ++ env.FEATURE_ADC_BAS0 := fun h => hb (hbase.mpr h)
      have hbf : (params.foldl (supParam env) ⟨false, false, src⟩).baseOk = false := by
        simpa using hb
      refine ⟨(params.foldl (supParam env) ⟨false, false, src⟩).uc, ?_, ?_, ?_, ?_, ?_⟩
      · rw [if_pos hbf]
        exact findUC_storeUC m aSource src _ hfind hfptr
      · constructor
        · intro h; rw [hfst] at h; exact absurd h (by decide)
        · intro h; exact absurd h hex
      · intro h; exact absurd h hex
      · intro _
        rw [if_pos hbf]
        exact ⟨hfst, rfl⟩
      · intro hd1 hd2
        rw [supFold_zlib env params hd1 hd2]
  · intro pre post q hp hq
    have hq2 : q.take 2 ≠ "AD" := fun h =>
      hq (q.drop 2) ((ad_param_iff q (q.drop 2)).mp ⟨h, rfl⟩)
    rw [onSUP_eq env m aSource src params hfind hst,
      onSUP_eq env m aSource src (pre ++ post) hfind hst, hp, supFold_skip env pre post q hq2]

/-- Witness for C14: the incoming connection of `exampleAccepted` receives
`SUP ADBASE ADZLIG` and is in STATE_INF afterwards. -/
theorem sup_acceptance_witness :
    exampleAccepted.findUC 1 = some exampleIncoming ∧
    exampleIncoming.state = .STATE_SUPNICK ∧
    ∃ uc, (onSUP exampleEnv exampleAccepted 1 ["ADBASE", "ADZLIG"]).1.findUC 1 = some uc ∧
      uc.state = .STATE_INF :=
  ⟨by decide, rfl,
    (sup_acceptance exampleEnv exampleAccepted 1 exampleIncoming ["ADBASE", "ADZLIG"]
      (by decide) rfl).1.elim
      (fun uc h => ⟨uc, h.1, h.2.1.mpr ⟨"ADBASE", by decide, Or.inl (by decide)⟩⟩)⟩

/-! ## The INF handler -/

theorem onINF_no_id (env : Env) (m : ConnectionManager) (aSource : Nat) (src : UserConnection)
    (params : List String) (hfind : m.findUC aSource = some src) (hst : src.state = .STATE_INF)
    (hid : getParam params "ID" = none) :
    onINF env m aSource params =
      (m, [Effect.sendFatal aSource .ERROR_INF_MISSING "ID missing" [("FL", "ID")],
           Effect.ucDisconnect aSource false]) := by
  simp only [onINF, hfind, hst, hid, ne_eq, not_true_eq_false, if_false]

theorem onINF_id (env : Env) (m : ConnectionManager) (aSource : Nat) (src : UserConnection)
    (params : List String) (cid : String) (hfind : m.findUC aSource = some src)
    (hst : src.state = .STATE_INF) (hid : getParam params "ID" = some cid) :
    onINF env m aSource params =
      if env.findUser (env.cidOfString cid) = none then
        ((putConnection m aSource).1,
          Effect.sendFatal aSource .ERROR_GENERIC "User not found" [] :: (putConnection m aSource).2)
      else if checkKeyprint env (env.keyprint aSource)
          (env.getFieldKP (env.findUser (env.cidOfString cid)) src.hubUrl) = false then
        putConnection m aSource
      else if src.isSet .FLAG_INCOMING then
        match getParam params "TO" with
        | none =>
          ((putConnection m aSource).1,
            Effect.sendFatal aSource .ERROR_GENERIC "TO missing" [] :: (putConnection m aSource).2)
        | some token => infRole env m (src.setUser (env.findUser (env.cidOfString cid))) token
      else infRole env m (src.setUser (env.findUser (env.cidOfString cid))) src.token := by
  simp only [onINF, hfind, hst, hid, ne_eq, not_true_eq_false, if_false]
  rfl

/-- C15 (ADC INF rejection leaves the queues untouched): for a connection in
STATE_INF, an `INF` without an `ID` parameter is answered with the fatal
`ERROR_INF_MISSING` carrying `FL=ID` and a disconnect, and the manager state is
as before. In the other rejection cases (no user for the CID, keyprint check
failed, incoming connection without `TO`) `downloads` and `uploads` are as before
and the connection is erased from `userConnections`, every other connection
being as before; so no role flag is set on any connection. -/
theorem inf_rejection (env : Env) (m : ConnectionManager) (aSource : Nat) (src : UserConnection)
    (params : List String) (hfind : m.findUC aSource = some src)
    (hst : src.state = .STATE_INF) :
    (getParam params "ID" = none →
      (onINF env m aSource params).2 =
        [Effect.sendFatal aSource .ERROR_INF_MISSING "ID missing" [("FL", "ID")],
         Effect.ucDisconnect aSource false] ∧
      (onINF env m aSource params).1 = m) ∧
    (∀ cid, getParam params "ID" = some cid →
      (env.findUser (env.cidOfString cid) = none ∨
       checkKeyprint env (env.keyprint aSource)
         (env.getFieldKP (env.findUser (env.cidOfString cid)) src.hubUrl) = false ∨
       (src.isSet .FLAG_INCOMING = true ∧ getParam params "TO" = none)) →
      (onINF env m aSource params).1.downloads = m.downloads ∧
      (onINF env m aSource params).1.uploads = m.uploads ∧
      (onINF env m aSource params).1.userConnections =
        m.userConnections.filter (fun x => decide (x.ptr ≠ aSource))) := by
  constructor
  · intro hid
    rw [onINF_no_id env m aSource src params hfind hst hid]
    exact ⟨rfl, rfl⟩
  · intro cid hid hrej
    rw [onINF_id env m aSource src params cid hfind hst hid]
    by_cases h1 : env.findUser (env.cidOfString cid) = none
    · rw [if_pos h1]
      exact ⟨rfl, rfl, rfl⟩
    · rw [if_neg h1]
      by_cases h2 : checkKeyprint env (env.keyprint aSource)
          (env.getFieldKP (env.findUser (env.cidOfString cid)) src.hubUrl) = false
      · rw [if_pos h2]
        exact ⟨rfl, rfl, rfl⟩
      · rw [if_neg h2]
        rcases hrej with h | h | h
        · exact absurd h h1
        · exact absurd h h2
        · rw [if_pos h.1, h.2]
          exact ⟨rfl, rfl, rfl⟩

/-- Witness for C15: the connection of `exampleInf` sends `INF` with no
parameter. -/
theorem inf_rejection_witness :
    getParam [] "ID" = none ∧
    (onINF exampleEnv exampleInf 1 []).2 =
      [Effect.sendFatal 1 .ERROR_INF_MISSING "ID missing" [("FL", "ID")],
       Effect.ucDisconnect 1 false] ∧
    (onINF exampleEnv exampleInf 1 []).1 = exampleInf :=
  ⟨rfl, (inf_rejection exampleEnv exampleInf 1 exampleInfConnection [] (by decide) rfl).1 rfl⟩

theorem findCQI_modifyCQI (u : UserPtr) (f : ConnectionQueueItem → ConnectionQueueItem)
    (hf : ∀ c, (f c).user = c.user) (l : List ConnectionQueueItem) :
    findCQI (modifyCQI u f l) u = (findCQI l u).map f := by
  induction l with
  | nil => rfl
  | cons x xs ih =>
    unfold findCQI at ih ⊢
    by_cases hx : x.user.user = u
    · simp only [modifyCQI, if_pos hx]
      rw [List.find?_cons_of_pos _ (by simp [hf, hx]), List.find?_cons_of_pos _ (by simp [hx])]
      rfl
    · simp only [modifyCQI, if_neg hx]
      rw [List.find?_cons_of_neg _ (by simp [hx]), List.find?_cons_of_neg _ (by simp [hx])]
      exact ih

theorem infResetErrors_split (m : ConnectionManager) (u : UserPtr) (cqi : ConnectionQueueItem)
    (h : findCQI m.downloads u = some cqi) :
    ∃ pre post, m.downloads = pre ++ cqi :: post ∧
      (infResetErrors m u).downloads = pre ++ { cqi with errors := 0 } :: post := by
  obtain ⟨hu, pre, post, hsplit, hpre⟩ := findCQI_some_split m.downloads u cqi h
  refine ⟨pre, post, hsplit, ?_⟩
  show modifyCQI u _ m.downloads = _
  rw [hsplit]
  exact modifyCQI_first u _ pre cqi post hu hpre

theorem infResetErrors_none (m : ConnectionManager) (u : UserPtr)
    (h : findCQI m.downloads u = none) : infResetErrors m u = m := by
  unfold infResetErrors
  rw [modifyCQI_none u _ m.downloads h]

theorem infRole_eq (env : Env) (m : ConnectionManager) (uc : UserConnection) (token : String) :
    infRole env m uc token =
      match findCQI m.downloads uc.user with
      | some cqi =>
        if cqi.token = token then
          addDownloadConnection env (infResetErrors m uc.user) (uc.setFlag .FLAG_DOWNLOAD)
        else addUploadConnection env (infResetErrors m uc.user) (uc.setFlag .FLAG_UPLOAD)
      | none => addUploadConnection env (infResetErrors m uc.user) (uc.setFlag .FLAG_UPLOAD) := by
  unfold infRole
  cases h : findCQI m.downloads uc.user with
  | none => simp only [infResetErrors_none m uc.user h]
  | some cqi => rfl

theorem addUploadConnection_downloads (env : Env) (m : ConnectionManager) (uc : UserConnection) :
    (addUploadConnection env m uc).1.downloads = m.downloads := by
  unfold addUploadConnection
  cases findCQI m.uploads uc.user <;> rfl

theorem addDownloadConnection_errors (env : Env) (m : ConnectionManager) (uc : UserConnection)
    (c : ConnectionQueueItem) (h : findCQI m.downloads uc.user = some c) :
    ∃ c2, findCQI (addDownloadConnection env m uc).1.downloads uc.user = some c2 ∧
      c2.errors = c.errors := by
  unfold addDownloadConnection
  rw [h]
  by_cases hs : c.state = .WAITING ∨ c.state = .CONNECTING
  · simp only [if_pos hs]
    refine ⟨{ c with state := .ACTIVE }, ?_, rfl⟩
    show findCQI (modifyCQI uc.user _ m.downloads) uc.user = _
    rw [findCQI_modifyCQI uc.user (fun c => { c with state := .ACTIVE }) (fun _ => rfl), h]
    rfl
  · simp only [if_neg hs]
    exact ⟨c, h, rfl⟩

/-- C16, as stated, fails: in `exampleInfQueue` the only download item belongs to
user 7, has token `token` and `errors = 1`. The incoming connection sends a valid
`INF` for user 7 with `TO` `wrong`, which is the token of no item. The connection
becomes an upload connection, and yet `downloads` is not what it was, because
the item of user 7 had its `errors` reset. -/
theorem inf_role_counterexample :
    exampleInfQueue.findUC 1 = some exampleInfConnection ∧
    exampleInfConnection.state = .STATE_INF ∧
    exampleInfConnection.isSet .FLAG_INCOMING = true ∧
    getParam ["IDabcdefg", "TOwrong"] "ID" = some "abcdefg" ∧
    exampleEnv.findUser (exampleEnv.cidOfString "abcdefg") = some 7 ∧
    checkKeyprint exampleEnv (exampleEnv.keyprint 1)
      (exampleEnv.getFieldKP (some 7) exampleInfConnection.hubUrl) = true ∧
    getParam ["IDabcdefg", "TOwrong"] "TO" = some "wrong" ∧
    (∀ c ∈ exampleInfQueue.downloads, c.token ≠ "wrong") ∧
    exampleInfQueue.downloads.map (fun c => c.errors) = [1] ∧
    ((onINF exampleEnv exampleInfQueue 1 ["IDabcdefg", "TOwrong"]).1.userConnections.map
      (fun x => (x.isSet .FLAG_DOWNLOAD, x.isSet .FLAG_UPLOAD))) = [(false, true)] ∧
    (onINF exampleEnv exampleInfQueue 1 ["IDabcdefg", "TOwrong"]).1.downloads.map
      (fun c => c.errors) = [0] ∧
    (onINF exampleEnv exampleInfQueue 1 ["IDabcdefg", "TOwrong"]).1.downloads ≠
      exampleInfQueue.downloads := by
  refine ⟨by decide, rfl, rfl, by decide, rfl, by decide, by decide, by decide, by decide,
    by decide, by decide, by decide⟩

theorem onINF_valid (env : Env) (m : ConnectionManager) (aSource : Nat) (src : UserConnection)
    (params : List String) (cid : String) (u : CID) (t : String)
    (hfind : m.findUC aSource = some src) (hst : src.state = .STATE_INF)
    (hid : getParam params "ID" = some cid)
    (hu : env.findUser (env.cidOfString cid) = some u)
    (hkp : checkKeyprint env (env.keyprint aSource) (env.getFieldKP (some u) src.hubUrl) = true)
    (ht : if src.isSet .FLAG_INCOMING = true then getParam params "TO" = some t
      else t = src.token) :
    onINF env m aSource params = infRole env m (src.setUser (some u)) t := by
  rw [onINF_id env m aSource src params cid hfind hst hid, hu,
    if_neg (by simp), if_neg (by simp [hkp])]
  by_cases hin : src.isSet .FLAG_INCOMING = true
  · rw [if_pos hin] at ht
    rw [if_pos hin, ht]
  · rw [if_neg hin] at ht
    rw [if_neg hin, ht]

/-- C16, amended (ADC role determination): for an `INF` that passes validation,
with `u` the resolved user and `t` the token that applies (the `TO` parameter on
an incoming connection, the token of the connection otherwise), the handler
first resets `errors` of the first download item of `u` to 0, whether or not its
token is `t` (`infResetErrors`; the state is as before when `u` has no item).
Then the connection gets FLAG_DOWNLOAD and goes to `addDownloadConnection`
exactly when that item exists and its token is `t`; otherwise it gets
FLAG_UPLOAD and goes to `addUploadConnection`, and `downloads` is left as the
reset made it. In both cases the item of `u`, when there is one, has
`errors = 0` afterwards. -/
theorem inf_role_determination (env : Env) (m : ConnectionManager) (aSource : Nat)
    (src : UserConnection) (params : List String) (cid : String) (u : CID) (t : String)
    (hfind : m.findUC aSource = some src) (hst : src.state = .STATE_INF)
    (hid : getParam params "ID" = some cid)
    (hu : env.findUser (env.cidOfString cid) = some u)
    (hkp : checkKeyprint env (env.keyprint aSource) (env.getFieldKP (some u) src.hubUrl) = true)
    (ht : if src.isSet .FLAG_INCOMING = true then getParam params "TO" = some t
      else t = src.token) :
    ((∃ cqi, findCQI m.downloads (some u) = some cqi ∧ cqi.token = t) →
      onINF env m aSource params =
        addDownloadConnection env (infResetErrors m (some u))
          ((src.setUser (some u)).setFlag .FLAG_DOWNLOAD)) ∧
    ((¬ ∃ cqi, findCQI m.downloads (some u) = some cqi ∧ cqi.token = t) →
      onINF env m aSource params =
        addUploadConnection env (infResetErrors m (some u))
          ((src.setUser (some u)).setFlag .FLAG_UPLOAD) ∧
      (onINF env m aSource params).1.downloads = (infResetErrors m (some u)).downloads) ∧
    (∀ cqi, findCQI m.downloads (some u) = some cqi →
      (∃ pre post, m.downloads = pre ++ cqi :: post ∧
        (infResetErrors m (some u)).downloads = pre ++ { cqi with errors := 0 } :: post) ∧
      ∃ c2, findCQI (onINF env m aSource params).1.downloads (some u) = some c2 ∧
        c2.errors = 0) ∧
    (findCQI m.downloads (some u) = none → infResetErrors m (some u) = m) := by
  have hv := onINF_valid env m aSource src params cid u t hfind hst hid hu hkp ht
  have hrole := infRole_eq env m (src.setUser (some u)) t
  have huser : (src.setUser (some u)).user = some u := rfl
  rw [huser] at hrole
  rw [hv, hrole]
  refine ⟨?_, ?_, ?_, infResetErrors_none m (some u)⟩
  · rintro ⟨cqi, hc, htok⟩
    simp only [hc, if_pos htok]
  · intro hno
    cases hc : findCQI m.downloads (some u) with
    | none =>
      simp only
      exact ⟨trivial, addUploadConnection_downloads _ _ _⟩
    | some cqi =>
      have htok : cqi.token ≠ t := fun h => hno ⟨cqi, hc, h⟩
      simp only [if_neg htok]
      exact ⟨trivial, addUploadConnection_downloads _ _ _⟩
  · intro cqi hc
    refine ⟨infResetErrors_split m (some u) cqi hc, ?_⟩
    have hreset : findCQI (infResetErrors m (some u)).downloads (some u) =
        some { cqi with errors := 0 } := by
      show findCQI (modifyCQI (some u) _ m.downloads) (some u) = _
      rw [findCQI_modifyCQI (some u) (fun c => { c with errors := 0 }) (fun _ => rfl), hc]
      rfl
    simp only [hc]
    by_cases htok : cqi.token = t
    · rw [if_pos htok]
      obtain ⟨c2, h1, h2⟩ := addDownloadConnection_errors env (infResetErrors m (some u))
        ((src.setUser (some u)).setFlag .FLAG_DOWNLOAD) _ hreset
      exact ⟨c2, h1, h2⟩
    · rw [if_neg htok, addUploadConnection_downloads]
      exact ⟨_, hreset, rfl⟩

/-- Witness for C16: in `exampleInfQueue` the incoming connection sends a valid
`INF` for user 7 with the token of the download item; it is dispatched as a
download connection. -/
theorem inf_role_determination_witness :
    exampleInfQueue.findUC 1 = some exampleInfConnection ∧
    (∃ cqi, findCQI exampleInfQueue.downloads (some 7) = some cqi ∧ cqi.token = "token") ∧
    onINF exampleEnv exampleInfQueue 1 ["IDabcdefg", "TOtoken"] =
      addDownloadConnection exampleEnv (infResetErrors exampleInfQueue (some 7))
        ((exampleInfConnection.setUser (some 7)).setFlag .FLAG_DOWNLOAD) :=
  ⟨by decide, ⟨⟨2, ⟨some 7, "hub"⟩, "token", true, .WAITING, 100, 1⟩, by decide, rfl⟩,
    (inf_role_determination exampleEnv exampleInfQueue 1 exampleInfConnection
      ["IDabcdefg", "TOtoken"] "abcdefg" 7 "token" (by decide) rfl (by decide) rfl (by decide)
      (by decide)).1
      ⟨⟨2, ⟨some 7, "hub"⟩, "token", true, .WAITING, 100, 1⟩, by decide, rfl⟩⟩

/-! ## Role dispatch -/

theorem findCQI_none_iff (l : List ConnectionQueueItem) (u : UserPtr) :
    findCQI l u = none ↔ ∀ c ∈ l, c.user.user ≠ u := by
  unfold findCQI
  rw [List.find?_eq_none]
  constructor
  · intro h c hc; simpa using h c hc
  · intro h c hc; simpa using h c hc

theorem storeUC_map_ptr (m : ConnectionManager) (uc : UserConnection) :
    (m.storeUC uc).userConnections.map (fun x => x.ptr) =
      m.userConnections.map (fun x => x.ptr) := by
  simp only [storeUC, List.map_map]
  apply List.map_congr_left
  intro x _
  simp only [Function.comp]
  split_ifs with h
  · exact h.symm
  · rfl

theorem state_not_waiting_connecting (s : ConnectionQueueItem.State) :
    ¬ (s = .WAITING ∨ s = .CONNECTING) ↔ (s = .ACTIVE ∨ s = .NO_DOWNLOAD_SLOTS) := by
  cases s <;> simp

/-- C17 (`addDownloadConnection`): `uc` is a connection of the manager. If the
download item of its user (the one `find` returns) is WAITING or CONNECTING, that
item becomes ACTIVE and nothing else changes in the queues, the connection stays
in `userConnections` (same addresses as before) with FLAG_ASSOCIATED added and
every other flag and its user as they were, and it is handed to the download
manager. If the user has no download item, or the item is ACTIVE or
NO_DOWNLOAD_SLOTS, both queues are as before, the connection is erased from
`userConnections` with every other connection as before, and the only call is
the disconnect. -/
theorem addDownloadConnection_outcome (env : Env) (m : ConnectionManager)
    (uc uc0 : UserConnection) (huc : m.findUC uc.ptr = some uc0) :
    (∀ cqi, findCQI m.downloads uc.user = some cqi →
      (cqi.state = .WAITING ∨ cqi.state = .CONNECTING) →
      (∃ pre post, m.downloads = pre ++ cqi :: post ∧
        (addDownloadConnection env m uc).1.downloads =
          pre ++ { cqi with state := .ACTIVE } :: post) ∧
      (addDownloadConnection env m uc).1.uploads = m.uploads ∧
      (∃ uc2, (addDownloadConnection env m uc).1.findUC uc.ptr = some uc2 ∧
        uc2.isSet .FLAG_ASSOCIATED = true ∧ uc2.user = uc.user ∧
        ∀ f, f ≠ .FLAG_ASSOCIATED → uc2.isSet f = uc.isSet f) ∧
      (addDownloadConnection env m uc).1.userConnections.map (fun x => x.ptr) =
        m.userConnections.map (fun x => x.ptr) ∧
      Effect.downloadAddConnection uc.ptr ∈ (addDownloadConnection env m uc).2) ∧
    ((∀ cqi, findCQI m.downloads uc.user = some cqi →
        cqi.state = .ACTIVE ∨ cqi.state = .NO_DOWNLOAD_SLOTS) →
      (addDownloadConnection env m uc).1.downloads = m.downloads ∧
      (addDownloadConnection env m uc).1.uploads = m.uploads ∧
      (addDownloadConnection env m uc).1.userConnections =
        m.userConnections.filter (fun x => decide (x.ptr ≠ uc.ptr)) ∧
      (addDownloadConnection env m uc).1.findUC uc.ptr = none ∧
      (addDownloadConnection env m uc).2 = [Effect.ucDisconnect uc.ptr true]) := by
  constructor
  · intro cqi hc hs
    obtain ⟨hu, pre, post, hsplit, hpre⟩ := findCQI_some_split m.downloads uc.user cqi hc
    have e1 : (addDownloadConnection env m uc).1.downloads =
        modifyCQI uc.user (fun c => { c with state := .ACTIVE }) m.downloads := by
      simp only [addDownloadConnection, hc, if_pos hs]
      rfl
    have e2 : (addDownloadConnection env m uc).1.uploads = m.uploads := by
      simp only [addDownloadConnection, hc, if_pos hs]
      rfl
    have e3 : (addDownloadConnection env m uc).1.userConnections =
        m.userConnections.map (fun x => if x.ptr = (handOver (uc.setFlag .FLAG_ASSOCIATED)).ptr
          then handOver (uc.setFlag .FLAG_ASSOCIATED) else x) := by
      simp only [addDownloadConnection, hc, if_pos hs]
      rfl
    have e4 : (addDownloadConnection env m uc).2 = Effect.downloadAddConnection uc.ptr ::
        store_last_ip env uc { cqi with state := .ACTIVE } := by
      simp only [addDownloadConnection, hc, if_pos hs]
    refine ⟨⟨pre, post, hsplit, ?_⟩, e2, ⟨handOver (uc.setFlag .FLAG_ASSOCIATED), ?_, ?_, rfl, ?_⟩,
      ?_, ?_⟩
    · rw [e1, hsplit]
      exact modifyCQI_first uc.user _ pre cqi post hu hpre
    · unfold findUC
      rw [e3]
      exact find_map_store m.userConnections (handOver (uc.setFlag .FLAG_ASSOCIATED)) uc0 huc
    · exact isSet_setFlag_same uc .FLAG_ASSOCIATED
    · intro f hf
      exact isSet_setFlag_ne uc .FLAG_ASSOCIATED f (fun h => hf h.symm)
    · rw [e3]
      exact storeUC_map_ptr m (handOver (uc.setFlag .FLAG_ASSOCIATED))
    · rw [e4]
      exact List.mem_cons_self _ _
  · intro hno
    have e : addDownloadConnection env m uc = putConnection m uc.ptr := by
      unfold addDownloadConnection
      cases hc : findCQI m.downloads uc.user with
      | none => rfl
      | some cqi =>
        have hs := (state_not_waiting_connecting cqi.state).mpr (hno cqi hc)
        simp only [if_neg hs]
    rw [e]
    exact ⟨rfl, rfl, rfl, findUC_putConnection m uc.ptr, rfl⟩

/-- Witness for C17: the connection of `exampleKeyDownload` is dispatched; the
WAITING item of user 7 becomes ACTIVE. -/
theorem addDownloadConnection_outcome_witness :
    exampleKeyDownload.findUC 2 = some exampleKeyDownloadConnection ∧
    findCQI exampleKeyDownload.downloads (some 7) =
      some ⟨1, ⟨some 7, "hub"⟩, "token", true, .WAITING, 0, 0⟩ ∧
    ∃ pre post, exampleKeyDownload.downloads =
        pre ++ ⟨1, ⟨some 7, "hub"⟩, "token", true, .WAITING, 0, 0⟩ :: post ∧
      (addDownloadConnection exampleEnv exampleKeyDownload exampleKeyDownloadConnection).1.downloads =
        pre ++ ⟨1, ⟨some 7, "hub"⟩, "token", true, .ACTIVE, 0, 0⟩ :: post :=
  ⟨by decide, by decide,
    ((addDownloadConnection_outcome exampleEnv exampleKeyDownload exampleKeyDownloadConnection
      exampleKeyDownloadConnection (by decide)).1
      ⟨1, ⟨some 7, "hub"⟩, "token", true, .WAITING, 0, 0⟩ (by decide) (Or.inl rfl)).1⟩

/-- C18 (`addUploadConnection`): `uc` is a connection of the manager. If
`uploads` holds no item of its user, exactly one item is appended to `uploads`:
a new upload item of that user in state ACTIVE; the connection stays in
`userConnections` (same addresses as before) with FLAG_ASSOCIATED added and
every other flag and its user as they were, and it is handed to the upload
manager. If `uploads` holds an item of that user, `uploads` is as before and the
connection is erased from `userConnections`, every other connection being as
before. `downloads` is as before in both cases. -/
theorem addUploadConnection_outcome (env : Env) (m : ConnectionManager)
    (uc uc0 : UserConnection) (huc : m.findUC uc.ptr = some uc0) :
    ((∀ c ∈ m.uploads, c.user.user ≠ uc.user) →
      (∃ cqi : ConnectionQueueItem,
        (addUploadConnection env m uc).1.uploads = m.uploads ++ [cqi] ∧
        cqi.user.user = uc.user ∧ cqi.state = .ACTIVE ∧ cqi.download = false ∧
        cqi.ptr = m.nextPtr) ∧
      (∃ uc2, (addUploadConnection env m uc).1.findUC uc.ptr = some uc2 ∧
        uc2.isSet .FLAG_ASSOCIATED = true ∧ uc2.user = uc.user ∧
        ∀ f, f ≠ .FLAG_ASSOCIATED → uc2.isSet f = uc.isSet f) ∧
      (addUploadConnection env m uc).1.userConnections.map (fun x => x.ptr) =
        m.userConnections.map (fun x => x.ptr) ∧
      Effect.uploadAddConnection uc.ptr ∈ (addUploadConnection env m uc).2 ∧
      (addUploadConnection env m uc).1.downloads = m.downloads) ∧
    ((∃ c ∈ m.uploads, c.user.user = uc.user) →
      (addUploadConnection env m uc).1.uploads = m.uploads ∧
      (addUploadConnection env m uc).1.userConnections =
        m.userConnections.filter (fun x => decide (x.ptr ≠ uc.ptr)) ∧
      (addUploadConnection env m uc).1.findUC uc.ptr = none ∧
      (addUploadConnection env m uc).1.downloads = m.downloads) := by
  constructor
  · intro hno
    have hc : findCQI m.uploads uc.user = none := (findCQI_none_iff _ _).mpr hno
    have e1 : (addUploadConnection env m uc).1.uploads =
        m.uploads ++ [{ newCQI env m.nextPtr uc.getHintedUser false with state := .ACTIVE }] := by
      simp only [addUploadConnection, hc]
      rfl
    have e3 : (addUploadConnection env m uc).1.userConnections =
        m.userConnections.map (fun x => if x.ptr = (handOver (uc.setFlag .FLAG_ASSOCIATED)).ptr
          then handOver (uc.setFlag .FLAG_ASSOCIATED) else x) := by
      simp only [addUploadConnection, hc]
      rfl
    have e4 : Effect.uploadAddConnection uc.ptr ∈ (addUploadConnection env m uc).2 := by
      simp only [addUploadConnection, hc, getCQI]
      simp
    refine ⟨⟨_, e1, rfl, rfl, rfl, rfl⟩, ⟨handOver (uc.setFlag .FLAG_ASSOCIATED), ?_, ?_, rfl, ?_⟩,
      ?_, e4, addUploadConnection_downloads env m uc⟩
    · unfold findUC
      rw [e3]
      exact find_map_store m.userConnections (handOver (uc.setFlag .FLAG_ASSOCIATED)) uc0 huc
    · exact isSet_setFlag_same uc .FLAG_ASSOCIATED
    · intro f hf
      exact isSet_setFlag_ne uc .FLAG_ASSOCIATED f (fun h => hf h.symm)
    · rw [e3]
      exact storeUC_map_ptr m (handOver (uc.setFlag .FLAG_ASSOCIATED))
  · intro hex
    have e : addUploadConnection env m uc = putConnection m uc.ptr := by
      unfold addUploadConnection
      cases hc : findCQI m.uploads uc.user with
      | none =>
        obtain ⟨c, hcm, hcu⟩ := hex
        exact absurd hcu ((findCQI_none_iff _ _).mp hc c hcm)
      | some cqi => rfl
    rw [e]
    exact ⟨rfl, rfl, findUC_putConnection m uc.ptr, rfl⟩

/-- Witness for C18: the connection of `exampleKeyUpload` is dispatched; an
ACTIVE upload item of user 7 is appended. -/
theorem addUploadConnection_outcome_witness :
    exampleKeyUpload.findUC 1 = some exampleKeyUploadConnection ∧
    (∀ c ∈ exampleKeyUpload.uploads, c.user.user ≠ exampleKeyUploadConnection.user) ∧
    ∃ cqi : ConnectionQueueItem,
      (addUploadConnection exampleEnv exampleKeyUpload exampleKeyUploadConnection).1.uploads =
        exampleKeyUpload.uploads ++ [cqi] ∧
      cqi.user.user = exampleKeyUploadConnection.user ∧ cqi.state = .ACTIVE ∧
      cqi.download = false ∧ cqi.ptr = exampleKeyUpload.nextPtr :=
  ⟨by decide, by decide,
    ((addUploadConnection_outcome exampleEnv exampleKeyUpload exampleKeyUploadConnection
      exampleKeyUploadConnection (by decide)).1 (by decide)).1⟩

/-! ## The failure handler -/

/-- C19 (failure handler): `Failed` or `ProtocolError` fires at time `now` on a
connection of the manager. In every case the connection is erased from
`userConnections`, every other connection being as before. If it has
FLAG_ASSOCIATED and FLAG_DOWNLOAD, the download item of its user gets state
WAITING, `lastAttempt = now` and `errors = -1` on a protocol error, `errors + 1`
otherwise, and nothing else changes in the queues. If it has FLAG_ASSOCIATED and
FLAG_UPLOAD and not FLAG_DOWNLOAD, the upload item of its user is erased from
`uploads` and `downloads` is as before. If it lacks FLAG_ASSOCIATED both queues
are as before. -/
theorem failure_handler (m : ConnectionManager) (aSource : Nat) (src : UserConnection)
    (aError : String) (protocolError : Bool) (now : Nat)
    (hfind : m.findUC aSource = some src) :
    (failed m aSource aError protocolError now).1.userConnections =
      m.userConnections.filter (fun x => decide (x.ptr ≠ aSource)) ∧
    (failed m aSource aError protocolError now).1.findUC aSource = none ∧
    (src.isSet .FLAG_ASSOCIATED = true → src.isSet .FLAG_DOWNLOAD = true →
      ∀ cqi, findCQI m.downloads src.user = some cqi →
        (∃ pre post, m.downloads = pre ++ cqi :: post ∧
          (failed m aSource aError protocolError now).1.downloads =
            pre ++ { cqi with state := .WAITING, lastAttempt := now,
                              errors := if protocolError then -1 else cqi.errors + 1 } :: post) ∧
        (failed m aSource aError protocolError now).1.uploads = m.uploads) ∧
    (src.isSet .FLAG_ASSOCIATED = true → src.isSet .FLAG_DOWNLOAD = false →
      src.isSet .FLAG_UPLOAD = true →
      ∀ cqi, findCQI m.uploads src.user = some cqi → cqi.download = false →
        (failed m aSource aError protocolError now).1.uploads =
          m.uploads.filter (fun x => decide (x.ptr ≠ cqi.ptr)) ∧
        cqi ∉ (failed m aSource aError protocolError now).1.uploads ∧
        (failed m aSource aError protocolError now).1.downloads = m.downloads) ∧
    (src.isSet .FLAG_ASSOCIATED = false →
      (failed m aSource aError protocolError now).1.downloads = m.downloads ∧
      (failed m aSource aError protocolError now).1.uploads = m.uploads) := by
  have hcs : (failed m aSource aError protocolError now).1.userConnections =
      m.userConnections.filter (fun x => decide (x.ptr ≠ aSource)) := by
    by_cases ha : src.isSet .FLAG_ASSOCIATED = true
    · by_cases hd : src.isSet .FLAG_DOWNLOAD = true
      · simp only [failed, hfind, ha, hd, if_true]
        rfl
      · by_cases hup : src.isSet .FLAG_UPLOAD = true
        · simp only [failed, hfind, ha, hd, hup, if_true, if_false]
          cases findCQI m.uploads src.user with
          | none => rfl
          | some cqi =>
            simp only [putCQI]
            split_ifs <;> rfl
        · simp only [failed, hfind, ha, hd, hup, if_true, if_false]
          rfl
    · simp only [failed, hfind, ha, if_false]
      rfl
  refine ⟨hcs, ?_, ?_, ?_, ?_⟩
  · unfold findUC
    rw [hcs, List.find?_eq_none]
    intro x hx
    rw [List.mem_filter] at hx
    simpa using hx.2
  · intro ha hd cqi hc
    obtain ⟨hu, pre, post, hsplit, hpre⟩ := findCQI_some_split m.downloads src.user cqi hc
    have e1 : (failed m aSource aError protocolError now).1.downloads =
        modifyCQI src.user (fun c => { c with state := .WAITING, lastAttempt := now,
                                              errors := if protocolError then -1 else c.errors + 1 })
          m.downloads := by
      simp only [failed, hfind, ha, hd, if_true]
      rfl
    have e2 : (failed m aSource aError protocolError now).1.uploads = m.uploads := by
      simp only [failed, hfind, ha, hd, if_true]
      rfl
    refine ⟨⟨pre, post, hsplit, ?_⟩, e2⟩
    rw [e1, hsplit]
    exact modifyCQI_first src.user _ pre cqi post hu hpre
  · intro ha hd hup cqi hc hcd
    have e : failed m aSource aError protocolError now =
        ((putConnection (putCQI m cqi).1 aSource).1,
          (putCQI m cqi).2 ++ (putConnection (putCQI m cqi).1 aSource).2) := by
      simp only [failed, hfind, ha, hd, hup, hc, if_true, Bool.false_eq_true, if_false]
    have e1 : (failed m aSource aError protocolError now).1.uploads =
        m.uploads.filter (fun x => decide (x.ptr ≠ cqi.ptr)) := by
      rw [e]
      simp only [putCQI, hcd, Bool.false_eq_true, if_false]
      rfl
    have e2 : (failed m aSource aError protocolError now).1.downloads = m.downloads := by
      rw [e]
      simp only [putCQI, hcd, Bool.false_eq_true, if_false]
      rfl
    refine ⟨e1, ?_, e2⟩
    rw [e1, List.mem_filter]
    intro h
    simpa using h.2
  · intro ha
    have e : failed m aSource aError protocolError now = putConnection m aSource := by
      simp only [failed, hfind, ha, Bool.false_eq_true, if_false]
    rw [e]
    exact ⟨rfl, rfl⟩

/-- Witness for C19: the associated download connection of `exampleRunning`
fails at time 500; the item of user 7 is WAITING with `lastAttempt = 500` and
`errors = 1`. -/
theorem failure_handler_witness :
    exampleRunning.findUC 2 = some exampleRunningConnection ∧
    exampleRunningConnection.isSet .FLAG_ASSOCIATED = true ∧
    exampleRunningConnection.isSet .FLAG_DOWNLOAD = true ∧
    findCQI exampleRunning.downloads exampleRunningConnection.user =
      some ⟨1, ⟨some 7, "hub"⟩, "token", true, .ACTIVE, 0, 0⟩ ∧
    ∃ pre post, exampleRunning.downloads =
        pre ++ ⟨1, ⟨some 7, "hub"⟩, "token", true, .ACTIVE, 0, 0⟩ :: post ∧
      (failed exampleRunning 2 "error" false 500).1.downloads =
        pre ++ ⟨1, ⟨some 7, "hub"⟩, "token", true, .WAITING, 500, 0 + 1⟩ :: post :=
  ⟨by decide, rfl, rfl, by decide,
    ((failure_handler exampleRunning 2 exampleRunningConnection "error" false 500
      (by decide)).2.2.1 rfl rfl ⟨1, ⟨some 7, "hub"⟩, "token", true, .ACTIVE, 0, 0⟩
      (by decide)).1⟩

/-! ## Keyprint validation -/

theorem ne_sized_iff (kp d : List Nat) :
    kp ≠ (List.range kp.length).map (fun i => d.getD i 0) ↔
      ∃ i, i < kp.length ∧ kp.getD i 0 ≠ d.getD i 0 := by
  constructor
  · intro hne
    by_contra hall
    apply hne
    apply List.ext_getElem
    · simp
    · intro i h1 h2
      have hi : kp.getD i 0 = d.getD i 0 := by
        by_contra hc
        exact hall ⟨i, h1, hc⟩
      rw [List.getD_eq_getElem kp 0 h1] at hi
      rw [hi]
      simp
  · rintro ⟨i, hi, hd⟩ heq
    apply hd
    have h2 : i < ((List.range kp.length).map (fun i => d.getD i 0)).length := by simpa using hi
    have e : kp.getD i 0 = ((List.range kp.length).map (fun i => d.getD i 0)).getD i 0 := by
      rw [← heq]
    rw [e, List.getD_eq_getElem _ 0 h2]
    simp

theorem checkKeyprint_eq (env : Env) (kp : List Nat) (kp2 : String) :
    checkKeyprint env kp kp2 =
      if kp = [] then true
      else if kp2 = "" then true
      else if kp2.take 7 ≠ "SHA256/" then true
      else if kp ≠ (List.range kp.length).map
          (fun i => (env.fromBase32 (kp2.drop 7) kp.length).getD i 0) then false
      else true := rfl

theorem sha_prefix_iff (kp2 : String) :
    kp2.take 7 = "SHA256/" ↔ ∃ rest : String, kp2 = "SHA256/" ++ rest := by
  constructor
  · intro h
    exact ⟨kp2.drop 7, (string_prefix_iff "SHA256/" kp2 (kp2.drop 7)).mp ⟨h, rfl⟩⟩
  · rintro ⟨rest, h⟩
    exact ((string_prefix_iff "SHA256/" kp2 rest).mpr h).1

/-- C20 (keyprint validation): `checkKeyprint` is a total function of the
keyprint `kp`, the advertised text `kp2` and the base32 decoder, and of nothing
else. It answers `false` exactly when `kp` is not empty, `kp2` is `SHA256/`
followed by some text, and the decoding of that text into `|kp|` bytes differs
from `kp` at some index. So it answers `true` when `kp` is empty, when `kp2` is
empty, and when `kp2`, of whatever length, does not start with `SHA256/`. -/
theorem keyprint_validation (env : Env) (kp : List Nat) (kp2 : String) :
    (checkKeyprint env kp kp2 = false ↔
      kp ≠ [] ∧ ∃ rest : String, kp2 = "SHA256/" ++ rest ∧
        ∃ i, i < kp.length ∧ kp.getD i 0 ≠ (env.fromBase32 rest kp.length).getD i 0) ∧
    (kp = [] → checkKeyprint env kp kp2 = true) ∧
    (kp2 = "" → checkKeyprint env kp kp2 = true) ∧
    ((∀ rest : String, kp2 ≠ "SHA256/" ++ rest) → checkKeyprint env kp kp2 = true) ∧
    (checkKeyprint env kp kp2 = true ∨ checkKeyprint env kp kp2 = false) ∧
    (∀ env2 : Env, env2.fromBase32 = env.fromBase32 →
      checkKeyprint env2 kp kp2 = checkKeyprint env kp kp2) := by
  rw [checkKeyprint_eq]
  refine ⟨?_, ?_, ?_, ?_, ?_, ?_⟩
  · by_cases h1 : kp = []
    · rw [if_pos h1]
      constructor
      · intro h; exact absurd h (by simp)
      · intro h; exact absurd h1 h.1
    · rw [if_neg h1]
      by_cases h2 : kp2 = ""
      · rw [if_pos h2]
        constructor
        · intro h; exact absurd h (by simp)
        · rintro ⟨_, rest, hr, _⟩
          rw [h2] at hr
          have hl := congrArg String.length hr
          rw [String.length_append] at hl
          have h7 : ("SHA256/" : String).length = 7 := rfl
          have h0 : ("" : String).length = 0 := rfl
          omega
      · rw [if_neg h2]
        by_cases h3 : kp2.take 7 = "SHA256/"
        · rw [if_neg (by simpa using h3)]
          have hrest : kp2 = "SHA256/" ++ kp2.drop 7 :=
            (string_prefix_iff "SHA256/" kp2 (kp2.drop 7)).mp ⟨h3, rfl⟩
          by_cases h4 : kp ≠ (List.range kp.length).map
              (fun i => (env.fromBase32 (kp2.drop 7) kp.length).getD i 0)
          · rw [if_pos h4]
            simp only [true_iff]
            exact ⟨h1, kp2.drop 7, hrest, (ne_sized_iff kp _).mp h4⟩
          · rw [if_neg h4]
            constructor
            · intro h; exact absurd h (by simp)
            · rintro ⟨_, rest, hr, hi⟩
              have hd : kp2.drop 7 = rest := ((string_prefix_iff "SHA256/" kp2 rest).mpr hr).2
              rw [← hd] at hi
              exact absurd ((ne_sized_iff kp _).mpr hi) h4
        · rw [if_pos h3]
          constructor
          · intro h; exact absurd h (by simp)
          · rintro ⟨_, rest, hr, _⟩
            exact absurd ((sha_prefix_iff kp2).mpr ⟨rest, hr⟩) h3
  · intro h; rw [if_pos h]
  · intro h
    by_cases h1 : kp = []
    · rw [if_pos h1]
    · rw [if_neg h1, if_pos h]
  · intro h
    have h3 : kp2.take 7 ≠ "SHA256/" := fun hc => by
      obtain ⟨rest, hr⟩ := (sha_prefix_iff kp2).mp hc
      exact h rest hr
    by_cases h1 : kp = []
    · rw [if_pos h1]
    · rw [if_neg h1]
      by_cases h2 : kp2 = ""
      · rw [if_pos h2]
      · rw [if_neg h2, if_pos h3]
  · split_ifs <;> simp
  · intro env2 h2
    rw [checkKeyprint_eq, h2]

/-- Witness for C20: under `exampleEnv`, whose decoder writes zero bytes, the
keyprint `[1, 2]` does not match `SHA256/AAAA`. -/
theorem keyprint_validation_witness :
    checkKeyprint exampleEnv [1, 2] "SHA256/AAAA" = false ∧
    checkKeyprint exampleEnv [1, 2] "SHA" = true :=
  ⟨(keyprint_validation exampleEnv [1, 2] "SHA256/AAAA").1.mpr
      ⟨by decide, "AAAA", by decide, 0, by decide, by decide⟩,
    (keyprint_validation exampleEnv [1, 2] "SHA").2.2.2.1 (fun rest h => by
      have hl := congrArg String.length h
      rw [String.length_append] at hl
      have h7 : ("SHA256/" : String).length = 7 := rfl
      have h3 : ("SHA" : String).length = 3 := rfl
      omega)⟩

/-! ## The shutdown flag -/

theorem putConnection_shuttingDown (m : ConnectionManager) (p : Nat) :
    (putConnection m p).1.shuttingDown = m.shuttingDown := rfl

theorem storeUC_shuttingDown (m : ConnectionManager) (uc : UserConnection) :
    (m.storeUC uc).shuttingDown = m.shuttingDown := rfl

theorem myNickFinish_shuttingDown (env : Env) (m : ConnectionManager) (uc : UserConnection) :
    (myNickFinish env m uc).1.shuttingDown = m.shuttingDown := rfl

theorem disconnectUser_shuttingDown (m : ConnectionManager) (u : UserPtr) :
    (disconnectUser m u).1.shuttingDown = m.shuttingDown := rfl

/-- The two trust failures. When `Connected` fires on a secure connection that is
not trusted while ALLOW_UNTRUSTED_CLIENTS is off, the connection is erased from
`userConnections` and the queue manager is told to remove its user as a source
with reason untrusted. When the keyprint check of the `INF` handler fails, the
connection is erased from `userConnections` and the disconnect is the only call.
Both leave the queues as they are. -/
theorem trust_failure_paths (env : Env) (m : ConnectionManager) (aSource : Nat)
    (src : UserConnection) (hfind : m.findUC aSource = some src) :
    (src.secure = true → env.isTrusted aSource = false → env.ALLOW_UNTRUSTED_CLIENTS = false →
      (onConnected env m aSource).1.userConnections =
        m.userConnections.filter (fun x => decide (x.ptr ≠ aSource)) ∧
      (onConnected env m aSource).1.downloads = m.downloads ∧
      (onConnected env m aSource).1.uploads = m.uploads ∧
      (onConnected env m aSource).2 =
        [Effect.ucDisconnect aSource true, Effect.removeSource src.user .FLAG_UNTRUSTED]) ∧
    (∀ (params : List String) (cid : String) (u : CID), src.state = .STATE_INF →
      getParam params "ID" = some cid → env.findUser (env.cidOfString cid) = some u →
      checkKeyprint env (env.keyprint aSource) (env.getFieldKP (some u) src.hubUrl) = false →
      (onINF env m aSource params).1.userConnections =
        m.userConnections.filter (fun x => decide (x.ptr ≠ aSource)) ∧
      (onINF env m aSource params).1.downloads = m.downloads ∧
      (onINF env m aSource params).1.uploads = m.uploads ∧
      (onINF env m aSource params).2 = [Effect.ucDisconnect aSource true] ∧
      ∀ (v : UserPtr) (r : SourceFlag),
        Effect.removeSource v r ∉ (onINF env m aSource params).2) := by
  constructor
  · intro h1 h2 h3
    have e : onConnected env m aSource =
        ((putConnection m aSource).1,
          (putConnection m aSource).2 ++ [Effect.removeSource src.user .FLAG_UNTRUSTED]) := by
      simp only [onConnected, hfind, h1, h2, h3, and_self, if_true]
    rw [e]
    exact ⟨rfl, rfl, rfl, rfl⟩
  · intro params cid u hst hid hu hkp
    have e : onINF env m aSource params = putConnection m aSource := by
      rw [onINF_id env m aSource src params cid hfind hst hid, hu, if_neg (by simp), if_pos hkp]
    rw [e]
    refine ⟨rfl, rfl, rfl, rfl, ?_⟩
    intro v r hmem
    simp [putConnection] at hmem

/-- C22 (trust failures remove the source), the code at the failing input. Under
`exampleEnvKeyprint` the keyprint check fails for the valid `INF` that the secure
connection of `exampleInfSecure` sends for user 7. The connection is erased from
`userConnections` and the only call is its disconnect: the queue manager is not
told to remove user 7 as a source. On the other trust failure the call is made:
under `exampleEnvStrict` the `Connected` event on the secure connection of
`exampleSecure` erases the connection and calls `removeSource` with reason
untrusted. -/
theorem trust_failure_divergence :
    exampleInfSecure.findUC 1 = some exampleInfSecureConnection ∧
    exampleInfSecureConnection.state = .STATE_INF ∧
    exampleInfSecureConnection.secure = true ∧
    getParam ["IDabcdefg"] "ID" = some "abcdefg" ∧
    exampleEnvKeyprint.findUser (exampleEnvKeyprint.cidOfString "abcdefg") = some 7 ∧
    checkKeyprint exampleEnvKeyprint (exampleEnvKeyprint.keyprint 1)
      (exampleEnvKeyprint.getFieldKP (some 7) exampleInfSecureConnection.hubUrl) = false ∧
    (onINF exampleEnvKeyprint exampleInfSecure 1 ["IDabcdefg"]).1.userConnections = [] ∧
    (onINF exampleEnvKeyprint exampleInfSecure 1 ["IDabcdefg"]).2 =
      [Effect.ucDisconnect 1 true] ∧
    Effect.removeSource (some 7) .FLAG_UNTRUSTED ∉
      (onINF exampleEnvKeyprint exampleInfSecure 1 ["IDabcdefg"]).2 ∧
    exampleSecure.userConnections.map (fun x => (x.ptr, x.secure, x.state)) =
      [(1, true, .STATE_CONNECT)] ∧
    (onConnected exampleEnvStrict exampleSecure 1).1.userConnections = [] ∧
    (onConnected exampleEnvStrict exampleSecure 1).2 =
      [Effect.ucDisconnect 1 true, Effect.removeSource none .FLAG_UNTRUSTED] := by
  refine ⟨by decide, rfl, rfl, by decide, rfl, by decide, by decide, by decide, by decide,
    by decide, by decide, by decide⟩

/-! ## The direction tie and the queue -/

/-- C23, as stated, fails: in `exampleDirectionQueue` the connection at address 2
holds FLAG_DOWNLOAD and has the number 2; the download item of its user is
CONNECTING with `errors = 0`. The peer sends `Direction Download 2`. The
connection is erased, and the item is still CONNECTING with `errors = 0`: it is
not WAITING and its `errors` is not 1. -/
theorem direction_tie_queue_counterexample :
    exampleDirectionQueue.findUC 2 = some exampleDirectionConnection ∧
    exampleDirectionConnection.state = .STATE_DIRECTION ∧
    exampleDirectionConnection.isSet .FLAG_DOWNLOAD = true ∧
    exampleEnv.number 2 = 2 ∧
    exampleDirectionQueue.downloads.map (fun c => (c.user.user, c.state, c.errors)) =
      [(some 7, .CONNECTING, 0)] ∧
    (onDirection exampleEnv exampleDirectionQueue 2 "Download" 2).1.userConnections = [] ∧
    (onDirection exampleEnv exampleDirectionQueue 2 "Download" 2).1.downloads.map
      (fun c => (c.user.user, c.state, c.errors)) = [(some 7, .CONNECTING, 0)] := by
  refine ⟨by decide, rfl, rfl, rfl, by decide, by decide, by decide⟩

/-- C23, amended (direction tie with equal numbers and the queue): a connection
in STATE_DIRECTION holding FLAG_DOWNLOAD receives a direction other than `Upload`
with a number equal to its own. The handler puts the connection, which is erased
from `userConnections` with every other connection as before, and does nothing
else: `downloads` and `uploads` are as before, so the download item of the user
keeps its state and its `errors`, and the disconnect is the only call. -/
theorem direction_tie_queue (env : Env) (m : ConnectionManager) (aSource : Nat)
    (src : UserConnection) (dir : String) (number : Int)
    (hfind : m.findUC aSource = some src) (hst : src.state = .STATE_DIRECTION)
    (hdown : src.isSet .FLAG_DOWNLOAD = true) (hdir : dir ≠ "Upload")
    (hnum : env.number aSource = number) :
    (onDirection env m aSource dir number).1.userConnections =
      m.userConnections.filter (fun x => decide (x.ptr ≠ aSource)) ∧
    (onDirection env m aSource dir number).1.findUC aSource = none ∧
    (onDirection env m aSource dir number).1.downloads = m.downloads ∧
    (onDirection env m aSource dir number).1.uploads = m.uploads ∧
    (onDirection env m aSource dir number).2 = [Effect.ucDisconnect aSource true] := by
  have e : onDirection env m aSource dir number = putConnection m aSource := by
    simp only [onDirection, hfind, hst, ne_eq, not_true_eq_false, if_false, if_neg hdir, hdown,
      if_true, hnum, lt_irrefl]
  rw [e]
  exact ⟨rfl, findUC_putConnection m aSource, rfl, rfl, rfl⟩

/-- Witness for C23: the tie of `exampleDirectionQueue`. -/
theorem direction_tie_queue_witness :
    exampleDirectionQueue.findUC 2 = some exampleDirectionConnection ∧
    (onDirection exampleEnv exampleDirectionQueue 2 "Download" 2).1.downloads =
      exampleDirectionQueue.downloads :=
  ⟨by decide,
    (direction_tie_queue exampleEnv exampleDirectionQueue 2 exampleDirectionConnection
      "Download" 2 (by decide) rfl rfl (by decide) rfl).2.2.1⟩

/-! ## The steps of the tick, case by case -/

theorem tickItem_offline (env : Env) (now a : Nat) (c : ConnectionQueueItem)
    (hstate : c.state ≠ .ACTIVE) (hoff : env.isOnline c.user.user = false) :
    tickItem env now a c = ⟨c, true, a, []⟩ := by
  simp only [tickItem, hstate, hoff, ne_eq, not_false_eq_true, if_true]

theorem tickItem_due (env : Env) (now a : Nat) (c : ConnectionQueueItem)
    (hstate : c.state ≠ .ACTIVE) (honline : env.isOnline c.user.user = true)
    (hsticky : ¬ (c.errors = -1 ∧ c.lastAttempt ≠ 0))
    (hdue : c.lastAttempt = 0 ∨
      ((env.DOWNCONN_PER_SEC = 0 ∨ (a : Int) < env.DOWNCONN_PER_SEC) ∧
        addUInt64 c.lastAttempt (toUInt64 (wrapInt32 (60 * 1000 * max 1 c.errors))) < now)) :
    tickItem env now a c =
      if env.hasDownload c.user = .PAUSED then ⟨{ c with lastAttempt := now }, true, a, []⟩
      else if c.state = .WAITING then
        if env.startDownload (env.hasDownload c.user) = true then
          ⟨{ c with lastAttempt := now, state := .CONNECTING }, false, (a + 1) % 65536,
            [Effect.hubConnect c.user c.token,
             Effect.fireStatusChanged { c with lastAttempt := now, state := .CONNECTING }]⟩
        else
          ⟨{ c with lastAttempt := now, state := .NO_DOWNLOAD_SLOTS }, false, a,
            [Effect.fireFailed { c with lastAttempt := now, state := .NO_DOWNLOAD_SLOTS }
              "ALL_DOWNLOAD_SLOTS_TAKEN"]⟩
      else if c.state = .NO_DOWNLOAD_SLOTS ∧ env.startDownload (env.hasDownload c.user) = true then
        ⟨{ c with lastAttempt := now, state := .WAITING }, false, a, []⟩
      else ⟨{ c with lastAttempt := now }, false, a, []⟩ := by
  have honl : ¬ env.isOnline c.user.user = false := by simp [honline]
  unfold tickItem
  dsimp only
  rw [if_pos hstate, if_neg honl, if_neg hsticky, if_pos hdue]

theorem tickItem_not_due (env : Env) (now a : Nat) (c : ConnectionQueueItem)
    (hstate : c.state ≠ .ACTIVE) (honline : env.isOnline c.user.user = true)
    (hsticky : ¬ (c.errors = -1 ∧ c.lastAttempt ≠ 0))
    (hdue : ¬ (c.lastAttempt = 0 ∨
      ((env.DOWNCONN_PER_SEC = 0 ∨ (a : Int) < env.DOWNCONN_PER_SEC) ∧
        addUInt64 c.lastAttempt (toUInt64 (wrapInt32 (60 * 1000 * max 1 c.errors))) < now))) :
    tickItem env now a c =
      if c.state = .CONNECTING ∧ addUInt64 c.lastAttempt (50 * 1000) < now then
        ⟨{ c with errors := c.errors + 1, state := .WAITING }, false, a,
          [Effect.connectionTimeout c.user,
           Effect.fireFailed { c with errors := c.errors + 1 } "CONNECTION_TIMEOUT"]⟩
      else ⟨c, false, a, []⟩ := by
  have honl : ¬ env.isOnline c.user.user = false := by simp [honline]
  unfold tickItem
  dsimp only
  rw [if_pos hstate, if_neg honl, if_neg hsticky, if_neg hdue]

/-- What the tick makes of the item at one place of `downloads`, given that no
other item has its address: the step of the walk for it is part of the walk, its
calls are among the calls of the tick, and the item is in `downloads` afterwards,
as the step left it, unless the step put it on the `removed` list, in which case
nothing with its address is in `downloads` afterwards. -/
theorem onSecond_item (env : Env) (m : ConnectionManager) (now : Nat)
    (pre post : List ConnectionQueueItem) (c : ConnectionQueueItem)
    (hd : m.downloads = pre ++ c :: post) (hptr : ∀ x ∈ pre ++ post, x.ptr ≠ c.ptr) :
    tickItem env now (walkAttempts env now 0 pre) c ∈ tickWalk env now 0 m.downloads ∧
    (∀ e ∈ (tickItem env now (walkAttempts env now 0 pre) c).effects,
      e ∈ (onSecond env m now).2) ∧
    ((tickItem env now (walkAttempts env now 0 pre) c).removed = false →
      (tickItem env now (walkAttempts env now 0 pre) c).cqi ∈ (onSecond env m now).1.downloads ∧
      ∀ x ∈ (onSecond env m now).1.downloads, x.ptr = c.ptr →
        x = (tickItem env now (walkAttempts env now 0 pre) c).cqi) ∧
    ((tickItem env now (walkAttempts env now 0 pre) c).removed = true → c.download = true →
      ∀ x ∈ (onSecond env m now).1.downloads, x.ptr ≠ c.ptr) := by
  have hw := tickWalk_append env now pre 0 c post
  rw [← hd] at hw
  have hmem : tickItem env now (walkAttempts env now 0 pre) c ∈ tickWalk env now 0 m.downloads := by
    rw [hw]
    exact List.mem_append_right _ (List.mem_cons_self _ _)
  refine ⟨hmem, fun e he => onSecond_effects env m now _ hmem e he, ?_, ?_⟩
  · intro hr
    have hk := onSecond_keeps env m now pre post c hd hptr hr
    exact ⟨hk.2.1, hk.2.2⟩
  · intro hr hdl x hx hxp
    rw [onSecond_downloads, List.mem_filter] at hx
    have hall := hx.2
    rw [List.all_eq_true] at hall
    have hin : (tickItem env now (walkAttempts env now 0 pre) c).cqi ∈
        ((tickWalk env now 0 m.downloads).filter (fun r => r.removed)).map (fun r => r.cqi) :=
      List.mem_map.mpr ⟨_, List.mem_filter.mpr ⟨hmem, hr⟩, rfl⟩
    have h1 := hall _ hin
    rw [tickItem_download, tickItem_ptr, hdl] at h1
    simp only [Bool.not_true, Bool.false_or, decide_eq_true_eq] at h1
    exact h1 hxp

/-! ## The connect timeout -/

/-- C24, as stated, fails: the item of `exampleConnecting` is CONNECTING with
`lastAttempt = 100` and `errors = 0`, its user is online and it is not due at time
50100 (the backoff of 60000 has not passed). Here `now = lastAttempt + 50000`,
and the tick changes nothing and makes no call: no timeout is reported and
`errors` is still 0. -/
theorem connect_timeout_counterexample :
    exampleConnecting.downloads = [⟨1, ⟨some 7, "hub"⟩, "token", true, .CONNECTING, 100, 0⟩] ∧
    exampleEnv.isOnline (some 7) = true ∧
    (50100 : Nat) ≥ 100 + 50000 ∧
    ¬ ((100 : Nat) = 0 ∨ ((exampleEnv.DOWNCONN_PER_SEC = 0 ∨
      ((0 : Nat) : Int) < exampleEnv.DOWNCONN_PER_SEC) ∧
        ((100 : Nat) : Int) + 60 * 1000 * max 1 0 < ((50100 : Nat) : Int))) ∧
    onSecond exampleEnv exampleConnecting 50100 = (exampleConnecting, []) := by
  refine ⟨by decide, rfl, by decide, by decide, by decide⟩

/-- C24, amended (connect timeout on the tick): a download item in state
CONNECTING at some place of `downloads`, at an address of its own, whose user is
online, whose `errors` is not -1 and which is not due in this tick (`lastAttempt`
is not 0, and the budget is used up or the backoff has not passed), where the
arithmetic of the tick does not overflow (`errors ≤ 35791`, so that the product
`60000 * max (1, errors)` fits a 32 bit `int`, and
`lastAttempt + 60000 * max (1, errors) < 2^64`). If
`lastAttempt + 50000 < now` (strictly), the hub is told of a connection timeout,
`errors` grows by exactly 1, the state becomes WAITING, `lastAttempt` is as
before and the item is not counted as an attempt. If `now ≤ lastAttempt + 50000`
the item is as before and no call is made for it. In both cases the tick leaves
the item in `downloads`. -/
theorem connect_timeout (env : Env) (m : ConnectionManager) (now : Nat)
    (pre post : List ConnectionQueueItem) (c : ConnectionQueueItem)
    (hd : m.downloads = pre ++ c :: post) (hptr : ∀ x ∈ pre ++ post, x.ptr ≠ c.ptr)
    (hstate : c.state = .CONNECTING) (honline : env.isOnline c.user.user = true)
    (herr : c.errors ≠ -1) (hrange : c.errors ≤ 35791)
    (hfit : (c.lastAttempt : Int) + 60 * 1000 * max 1 c.errors < 18446744073709551616)
    (hdue : ¬ (c.lastAttempt = 0 ∨
      ((env.DOWNCONN_PER_SEC = 0 ∨ ((walkAttempts env now 0 pre : Nat) : Int) < env.DOWNCONN_PER_SEC) ∧
        (c.lastAttempt : Int) + 60 * 1000 * max 1 c.errors < (now : Int)))) :
    ((c.lastAttempt : Int) + 50000 < (now : Int) →
      tickItem env now (walkAttempts env now 0 pre) c =
        ⟨{ c with errors := c.errors + 1, state := .WAITING }, false, walkAttempts env now 0 pre,
          [Effect.connectionTimeout c.user,
           Effect.fireFailed { c with errors := c.errors + 1 } "CONNECTION_TIMEOUT"]⟩ ∧
      Effect.connectionTimeout c.user ∈ (onSecond env m now).2 ∧
      ({ c with errors := c.errors + 1, state := .WAITING } : ConnectionQueueItem) ∈
        (onSecond env m now).1.downloads ∧
      ∀ x ∈ (onSecond env m now).1.downloads, x.ptr = c.ptr →
        x = { c with errors := c.errors + 1, state := .WAITING }) ∧
    ((now : Int) ≤ (c.lastAttempt : Int) + 50000 →
      tickItem env now (walkAttempts env now 0 pre) c = ⟨c, false, walkAttempts env now 0 pre, []⟩ ∧
      c ∈ (onSecond env m now).1.downloads ∧
      ∀ x ∈ (onSecond env m now).1.downloads, x.ptr = c.ptr → x = c) := by
  have hna : c.state ≠ .ACTIVE := by rw [hstate]; decide
  have hst : ¬ (c.errors = -1 ∧ c.lastAttempt ≠ 0) := fun h => herr h.1
  have hdue2 : ¬ (c.lastAttempt = 0 ∨
      ((env.DOWNCONN_PER_SEC = 0 ∨
          ((walkAttempts env now 0 pre : Nat) : Int) < env.DOWNCONN_PER_SEC) ∧
        addUInt64 c.lastAttempt (toUInt64 (wrapInt32 (60 * 1000 * max 1 c.errors))) < now)) := by
    rw [backoff_in_range _ _ _ hrange hfit]
    exact hdue
  have h50 : (c.lastAttempt : Int) + 50 * 1000 < 18446744073709551616 := by omega
  have ht := tickItem_not_due env now (walkAttempts env now 0 pre) c hna honline hst hdue2
  have hi := onSecond_item env m now pre post c hd hptr
  constructor
  · intro hlt
    have hc : c.state = .CONNECTING ∧ addUInt64 c.lastAttempt (50 * 1000) < now :=
      ⟨hstate, (timeout_in_range _ _ h50).2 (by omega)⟩
    rw [if_pos hc] at ht
    rw [ht] at hi
    exact ⟨ht, hi.2.1 _ (List.mem_cons_self _ _), (hi.2.2.1 rfl).1, (hi.2.2.1 rfl).2⟩
  · intro hle
    have hc : ¬ (c.state = .CONNECTING ∧ addUInt64 c.lastAttempt (50 * 1000) < now) :=
      fun h => by have h2 := (timeout_in_range _ _ h50).1 h.2; omega
    rw [if_neg hc] at ht
    rw [ht] at hi
    exact ⟨ht, (hi.2.2.1 rfl).1, (hi.2.2.1 rfl).2⟩

/-- Witness for C24: the item of `exampleConnecting` times out at the tick of
time 50101. -/
theorem connect_timeout_witness :
    exampleConnecting.downloads =
      [] ++ (⟨1, ⟨some 7, "hub"⟩, "token", true, .CONNECTING, 100, 0⟩ : ConnectionQueueItem) :: [] ∧
    (⟨1, ⟨some 7, "hub"⟩, "token", true, .WAITING, 100, 0 + 1⟩ : ConnectionQueueItem) ∈
      (onSecond exampleEnv exampleConnecting 50101).1.downloads :=
  ⟨by decide,
    ((connect_timeout exampleEnv exampleConnecting 50101 [] []
      ⟨1, ⟨some 7, "hub"⟩, "token", true, .CONNECTING, 100, 0⟩ (by decide) (by decide) rfl rfl
      (by decide) (by decide) (by decide) (by decide)).1 (by decide)).2.2.1⟩

/-! ## The outcomes of the tick for a due item -/

/-- C25, as stated, fails: the item of `exampleSticky` is WAITING with
`lastAttempt = 500` and `errors = -1`; its user is online, the budget is not used
up and the backoff has passed at time 100000, so it is due as the claim defines
it; the priority is not PAUSED and the start is denied. The claim wants
`lastAttempt = 100000` and NO_DOWNLOAD_SLOTS; the tick leaves the item as it is,
because of the protocol error mark. -/
theorem tick_outcomes_counterexample :
    exampleSticky.downloads = [⟨1, ⟨some 7, "hub"⟩, "token", true, .WAITING, 500, -1⟩] ∧
    exampleEnvDenied.isOnline (some 7) = true ∧
    ((exampleEnvDenied.DOWNCONN_PER_SEC = 0 ∨ ((0 : Nat) : Int) < exampleEnvDenied.DOWNCONN_PER_SEC) ∧
      ((500 : Nat) : Int) + 60 * 1000 * max 1 (-1) < ((100000 : Nat) : Int)) ∧
    exampleEnvDenied.hasDownload ⟨some 7, "hub"⟩ ≠ .PAUSED ∧
    exampleEnvDenied.startDownload (exampleEnvDenied.hasDownload ⟨some 7, "hub"⟩) = false ∧
    onSecond exampleEnvDenied exampleSticky 100000 = (exampleSticky, []) := by
  refine ⟨by decide, rfl, by decide, by decide, rfl, by decide⟩

/-- C25, amended (tick outcomes for a due item): the item `c` is a download item
at some place of `downloads`, at an address of its own; `r` is the step of the
walk for it. The calls of `r` are calls of the tick; when `r` does not put the
item on the `removed` list the item is in `downloads` afterwards as `r` left it,
and when it does nothing with its address is in `downloads` afterwards. An
ACTIVE item is left as it is and kept. A non-ACTIVE item of an offline user is
removed. A non-ACTIVE item of an online user that does not carry the protocol
error mark (`errors = -1` with `lastAttempt ≠ 0`) and is due (`lastAttempt = 0`,
or budget not used up and backoff passed, where the arithmetic of the backoff
test does not overflow: `errors ≤ 35791`, so that `60000 * max (1, errors)` fits a
32 bit `int`, and `lastAttempt + 60000 * max (1, errors) < 2^64`): with priority
PAUSED it is removed;
otherwise `lastAttempt` becomes `now` and WAITING with the start denied becomes
NO_DOWNLOAD_SLOTS with no hub connect, NO_DOWNLOAD_SLOTS with the start granted
becomes WAITING with no call, NO_DOWNLOAD_SLOTS with the start denied keeps its
state with no call. -/
theorem tick_outcomes (env : Env) (m : ConnectionManager) (now : Nat)
    (pre post : List ConnectionQueueItem) (c : ConnectionQueueItem)
    (hd : m.downloads = pre ++ c :: post) (hptr : ∀ x ∈ pre ++ post, x.ptr ≠ c.ptr)
    (hdl : c.download = true) :
    ((∀ e ∈ (tickItem env now (walkAttempts env now 0 pre) c).effects,
        e ∈ (onSecond env m now).2) ∧
      ((tickItem env now (walkAttempts env now 0 pre) c).removed = false →
        (tickItem env now (walkAttempts env now 0 pre) c).cqi ∈ (onSecond env m now).1.downloads ∧
        ∀ x ∈ (onSecond env m now).1.downloads, x.ptr = c.ptr →
          x = (tickItem env now (walkAttempts env now 0 pre) c).cqi) ∧
      ((tickItem env now (walkAttempts env now 0 pre) c).removed = true →
        ∀ x ∈ (onSecond env m now).1.downloads, x.ptr ≠ c.ptr)) ∧
    (c.state = .ACTIVE →
      tickItem env now (walkAttempts env now 0 pre) c = ⟨c, false, walkAttempts env now 0 pre, []⟩) ∧
    (c.state ≠ .ACTIVE → env.isOnline c.user.user = false →
      tickItem env now (walkAttempts env now 0 pre) c = ⟨c, true, walkAttempts env now 0 pre, []⟩) ∧
    (c.state ≠ .ACTIVE → env.isOnline c.user.user = true →
      ¬ (c.errors = -1 ∧ c.lastAttempt ≠ 0) →
      (c.lastAttempt = 0 ∨
        ((env.DOWNCONN_PER_SEC = 0 ∨
            ((walkAttempts env now 0 pre : Nat) : Int) < env.DOWNCONN_PER_SEC) ∧
          c.errors ≤ 35791 ∧
          (c.lastAttempt : Int) + 60 * 1000 * max 1 c.errors < 18446744073709551616 ∧
          (c.lastAttempt : Int) + 60 * 1000 * max 1 c.errors < (now : Int))) →
      (env.hasDownload c.user = .PAUSED →
        (tickItem env now (walkAttempts env now 0 pre) c).removed = true ∧
        (tickItem env now (walkAttempts env now 0 pre) c).effects = []) ∧
      (env.hasDownload c.user ≠ .PAUSED → c.state = .WAITING →
        env.startDownload (env.hasDownload c.user) = false →
        tickItem env now (walkAttempts env now 0 pre) c =
          ⟨{ c with lastAttempt := now, state := .NO_DOWNLOAD_SLOTS }, false,
            walkAttempts env now 0 pre,
            [Effect.fireFailed { c with lastAttempt := now, state := .NO_DOWNLOAD_SLOTS }
              "ALL_DOWNLOAD_SLOTS_TAKEN"]⟩) ∧
      (env.hasDownload c.user ≠ .PAUSED → c.state = .NO_DOWNLOAD_SLOTS →
        env.startDownload (env.hasDownload c.user) = true →
        tickItem env now (walkAttempts env now 0 pre) c =
          ⟨{ c with lastAttempt := now, state := .WAITING }, false,
            walkAttempts env now 0 pre, []⟩) ∧
      (env.hasDownload c.user ≠ .PAUSED → c.state = .NO_DOWNLOAD_SLOTS →
        env.startDownload (env.hasDownload c.user) = false →
        tickItem env now (walkAttempts env now 0 pre) c =
          ⟨{ c with lastAttempt := now }, false, walkAttempts env now 0 pre, []⟩)) := by
  have hi := onSecond_item env m now pre post c hd hptr
  refine ⟨⟨hi.2.1, hi.2.2.1, fun hr => hi.2.2.2 hr hdl⟩,
    fun ha => tickItem_active env now _ c ha,
    fun hna hoff => tickItem_offline env now _ c hna hoff, ?_⟩
  intro hna honline hsticky hdue0
  have hdue : c.lastAttempt = 0 ∨
      ((env.DOWNCONN_PER_SEC = 0 ∨
          ((walkAttempts env now 0 pre : Nat) : Int) < env.DOWNCONN_PER_SEC) ∧
        addUInt64 c.lastAttempt (toUInt64 (wrapInt32 (60 * 1000 * max 1 c.errors))) < now) := by
    rcases hdue0 with h | ⟨hb, he, hf, hlt⟩
    · exact Or.inl h
    · exact Or.inr ⟨hb, (backoff_in_range _ _ _ he hf).2 hlt⟩
  have ht := tickItem_due env now (walkAttempts env now 0 pre) c hna honline hsticky hdue
  refine ⟨?_, ?_, ?_, ?_⟩
  · intro hp
    rw [if_pos hp] at ht
    rw [ht]
    exact ⟨rfl, rfl⟩
  · intro hp hw hs
    rw [if_neg hp, if_pos hw, if_neg (by simp [hs])] at ht
    exact ht
  · intro hp hn hs
    have hw : ¬ c.state = .WAITING := by rw [hn]; decide
    rw [if_neg hp, if_neg hw, if_pos ⟨hn, hs⟩] at ht
    exact ht
  · intro hp hn hs
    have hw : ¬ c.state = .WAITING := by rw [hn]; decide
    have hns : ¬ (c.state = .NO_DOWNLOAD_SLOTS ∧
        env.startDownload (env.hasDownload c.user) = true) := by simp [hs]
    rw [if_neg hp, if_neg hw, if_neg hns] at ht
    exact ht

/-- Witness for C25: the new item of a fresh download request (WAITING,
`lastAttempt = 0`) meets a tick at time 100 that denies the start; it becomes
NO_DOWNLOAD_SLOTS with `lastAttempt = 100`. -/
theorem tick_outcomes_witness :
    (getDownloadConnection exampleEnv init ⟨some 7, "hub"⟩).1.downloads =
      [] ++ (⟨1, ⟨some 7, "hub"⟩, "token", true, .WAITING, 0, 0⟩ : ConnectionQueueItem) :: [] ∧
    tickItem exampleEnvDenied 100 (walkAttempts exampleEnvDenied 100 0 [])
        ⟨1, ⟨some 7, "hub"⟩, "token", true, .WAITING, 0, 0⟩ =
      ⟨⟨1, ⟨some 7, "hub"⟩, "token", true, .NO_DOWNLOAD_SLOTS, 100, 0⟩, false,
        walkAttempts exampleEnvDenied 100 0 [],
        [Effect.fireFailed ⟨1, ⟨some 7, "hub"⟩, "token", true, .NO_DOWNLOAD_SLOTS, 100, 0⟩
          "ALL_DOWNLOAD_SLOTS_TAKEN"]⟩ :=
  ⟨by decide,
    ((tick_outcomes exampleEnvDenied (getDownloadConnection exampleEnv init ⟨some 7, "hub"⟩).1 100
      [] [] ⟨1, ⟨some 7, "hub"⟩, "token", true, .WAITING, 0, 0⟩ (by decide) (by decide)
      rfl).2.2.2 (by decide) rfl (by decide) (Or.inl rfl)).2.1 (by decide) rfl rfl⟩

/-! ## The MyNick scan and the error counts -/

theorem myNickScan_none_resets (cid : CID) (l : List ConnectionQueueItem)
    (h : (myNickScan cid l).2 = none) :
    (myNickScan cid l).1 = l.map (fun c => { c with errors := 0 }) := by
  induction l with
  | nil => rfl
  | cons x xs ih =>
    simp only [myNickScan] at h ⊢
    split_ifs at h ⊢ with hc
    show _ :: (myNickScan cid xs).1 = _
    rw [ih h]
    rfl

/-- C26 (MyNick touches only the matching queue item), the code at the failing
input. In `exampleStickyTwo` the item of user 7 carries the protocol error mark
(`errors = -1`, `lastAttempt = 500`) and comes before the item of user 8. The peer
at address 4 sends the nick of user 8. The item of user 8 matches; the item of
user 7, which does not, has `errors = 0` afterwards, and the tick at time 100000
asks the hub to connect to user 7 again although `force` was not called. Before
the `MyNick` event the same tick left user 7 alone. -/
theorem mynick_scan_divergence :
    exampleStickyTwo.downloads.map (fun c => (c.user.user, c.state, c.lastAttempt, c.errors)) =
      [(some 7, .WAITING, 500, -1), (some 8, .WAITING, 0, 0)] ∧
    exampleStickyTwo.userConnections.map (fun x => (x.ptr, x.state)) = [(4, .STATE_SUPNICK)] ∧
    exampleEnv.makeCid "abcdefgh" "utf-8" "hub" = 8 ∧
    (onMyNick exampleEnv exampleStickyTwo 4 "abcdefgh").1.userConnections.map
      (fun x => (x.ptr, x.state, x.user, x.isSet .FLAG_DOWNLOAD)) =
        [(4, .STATE_LOCK, some 8, true)] ∧
    (onMyNick exampleEnv exampleStickyTwo 4 "abcdefgh").1.downloads.map
      (fun c => (c.user.user, c.state, c.lastAttempt, c.errors)) =
        [(some 7, .WAITING, 500, 0), (some 8, .WAITING, 0, 0)] ∧
    Effect.hubConnect ⟨some 7, "hub"⟩ "token" ∉ (onSecond exampleEnv exampleStickyTwo 100000).2 ∧
    Effect.hubConnect ⟨some 7, "hub"⟩ "token" ∈
      (onSecond exampleEnv (onMyNick exampleEnv exampleStickyTwo 4 "abcdefgh").1 100000).2 := by
  refine ⟨by decide, by decide, rfl, by decide, by decide, by decide, by decide⟩

/-! ## The state guards of the handshake handlers -/

theorem findUC_storeUC_ne (m : ConnectionManager) (uc : UserConnection) (p : Nat)
    (h : p ≠ uc.ptr) : (m.storeUC uc).findUC p = m.findUC p := by
  simp only [findUC, storeUC]
  induction m.userConnections with
  | nil => rfl
  | cons x xs ih =>
    rw [List.map_cons]
    by_cases hx : x.ptr = p
    · have hne : x.ptr ≠ uc.ptr := fun e => h (hx.symm.trans e)
      rw [if_neg hne, List.find?_cons_of_pos _ (by simp [hx]),
        List.find?_cons_of_pos _ (by simp [hx])]
    · have hy : (if x.ptr = uc.ptr then uc else x).ptr ≠ p := by
        split_ifs with e
        · exact fun e2 => h e2.symm
        · exact hx
      rw [List.find?_cons_of_neg _ (by simp [hy]), List.find?_cons_of_neg _ (by simp [hx])]
      exact ih

theorem findUC_putConnection_ne (m : ConnectionManager) (q p : Nat) (h : p ≠ q) :
    (putConnection m q).1.findUC p = m.findUC p := by
  simp only [findUC, putConnection]
  induction m.userConnections with
  | nil => rfl
  | cons x xs ih =>
    by_cases hx : x.ptr = p
    · have hne : x.ptr ≠ q := fun e => h (hx.symm.trans e)
      rw [List.filter_cons_of_pos (by simp [hne]), List.find?_cons_of_pos _ (by simp [hx]),
        List.find?_cons_of_pos _ (by simp [hx])]
    · rw [List.find?_cons_of_neg _ (by simp [hx])]
      by_cases hq : x.ptr = q
      · rw [List.filter_cons_of_neg (by simp [hq])]
        exact ih
      · rw [List.filter_cons_of_pos (by simp [hq]), List.find?_cons_of_neg _ (by simp [hx])]
        exact ih

theorem Forward.of_eq {m m2 : ConnectionManager} (h : m2.userConnections = m.userConnections) :
    Forward m m2 := by
  intro p x y hx hy
  rw [findUC_frame h p, hx] at hy
  exact Or.inl (congrArg UserConnection.state (Option.some.inj hy))

theorem Forward.put {m m1 : ConnectionManager} (h : m1.userConnections = m.userConnections)
    (q : Nat) : Forward m (putConnection m1 q).1 := by
  intro p x y hx hy
  by_cases hp : p = q
  · rw [hp, findUC_putConnection] at hy
    cases hy
  · rw [findUC_putConnection_ne m1 q p hp, findUC_frame h p, hx] at hy
    exact Or.inl (congrArg UserConnection.state (Option.some.inj hy))

theorem Forward.store {m m1 : ConnectionManager} (h : m1.userConnections = m.userConnections)
    (src uc : UserConnection) (q : Nat) (hq : uc.ptr = q) (hsrc : m.findUC q = some src)
    (hmove : handshakeMove src.state uc.state) : Forward m (m1.storeUC uc) := by
  subst hq
  intro p x y hx hy
  by_cases hp : p = uc.ptr
  · rw [hp] at hx hy
    rw [findUC_storeUC m1 uc.ptr src uc ((findUC_frame h uc.ptr).trans hsrc) rfl] at hy
    rw [hsrc] at hx
    rw [← Option.some.inj hx, ← Option.some.inj hy]
    exact hmove
  · rw [findUC_storeUC_ne m1 uc p hp, findUC_frame h p, hx] at hy
    exact Or.inl (congrArg UserConnection.state (Option.some.inj hy))

theorem handshakeMove_rank (s1 s2 : UserConnection.States) (h : handshakeMove s1 s2) :
    stateRank s1 ≤ stateRank s2 := by
  rcases h with h | h | h | h | h
  · rw [h]
  all_goals
    obtain ⟨h1, h2⟩ := h
    rw [h1, h2]
    decide

theorem onSUP_forward (env : Env) (m : ConnectionManager) (aSource : Nat) (params : List String) :
    Forward m (onSUP env m aSource params).1 := by
  cases hfind : m.findUC aSource with
  | none =>
    have e : onSUP env m aSource params = (m, []) := by simp only [onSUP, hfind]
    rw [e]
    exact Forward.of_eq rfl
  | some src =>
    have hptr : src.ptr = aSource := (findUC_some m aSource src hfind).1
    by_cases hst : src.state = .STATE_SUPNICK
    · have hview := supFold_view env params ⟨false, false, src⟩
      have hfptr : (params.foldl (supParam env) ⟨false, false, src⟩).uc.ptr = aSource := by
        rw [← hptr]; exact congrArg CView.ptr hview
      have hfst : (params.foldl (supParam env) ⟨false, false, src⟩).uc.state = src.state :=
        congrArg CView.state hview
      rw [onSUP_eq env m aSource src params hfind hst]
      split_ifs
      · exact Forward.store rfl src _ aSource hfptr hfind (Or.inl hfst.symm)
      · exact Forward.store rfl src _ aSource hfptr hfind
          (Or.inr (Or.inr (Or.inr (Or.inr ⟨hst, rfl⟩))))
      · exact Forward.store rfl src _ aSource hfptr hfind
          (Or.inr (Or.inr (Or.inr (Or.inr ⟨hst, rfl⟩))))
    · have e : onSUP env m aSource params = (m, []) := by
        simp only [onSUP, hfind, ne_eq, hst, not_false_eq_true, if_true]
      rw [e]
      exact Forward.of_eq rfl

theorem myNickFinish_forward {m m1 : ConnectionManager}
    (h : m1.userConnections = m.userConnections) (env : Env) (src uc : UserConnection)
    (q : Nat) (hq : uc.ptr = q) (hsrc : m.findUC q = some src)
    (hst : src.state = .STATE_SUPNICK) :
    Forward m (myNickFinish env m1 uc).1 := by
  unfold myNickFinish
  dsimp only
  refine Forward.store h src _ q ?_ hsrc (Or.inr (Or.inl ⟨hst, rfl⟩))
  have hp : ∀ (a : UserConnection), (a.setState .STATE_LOCK).ptr = a.ptr := fun _ => rfl
  rw [hp]
  split_ifs <;> exact hq

theorem myNickRole_forward {m m1 : ConnectionManager}
    (h : m1.userConnections = m.userConnections) (env : Env) (src uc : UserConnection)
    (aNick : String) (q : Nat) (hq : uc.ptr = q) (hsrc : m.findUC q = some src)
    (hst : src.state = .STATE_SUPNICK) :
    Forward m (myNickRole env m1 uc aNick).1 := by
  unfold myNickRole
  dsimp only
  cases (myNickScan (env.makeCid aNick uc.encoding uc.hubUrl) m1.downloads).2 with
  | none =>
    dsimp only
    split_ifs
    · exact Forward.put h _
    · exact myNickFinish_forward h env src _ q hq hsrc hst
    · exact myNickFinish_forward h env src _ q hq hsrc hst
  | some u =>
    dsimp only
    split_ifs
    · exact Forward.put h _
    · exact myNickFinish_forward h env src _ q hq hsrc hst
    · exact myNickFinish_forward h env src _ q hq hsrc hst

theorem onMyNick_forward (env : Env) (m : ConnectionManager) (aSource : Nat) (aNick : String) :
    Forward m (onMyNick env m aSource aNick).1 := by
  cases hfind : m.findUC aSource with
  | none =>
    have e : onMyNick env m aSource aNick = (m, []) := by simp only [onMyNick, hfind]
    rw [e]
    exact Forward.of_eq rfl
  | some src =>
    have hptr : src.ptr = aSource := (findUC_some m aSource src hfind).1
    by_cases hst : src.state = .STATE_SUPNICK
    · simp only [onMyNick, hfind, hst, ne_eq, not_true_eq_false, if_false]
      split_ifs
      · exact Forward.put rfl _
      · refine myNickRole_forward ?_ env src _ aNick aSource ?_ hfind hst
        · rfl
        · exact hptr
      · exact myNickRole_forward rfl env src src aNick aSource hptr hfind hst
    · have e : onMyNick env m aSource aNick = (m, []) := by
        simp only [onMyNick, hfind, ne_eq, hst, not_false_eq_true, if_true]
      rw [e]
      exact Forward.of_eq rfl

theorem onCLock_forward (env : Env) (m : ConnectionManager) (aSource : Nat) (aLock aPk : String) :
    Forward m (onCLock env m aSource aLock aPk).1 := by
  cases hfind : m.findUC aSource with
  | none =>
    have e : onCLock env m aSource aLock aPk = (m, []) := by simp only [onCLock, hfind]
    rw [e]
    exact Forward.of_eq rfl
  | some src =>
    have hptr : src.ptr = aSource := (findUC_some m aSource src hfind).1
    by_cases hst : src.state = .STATE_LOCK
    · simp only [onCLock, hfind, hst, ne_eq, not_true_eq_false, if_false]
      exact Forward.store rfl src _ aSource hptr hfind (Or.inr (Or.inr (Or.inl ⟨hst, rfl⟩)))
    · have e : onCLock env m aSource aLock aPk = (m, []) := by
        simp only [onCLock, hfind, ne_eq, hst, not_false_eq_true, if_true]
      rw [e]
      exact Forward.of_eq rfl

theorem onDirection_forward (env : Env) (m : ConnectionManager) (aSource : Nat) (dir : String)
    (number : Int) : Forward m (onDirection env m aSource dir number).1 := by
  cases hfind : m.findUC aSource with
  | none =>
    have e : onDirection env m aSource dir number = (m, []) := by simp only [onDirection, hfind]
    rw [e]
    exact Forward.of_eq rfl
  | some src =>
    have hptr : src.ptr = aSource := (findUC_some m aSource src hfind).1
    by_cases hst : src.state = .STATE_DIRECTION
    · simp only [onDirection, hfind, hst, ne_eq, not_true_eq_false, if_false]
      split_ifs <;>
        first
        | exact Forward.put rfl _
        | exact Forward.store rfl src _ aSource hptr hfind
            (Or.inr (Or.inr (Or.inr (Or.inl ⟨hst, rfl⟩))))
    · have e : onDirection env m aSource dir number = (m, []) := by
        simp only [onDirection, hfind, ne_eq, hst, not_false_eq_true, if_true]
      rw [e]
      exact Forward.of_eq rfl

theorem storeUC_storeUC (m : ConnectionManager) (a b : UserConnection) (h : a.ptr = b.ptr) :
    (m.storeUC a).storeUC b = m.storeUC b := by
  simp only [storeUC, List.map_map]
  congr 1
  apply List.map_congr_left
  intro x _
  simp only [Function.comp]
  by_cases hx : x.ptr = a.ptr
  · have hb : x.ptr = b.ptr := hx.trans h
    simp [hx, hb, h]
  · have hb : ¬ x.ptr = b.ptr := fun e => hx (e.trans h.symm)
    simp [hx, hb]

theorem stateRank_le (s : UserConnection.States) : stateRank s ≤ 5 := by
  cases s <;> decide

theorem sameState_of_eq {m m2 : ConnectionManager} (h : m2.userConnections = m.userConnections)
    (p : Nat) (x y : UserConnection) (hx : m.findUC p = some x) (hy : m2.findUC p = some y) :
    x.state = y.state := by
  rw [findUC_frame h p, hx] at hy
  exact congrArg UserConnection.state (Option.some.inj hy)

theorem sameState_put {m m1 : ConnectionManager} (h : m1.userConnections = m.userConnections)
    (q p : Nat) (x y : UserConnection) (hx : m.findUC p = some x)
    (hy : (putConnection m1 q).1.findUC p = some y) : x.state = y.state := by
  by_cases hp : p = q
  · rw [hp, findUC_putConnection] at hy
    cases hy
  · rw [findUC_putConnection_ne m1 q p hp, findUC_frame h p, hx] at hy
    exact congrArg UserConnection.state (Option.some.inj hy)

theorem sameState_store {m m1 : ConnectionManager} (h : m1.userConnections = m.userConnections)
    (src uc : UserConnection) (q : Nat) (hq : uc.ptr = q) (hsrc : m.findUC q = some src)
    (hst : src.state = uc.state) (p : Nat) (x y : UserConnection) (hx : m.findUC p = some x)
    (hy : (m1.storeUC uc).findUC p = some y) : x.state = y.state := by
  subst hq
  by_cases hp : p = uc.ptr
  · rw [hp] at hx hy
    rw [findUC_storeUC m1 uc.ptr src uc ((findUC_frame h uc.ptr).trans hsrc) rfl] at hy
    rw [hsrc] at hx
    rw [← Option.some.inj hx, ← Option.some.inj hy]
    exact hst
  · rw [findUC_storeUC_ne m1 uc p hp, findUC_frame h p, hx] at hy
    exact congrArg UserConnection.state (Option.some.inj hy)

theorem addDownloadConnectionOwn_state (env : Env) (m : ConnectionManager) (src : UserConnection)
    (hfind : m.findUC src.ptr = some src) (p : Nat) (x y : UserConnection)
    (hx : m.findUC p = some x) (hy : (addDownloadConnectionOwn env m src).1.findUC p = some y) :
    x.state = y.state := by
  unfold addDownloadConnectionOwn at hy
  cases hc : findCQI m.downloads src.user with
  | none =>
    rw [hc] at hy
    exact sameState_put rfl _ p x y hx hy
  | some cqi =>
    rw [hc] at hy
    dsimp only at hy
    split_ifs at hy
    · refine sameState_store ?_ src (src.setFlag .FLAG_ASSOCIATED) src.ptr rfl hfind rfl p x y hx hy
      rfl
    · exact sameState_put rfl _ p x y hx hy

theorem addUploadConnectionOwn_state (env : Env) (m : ConnectionManager) (src : UserConnection)
    (hfind : m.findUC src.ptr = some src) (p : Nat) (x y : UserConnection)
    (hx : m.findUC p = some x) (hy : (addUploadConnectionOwn env m src).1.findUC p = some y) :
    x.state = y.state := by
  unfold addUploadConnectionOwn at hy
  cases hc : findCQI m.uploads src.user with
  | none =>
    rw [hc] at hy
    dsimp only at hy
    refine sameState_store ?_ src (src.setFlag .FLAG_ASSOCIATED) src.ptr rfl hfind rfl p x y hx hy
    rfl
  | some cqi =>
    rw [hc] at hy
    exact sameState_put rfl _ p x y hx hy

theorem onKeyOwn_state (env : Env) (m : ConnectionManager) (aSource : Nat) (p : Nat)
    (x y : UserConnection) (hx : m.findUC p = some x)
    (hy : (onKeyOwn env m aSource).1.findUC p = some y) : x.state = y.state := by
  cases hfind : m.findUC aSource with
  | none =>
    have e : onKeyOwn env m aSource = (m, []) := by simp only [onKeyOwn, hfind]
    rw [e] at hy
    exact sameState_of_eq rfl p x y hx hy
  | some src =>
    have hptr : src.ptr = aSource := (findUC_some m aSource src hfind).1
    by_cases hst : src.state = .STATE_KEY
    · simp only [onKeyOwn, hfind, hst, ne_eq, not_true_eq_false, if_false] at hy
      rw [← hptr] at hfind
      split_ifs at hy
      · exact addDownloadConnectionOwn_state env m src hfind p x y hx hy
      · exact addUploadConnectionOwn_state env m src hfind p x y hx hy
    · have e : onKeyOwn env m aSource = (m, []) := by
        simp only [onKeyOwn, hfind, ne_eq, hst, not_false_eq_true, if_true]
      rw [e] at hy
      exact sameState_of_eq rfl p x y hx hy

/-- The `Key` handler with the hand-over is the handler as the source has it,
followed, when the connection is passed to the download or upload manager, by
what that manager does to it. -/
theorem onKey_handOver (env : Env) (m : ConnectionManager) (aSource : Nat) :
    (onKey env m aSource).2 = (onKeyOwn env m aSource).2 ∧
    ((onKey env m aSource).1 = (onKeyOwn env m aSource).1 ∨
      ∃ z, (onKeyOwn env m aSource).1.findUC aSource = some z ∧
        (Effect.downloadAddConnection aSource ∈ (onKeyOwn env m aSource).2 ∨
          Effect.uploadAddConnection aSource ∈ (onKeyOwn env m aSource).2) ∧
        (onKey env m aSource).1 = (onKeyOwn env m aSource).1.storeUC (handOver z)) := by
  cases hfind : m.findUC aSource with
  | none =>
    have e : onKey env m aSource = (m, []) := by simp only [onKey, hfind]
    have e2 : onKeyOwn env m aSource = (m, []) := by simp only [onKeyOwn, hfind]
    rw [e, e2]
    exact ⟨rfl, Or.inl rfl⟩
  | some src =>
    have hptr : src.ptr = aSource := (findUC_some m aSource src hfind).1
    by_cases hst : src.state = .STATE_KEY
    · simp only [onKey, onKeyOwn, hfind, hst, ne_eq, not_true_eq_false, if_false]
      subst hptr
      by_cases hd : src.isSet .FLAG_DOWNLOAD = true
      · rw [if_pos hd, if_pos hd]
        unfold addDownloadConnection addDownloadConnectionOwn
        cases findCQI m.downloads src.user with
        | none => exact ⟨rfl, Or.inl rfl⟩
        | some cqi =>
          dsimp only
          split_ifs
          · refine ⟨rfl, Or.inr ⟨src.setFlag .FLAG_ASSOCIATED, ?_, Or.inl (List.mem_cons_self _ _), ?_⟩⟩
            · exact findUC_storeUC _ src.ptr src _ hfind rfl
            · exact (storeUC_storeUC _ (src.setFlag .FLAG_ASSOCIATED)
              (handOver (src.setFlag .FLAG_ASSOCIATED)) rfl).symm
          · exact ⟨rfl, Or.inl rfl⟩
      · rw [if_neg hd, if_neg hd]
        unfold addUploadConnection addUploadConnectionOwn
        cases findCQI m.uploads src.user with
        | none =>
          dsimp only
          refine ⟨rfl, Or.inr ⟨src.setFlag .FLAG_ASSOCIATED, ?_,
            Or.inr (List.mem_append_right _ (List.mem_cons_self _ _)), ?_⟩⟩
          · exact findUC_storeUC _ src.ptr src _ hfind rfl
          · exact (storeUC_storeUC _ (src.setFlag .FLAG_ASSOCIATED)
              (handOver (src.setFlag .FLAG_ASSOCIATED)) rfl).symm
        | some cqi => exact ⟨rfl, Or.inl rfl⟩
    · have e : onKey env m aSource = (m, []) := by
        simp only [onKey, hfind, ne_eq, hst, not_false_eq_true, if_true]
      have e2 : onKeyOwn env m aSource = (m, []) := by
        simp only [onKeyOwn, hfind, ne_eq, hst, not_false_eq_true, if_true]
      rw [e, e2]
      exact ⟨rfl, Or.inl rfl⟩

theorem onKey_rank (env : Env) (m : ConnectionManager) (aSource : Nat) (p : Nat)
    (x y : UserConnection) (hx : m.findUC p = some x)
    (hy : (onKey env m aSource).1.findUC p = some y) : stateRank x.state ≤ stateRank y.state := by
  rcases (onKey_handOver env m aSource).2 with e | ⟨z, hz, _, e⟩
  · rw [e] at hy
    rw [onKeyOwn_state env m aSource p x y hx hy]
  · rw [e] at hy
    by_cases hp : p = aSource
    · subst hp
      rw [findUC_storeUC _ p z (handOver z) hz (findUC_some _ p z hz).1] at hy
      rw [← Option.some.inj hy]
      exact stateRank_le _
    · have hz2 : (handOver z).ptr = aSource := (findUC_some _ aSource z hz).1
      rw [findUC_storeUC_ne _ _ p (fun e => hp (e.trans hz2))] at hy
      rw [onKeyOwn_state env m aSource p x y hx hy]

theorem onKeyOwn_forward (env : Env) (m : ConnectionManager) (aSource : Nat) :
    Forward m (onKeyOwn env m aSource).1 :=
  fun p x y hx hy => Or.inl (onKeyOwn_state env m aSource p x y hx hy)

/-- C27 (the handshake events are state-guarded and only move forward): for a
connection of the manager, a `SUP` or `MyNick` event outside STATE_SUPNICK, a
`Lock` event outside STATE_LOCK, a `Direction` event outside STATE_DIRECTION and a
`Key` event outside STATE_KEY leave the whole manager state as it is and make no
call. For every state of the manager, every connection that is in
`userConnections` before and after one of these five events, each handler taken
as the source has it (`onKeyOwn` for `Key`), is in the state it was in or has made
one of the four moves SUPNICK to LOCK, LOCK to DIRECTION, DIRECTION to KEY,
SUPNICK to INF, and its place in the handshake has not gone down; the `Key`
handler changes the state of no connection. Of the hand-over: `onKey` makes the
calls of `onKeyOwn`, and the state after it is the state after `onKeyOwn` or, when
the handler has called `addConnection` of the download or upload manager for the
connection, that state with the connection as that manager leaves it; with the
hand-over counted in, no place in the handshake goes down either. -/
theorem handshake_guards (env : Env) (m : ConnectionManager) (aSource : Nat)
    (src : UserConnection) (hfind : m.findUC aSource = some src) :
    (∀ params, src.state ≠ .STATE_SUPNICK → onSUP env m aSource params = (m, [])) ∧
    (∀ aNick, src.state ≠ .STATE_SUPNICK → onMyNick env m aSource aNick = (m, [])) ∧
    (∀ aLock aPk, src.state ≠ .STATE_LOCK → onCLock env m aSource aLock aPk = (m, [])) ∧
    (∀ dir number, src.state ≠ .STATE_DIRECTION →
      onDirection env m aSource dir number = (m, [])) ∧
    (src.state ≠ .STATE_KEY → onKey env m aSource = (m, []) ∧ onKeyOwn env m aSource = (m, [])) ∧
    (∀ (m2 : ConnectionManager),
      ((∃ params, m2 = (onSUP env m aSource params).1) ∨
       (∃ aNick, m2 = (onMyNick env m aSource aNick).1) ∨
       (∃ aLock aPk, m2 = (onCLock env m aSource aLock aPk).1) ∨
       (∃ dir number, m2 = (onDirection env m aSource dir number).1) ∨
       m2 = (onKeyOwn env m aSource).1) →
      ∀ (p : Nat) (x y : UserConnection), m.findUC p = some x → m2.findUC p = some y →
        (x.state = y.state ∨
          (x.state = .STATE_SUPNICK ∧ y.state = .STATE_LOCK) ∨
          (x.state = .STATE_LOCK ∧ y.state = .STATE_DIRECTION) ∨
          (x.state = .STATE_DIRECTION ∧ y.state = .STATE_KEY) ∨
          (x.state = .STATE_SUPNICK ∧ y.state = .STATE_INF)) ∧
        stateRank x.state ≤ stateRank y.state) ∧
    (∀ (p : Nat) (x y : UserConnection), m.findUC p = some x →
      (onKeyOwn env m aSource).1.findUC p = some y → x.state = y.state) ∧
    (onKey env m aSource).2 = (onKeyOwn env m aSource).2 ∧
    ((onKey env m aSource).1 = (onKeyOwn env m aSource).1 ∨
      ∃ z, (onKeyOwn env m aSource).1.findUC aSource = some z ∧
        (Effect.downloadAddConnection aSource ∈ (onKeyOwn env m aSource).2 ∨
          Effect.uploadAddConnection aSource ∈ (onKeyOwn env m aSource).2) ∧
        (onKey env m aSource).1 = (onKeyOwn env m aSource).1.storeUC (handOver z)) ∧
    (∀ (p : Nat) (x y : UserConnection), m.findUC p = some x →
      (onKey env m aSource).1.findUC p = some y → stateRank x.state ≤ stateRank y.state) := by
  refine ⟨?_, ?_, ?_, ?_, ?_, ?_, ?_, (onKey_handOver env m aSource).1,
    (onKey_handOver env m aSource).2, ?_⟩
  · intro params hst
    simp only [onSUP, hfind, ne_eq, hst, not_false_eq_true, if_true]
  · intro aNick hst
    simp only [onMyNick, hfind, ne_eq, hst, not_false_eq_true, if_true]
  · intro aLock aPk hst
    simp only [onCLock, hfind, ne_eq, hst, not_false_eq_true, if_true]
  · intro dir number hst
    simp only [onDirection, hfind, ne_eq, hst, not_false_eq_true, if_true]
  · intro hst
    constructor
    · simp only [onKey, hfind, ne_eq, hst, not_false_eq_true, if_true]
    · simp only [onKeyOwn, hfind, ne_eq, hst, not_false_eq_true, if_true]
  · intro m2 hm2 p x y hx hy
    have hf : Forward m m2 := by
      rcases hm2 with ⟨params, e⟩ | ⟨aNick, e⟩ | ⟨aLock, aPk, e⟩ | ⟨dir, number, e⟩ | e
      · rw [e]; exact onSUP_forward env m aSource params
      · rw [e]; exact onMyNick_forward env m aSource aNick
      · rw [e]; exact onCLock_forward env m aSource aLock aPk
      · rw [e]; exact onDirection_forward env m aSource dir number
      · rw [e]; exact onKeyOwn_forward env m aSource
    exact ⟨hf p x y hx hy, handshakeMove_rank _ _ (hf p x y hx hy)⟩
  · exact fun p x y hx hy => onKeyOwn_state env m aSource p x y hx hy
  · exact fun p x y hx hy => onKey_rank env m aSource p x y hx hy

/-- Witness for C27: the connection of `exampleKeyDownload` is in STATE_KEY; a
second `Lock` event changes nothing. -/
theorem handshake_guards_witness :
    exampleKeyDownload.findUC 2 = some exampleKeyDownloadConnection ∧
    exampleKeyDownloadConnection.state ≠ .STATE_LOCK ∧
    onCLock exampleEnv exampleKeyDownload 2 "lock" "pk" = (exampleKeyDownload, []) :=
  ⟨by decide, by decide,
    (handshake_guards exampleEnv exampleKeyDownload 2 exampleKeyDownloadConnection
      (by decide)).2.2.1 "lock" "pk" (by decide)⟩

end ConnectionManager

end dcpp
